import Mathlib

/-!
# Seeded image segmentation (`MathTools/seededsegmentation.cpp`)

A shallow embedding of the class `SeededSegmentation` and a verification of the
statements its specification makes about it.

Modelling conventions.

* Scalars (`double`, `float`) are elements of a linear ordered field `α` with a floor
  function; arithmetic is exact.  Theorems are stated for every such `α`; the examples
  instantiate `α` with `ℚ`, and with `ℝ` where the real exponential is wanted.
* `exp` (libm) and the header constants `EPSILON`, `MAX_BINARY_VALUE`,
  `THRESHOLD_TYPE` are not defined in the translation unit; they are parameters of the
  functions that use them, and a theorem that needs a property of one of them states it
  as a hypothesis.
* `int` / `unsigned int` / `Eigen::Index` values are integers; the image is assumed small
  enough for `rows * cols` not to overflow.
* A `cv::Mat` is continuous row-major storage: element `(i, j)` is at flat position
  `i * cols + j`.
* An `Eigen::SparseMatrix` is the sequence of triplets inserted so far; the coefficient
  at a position is the sum of the triplets stored there.
-/

set_option linter.unusedSectionVars false

namespace MathTools

/-! ## Part I: definitions -/

/-! ## Library types -/

/-- The two exception classes thrown by the class. -/
inductive Exception where
  | UserInputException (msg : String)
  | MathException (msg : String)
  deriving DecidableEq, Repr

/-- The type `cv::Vec3f`: three colour channels. -/
structure Vec3f (α : Type) where
  c0 : α
  c1 : α
  c2 : α

/-- The type `cv::Mat`, continuous row-major storage addressed by its flat position. -/
structure Mat (τ : Type) where
  rows : Nat
  cols : Nat
  data : Int → τ

/-- The accessor `Mat::at<T>(i0)`: the element at flat position `i0`. -/
def Mat.at1 {τ : Type} (m : Mat τ) (i0 : Int) : τ :=
  m.data i0

/-- The accessor `Mat::at<T>(i, j)`: the element of row `i`, column `j`. -/
def Mat.at2 {τ : Type} (m : Mat τ) (i j : Int) : τ :=
  m.data (i * m.cols + j)

/-- The function `cv::norm(a, b, cv::NORM_INF)` on two `Vec3f`: the largest absolute
channel difference. -/
def normInf {α : Type} [LinearOrderedField α] (a b : Vec3f α) : α :=
  max (max |a.c0 - b.c0| |a.c1 - b.c1|) |a.c2 - b.c2|

/-- The C function `round`: nearest integer, halfway cases away from zero. -/
def cround {α : Type} [LinearOrderedField α] [FloorRing α] (x : α) : α :=
  if 0 ≤ x then ((⌊x + 1 / 2⌋ : ℤ) : α) else ((⌈x - 1 / 2⌉ : ℤ) : α)

/-! ## Sparse matrices -/

/-- An `Eigen::SparseMatrix<double>`: its dimensions and the inserted triplets
`(row, column, value)` in insertion order. -/
structure SparseMatrix (α : Type) where
  rows : Nat
  cols : Nat
  entries : List (Int × Int × α)

namespace SparseMatrix

variable {α : Type}

/-- The constructor `SparseMatrix<double> m(rows, cols)`: no stored entry. -/
def empty (rows cols : Nat) : SparseMatrix α :=
  { rows := rows, cols := cols, entries := [] }

/-- The statement `m.insert(r, c) = v`. -/
def insert (m : SparseMatrix α) (r c : Int) (v : α) : SparseMatrix α :=
  { m with entries := m.entries ++ [(r, c, v)] }

/-- Tells whether position `(r, c)` holds a stored entry. -/
def stored (m : SparseMatrix α) (r c : Int) : Bool :=
  m.entries.any fun e => decide (e.1 = r) && decide (e.2.1 = c)

/-- The number of insertions made at position `(r, c)`. -/
def insertions (m : SparseMatrix α) (r c : Int) : Nat :=
  (m.entries.filter fun e => decide (e.1 = r) && decide (e.2.1 = c)).length

/-- The coefficient `m.coeff(r, c)`: zero where nothing is stored. -/
def coeff [LinearOrderedField α] (m : SparseMatrix α) (r c : Int) : α :=
  (m.entries.map fun e => if e.1 = r ∧ e.2.1 = c then e.2.2 else 0).sum

/-- The sum `a + b` of two sparse matrices: the stored pattern is the union. -/
def add (a b : SparseMatrix α) : SparseMatrix α :=
  { rows := a.rows, cols := a.cols, entries := a.entries ++ b.entries }

/-- The product `a * b` of two sparse matrices: one triplet for each pair of stored
entries `(i, k)` of `a` and `(k, j)` of `b`. -/
def mul [LinearOrderedField α] (a b : SparseMatrix α) : SparseMatrix α :=
  { rows := a.rows
    cols := b.cols
    entries := a.entries.flatMap fun e =>
      b.entries.filterMap fun f =>
        if e.2.1 = f.1 then some (e.1, f.2.1, e.2.2 * f.2.2) else none }

/-- The dense `n × n` matrix of coefficients. -/
def toMatrix [LinearOrderedField α] (n : Nat) (m : SparseMatrix α) :
    Matrix (Fin n) (Fin n) α :=
  Matrix.of fun p q => m.coeff (p.val : Int) (q.val : Int)

end SparseMatrix

/-! ## The class -/

/-- The data members of `SeededSegmentation`. -/
structure SeededSegmentation (α : Type) where
  inputImage : Mat (Vec3f α)
  beta : α
  sigma : α

namespace SeededSegmentation

variable {α : Type} [LinearOrderedField α]

/-- The constructor `SeededSegmentation::SeededSegmentation`: the members are
initialised from the arguments, then `beta` and `sigma` are checked. -/
def construct (inputImageIn : Mat (Vec3f α)) (betaIn sigmaIn : α) :
    Except Exception (SeededSegmentation α) :=
  let self : SeededSegmentation α :=
    { inputImage := inputImageIn, beta := betaIn, sigma := sigmaIn }
  if self.beta < 0 then
    Except.error (Exception.UserInputException "Beta value should be positive")
  else if self.sigma ≤ 0 then
    Except.error (Exception.UserInputException "Sigma value should be greater than 0")
  else
    Except.ok self

/-- The neighbourhood offset table `dy`. -/
def dy : List Int := [-1, -1, -1, 0, 0, 1, 1, 1]

/-- The neighbourhood offset table `dx`. -/
def dx : List Int := [-1, 0, 1, -1, 1, -1, 0, 1]

/-- The constant `neighborhoodSize`. -/
def neighborhoodSize : Nat := 8

/-- The value computed in lines 47-55 of `calculateLaplacian` for pixel `(i, j)` and
offset `k`: the quantised affinity of the pixel and its `k`-th neighbour. -/
def edgeValue [FloorRing α] (expf : α → α) (EPSILON : α) (self : SeededSegmentation α)
    (i j : Int) (k : Nat) : α :=
  let betasigma := -self.beta / self.sigma
  let value := normInf (self.inputImage.at2 i j)
    (self.inputImage.at2 (i + dy.getD k 0) (j + dx.getD k 0))
  let value := expf (betasigma * value * value)
  let value := value / EPSILON
  let value := cround value
  let value := value * EPSILON
  let value := value + EPSILON
  value

/-- One iteration of the loop over `k`: the state is `(dijValue, w)`. -/
def neighborStep [FloorRing α] (expf : α → α) (EPSILON : α) (self : SeededSegmentation α)
    (i j : Int) (acc : α × SparseMatrix α) (k : Nat) : α × SparseMatrix α :=
  if i + dy.getD k 0 < 0 ∨ i + dy.getD k 0 ≥ self.inputImage.rows then acc
  else if j + dx.getD k 0 < 0 ∨ j + dx.getD k 0 ≥ self.inputImage.cols then acc
  else
    let value := edgeValue expf EPSILON self i j k
    (acc.1 + value,
      acc.2.insert (i * self.inputImage.cols + j)
        ((i + dy.getD k 0) * self.inputImage.cols + (j + dx.getD k 0)) (-value))

/-- One iteration of the loop over `j`: the state is `(w, d)`. -/
def pixelStep [FloorRing α] (expf : α → α) (EPSILON : α) (self : SeededSegmentation α)
    (i : Int) (acc : SparseMatrix α × SparseMatrix α) (j : Nat) :
    SparseMatrix α × SparseMatrix α :=
  let inner := (List.range neighborhoodSize).foldl
    (neighborStep expf EPSILON self i j) (0, acc.1)
  (inner.2,
    acc.2.insert (i * self.inputImage.cols + j) (i * self.inputImage.cols + j) inner.1)

/-- One iteration of the loop over `i`: the state is `(w, d)`. -/
def rowStep [FloorRing α] (expf : α → α) (EPSILON : α) (self : SeededSegmentation α)
    (acc : SparseMatrix α × SparseMatrix α) (i : Nat) : SparseMatrix α × SparseMatrix α :=
  (List.range self.inputImage.cols).foldl (pixelStep expf EPSILON self i) acc

/-- The matrices `(w, d)` when the loops of `calculateLaplacian` have run. -/
def laplacianParts [FloorRing α] (expf : α → α) (EPSILON : α) (self : SeededSegmentation α) :
    SparseMatrix α × SparseMatrix α :=
  let numberOfPixels := self.inputImage.cols * self.inputImage.rows
  let w : SparseMatrix α := SparseMatrix.empty numberOfPixels numberOfPixels
  let d : SparseMatrix α := SparseMatrix.empty numberOfPixels numberOfPixels
  (List.range self.inputImage.rows).foldl (rowStep expf EPSILON self) (w, d)

/-- The method `SeededSegmentation::calculateLaplacian`. -/
def calculateLaplacian [FloorRing α] (expf : α → α) (EPSILON : α)
    (self : SeededSegmentation α) : SparseMatrix α :=
  let wd := laplacianParts expf EPSILON self
  wd.1.add wd.2

/-! ### Thresholding -/

/-- The threshold types of `cv::threshold`. -/
inductive ThresholdType where
  | THRESH_BINARY
  | THRESH_BINARY_INV
  | THRESH_TRUNC
  | THRESH_TOZERO
  | THRESH_TOZERO_INV
  deriving DecidableEq, Repr

/-- The function `cv::threshold(src, dst, thresh, maxval, type)`, returning `dst`. -/
def threshold (src : Mat α) (thresh maxval : α) (type : ThresholdType) : Mat α :=
  { rows := src.rows
    cols := src.cols
    data := fun p =>
      match type with
      | ThresholdType.THRESH_BINARY => if src.data p > thresh then maxval else 0
      | ThresholdType.THRESH_BINARY_INV => if src.data p > thresh then 0 else maxval
      | ThresholdType.THRESH_TRUNC => if src.data p > thresh then thresh else src.data p
      | ThresholdType.THRESH_TOZERO => if src.data p > thresh then src.data p else 0
      | ThresholdType.THRESH_TOZERO_INV => if src.data p > thresh then 0 else src.data p }

/-- The method `SeededSegmentation::applyThresholding`; `MAX_BINARY_VALUE` and
`THRESHOLD_TYPE` are the header constants. -/
def applyThresholding (MAX_BINARY_VALUE : α) (THRESHOLD_TYPE : ThresholdType)
    (image : Mat α) (thresholdValue : α) : Mat α :=
  threshold image thresholdValue MAX_BINARY_VALUE THRESHOLD_TYPE

/-! ### The solver service -/

/-- The type `Eigen::ComputationInfo`. -/
inductive ComputationInfo where
  | Success
  | NumericalIssue
  | NoConvergence
  | InvalidInput
  deriving DecidableEq, Repr

/-- A dense vector `Eigen::VectorXd`, addressed by its index. -/
abbrev VectorXd (α : Type) := Int → α

/-- The solver `Eigen::SimplicialLLT<SparseMatrix<double>>` as an external service with
internal state `σ`: `fresh` is the default-constructed solver, `compute` factorises,
`solve` returns the solution and the solver after the solve, `info` reads the status of
the last operation. -/
structure SimplicialLLT (α σ : Type) where
  fresh : σ
  compute : σ → SparseMatrix α → σ
  info : σ → ComputationInfo
  solve : σ → VectorXd α → VectorXd α × σ

/-! ### `segment` -/

/-- The value of a `bool` promoted to `int`. -/
def boolToInt (b : Bool) : Int := if b then 1 else 0

/-- One iteration of the seed loop of `segment`: the state is `(Is, b)`. -/
def seedStep (backgroundImage foregroundImage : Mat Bool)
    (acc : SparseMatrix α × VectorXd α) (i : Nat) : SparseMatrix α × VectorXd α :=
  (acc.1.insert i i
      (if (backgroundImage.at1 i || foregroundImage.at1 i) = true then 1 else 0),
    Function.update acc.2 (i : Int)
      ((boolToInt (backgroundImage.at1 i) - boolToInt (foregroundImage.at1 i) : Int) : α))

/-- The pair `(Is, b)` when the seed loop of `segment` has run. -/
def seedAssembly (self : SeededSegmentation α) (backgroundImage foregroundImage : Mat Bool) :
    SparseMatrix α × VectorXd α :=
  let numberOfPixels := self.inputImage.cols * self.inputImage.rows
  let Is : SparseMatrix α := SparseMatrix.empty numberOfPixels numberOfPixels
  let b : VectorXd α := fun _ => 0
  (List.range numberOfPixels).foldl (seedStep backgroundImage foregroundImage) (Is, b)

/-- The matrix `Is + laplacian * laplacian` that `segment` hands to `solver.compute`. -/
def systemMatrix [FloorRing α] (expf : α → α) (EPSILON : α) (self : SeededSegmentation α)
    (backgroundImage foregroundImage : Mat Bool) : SparseMatrix α :=
  let Is := (seedAssembly self backgroundImage foregroundImage).1
  let laplacian := calculateLaplacian expf EPSILON self
  Is.add (laplacian.mul laplacian)

/-- The constant `threshold` of `segment`. -/
def segmentThreshold : α :=
  let backgroundValue : α := 1
  let foregroundValue : α := -1
  (backgroundValue + foregroundValue) / 2

/-- The matrix `final` of `segment`: zeros, then the first `numberOfPixels` flat positions
are overwritten with `x`. -/
def finalImage (self : SeededSegmentation α) (x : VectorXd α) : Mat α :=
  let numberOfPixels := self.inputImage.cols * self.inputImage.rows
  let zeros : Mat α :=
    { rows := self.inputImage.rows, cols := self.inputImage.cols, data := fun _ => 0 }
  (List.range numberOfPixels).foldl
    (fun (final : Mat α) (i : Nat) =>
      { final with data := Function.update final.data (i : Int) (x (i : Int)) })
    zeros

/-- The method `SeededSegmentation::segment`. -/
def segment [FloorRing α] {σ : Type} (expf : α → α) (EPSILON MAX_BINARY_VALUE : α)
    (THRESHOLD_TYPE : ThresholdType) (solver : SimplicialLLT α σ) (self : SeededSegmentation α)
    (backgroundImage foregroundImage : Mat Bool) : Except Exception (Mat α) :=
  let b := (seedAssembly self backgroundImage foregroundImage).2
  let st := solver.compute solver.fresh
    (systemMatrix expf EPSILON self backgroundImage foregroundImage)
  if solver.info st ≠ ComputationInfo.Success then
    Except.error (Exception.MathException "Decomposition failed")
  else
    let xs := solver.solve st b
    if solver.info xs.2 ≠ ComputationInfo.Success then
      Except.error (Exception.MathException "Solving failed")
    else
      Except.ok (applyThresholding MAX_BINARY_VALUE THRESHOLD_TYPE (finalImage self xs.1)
        segmentThreshold)

end SeededSegmentation

/-! ## Definitions used to state and prove the properties -/

namespace SeededSegmentation

variable {α : Type} [LinearOrderedField α] [FloorRing α]

/-- The two bounds checks of the loop over `k` both pass. -/
def inBounds (self : SeededSegmentation α) (i j : Int) (k : Nat) : Prop :=
  ¬ (i + dy.getD k 0 < 0 ∨ i + dy.getD k 0 ≥ self.inputImage.rows) ∧
  ¬ (j + dx.getD k 0 < 0 ∨ j + dx.getD k 0 ≥ self.inputImage.cols)

instance (self : SeededSegmentation α) (i j : Int) (k : Nat) : Decidable (inBounds self i j k) := by
  unfold inBounds; infer_instance

/-- What the iteration for pixel `(i, j)` adds to the coefficient of `w + d` at `(p, q)`. -/
def contribution (expf : α → α) (EPSILON : α) (self : SeededSegmentation α)
    (i j p q : Int) : α :=
  (∑ k in Finset.range neighborhoodSize,
      if inBounds self i j k ∧ i * self.inputImage.cols + j = p ∧
          (i + dy.getD k 0) * self.inputImage.cols + (j + dx.getD k 0) = q
      then -edgeValue expf EPSILON self i j k else 0) +
    if i * self.inputImage.cols + j = p ∧ i * self.inputImage.cols + j = q
    then ∑ k in Finset.range neighborhoodSize,
      if inBounds self i j k then edgeValue expf EPSILON self i j k else 0
    else 0

/-! ### The graph of the specification -/

/-- The edge weight as the specification words it, for the pixels at flat positions `p`
and `q`: `round(exp(-(beta/sigma) * d^2) / EPSILON) * EPSILON + EPSILON`, where `d` is the
largest over the three channels of `|color(p) - color(q)|`. -/
def weight (expf : α → α) (EPSILON : α) (self : SeededSegmentation α) (p q : Int) : α :=
  let cp := self.inputImage.data p
  let cq := self.inputImage.data q
  let d := max (max |cp.c0 - cq.c0| |cp.c1 - cq.c1|) |cp.c2 - cq.c2|
  cround (expf (-(self.beta / self.sigma) * d ^ 2) / EPSILON) * EPSILON + EPSILON

/-- Two distinct flat positions of a grid of width `W` are 8-neighbours: their rows
differ by at most one and their columns differ by at most one (no wraparound). -/
def adjacent (W p q : Nat) : Prop :=
  p ≠ q ∧ (p / W ≤ q / W + 1 ∧ q / W ≤ p / W + 1) ∧ (p % W ≤ q % W + 1 ∧ q % W ≤ p % W + 1)

instance (W p q : Nat) : Decidable (adjacent W p q) := by
  unfold adjacent; infer_instance

/-- The sum of the values inserted for pixel `(i, j)`: the final `dijValue`. -/
def degree (expf : α → α) (EPSILON : α) (self : SeededSegmentation α) (i j : Int) : α :=
  ∑ k in Finset.range neighborhoodSize,
    if inBounds self i j k then edgeValue expf EPSILON self i j k else 0

end SeededSegmentation

/-! ## Example data -/

section Examples

variable (α : Type) [LinearOrderedField α]

/-- An all-black image with the given dimensions. -/
def blackImage (rows cols : Nat) : Mat (Vec3f α) :=
  { rows := rows, cols := cols, data := fun _ => { c0 := 0, c1 := 0, c2 := 0 } }

/-- The engine bound to an all-black image, with `beta = 1` and `sigma = 1`. -/
def blackEngine (rows cols : Nat) : SeededSegmentation α :=
  { inputImage := blackImage α rows cols, beta := 1, sigma := 1 }

/-- A mask with the given dimensions that is set exactly where `f` is `true`. -/
def maskOf (rows cols : Nat) (f : Int → Bool) : Mat Bool :=
  { rows := rows, cols := cols, data := f }

/-- A solver service that always reports success and returns its right-hand side. -/
def echoSolver : SeededSegmentation.SimplicialLLT α Unit :=
  { fresh := ()
    compute := fun _ _ => ()
    info := fun _ => SeededSegmentation.ComputationInfo.Success
    solve := fun _ b => (b, ()) }

end Examples

namespace SparseMatrix

variable {α : Type}

/-- The sum of `f` over the stored triplets. -/
def sumOver {β : Type} [AddCommMonoid β] (f : Int × Int × α → β) (m : SparseMatrix α) : β :=
  (m.entries.map f).sum

end SparseMatrix

namespace SeededSegmentation

variable {α : Type} [LinearOrderedField α] [FloorRing α]

/-- The weight of the edge between two flat positions, zero when they are not
8-neighbours. -/
def edgeWeight (expf : α → α) (EPSILON : α) (self : SeededSegmentation α) (p q : Nat) : α :=
  if adjacent self.inputImage.cols p q then weight expf EPSILON self p q else 0

/-- The dense Laplacian: the coefficients of the matrix returned by
`calculateLaplacian`. -/
def laplacianMatrix (expf : α → α) (EPSILON : α) (self : SeededSegmentation α) :
    Matrix (Fin (self.inputImage.cols * self.inputImage.rows))
      (Fin (self.inputImage.cols * self.inputImage.rows)) α :=
  (calculateLaplacian expf EPSILON self).toMatrix
    (self.inputImage.cols * self.inputImage.rows)

/-- The seed indicator: `1` when the pixel at flat position `p` is marked in either mask. -/
def seedIndicator (backgroundImage foregroundImage : Mat Bool) (p : Int) : α :=
  if (backgroundImage.at1 p || foregroundImage.at1 p) = true then 1 else 0

/-- The dense system matrix: the coefficients of `Is + laplacian * laplacian`. -/
def systemMatrixDense (expf : α → α) (EPSILON : α) (self : SeededSegmentation α)
    (backgroundImage foregroundImage : Mat Bool) :
    Matrix (Fin (self.inputImage.cols * self.inputImage.rows))
      (Fin (self.inputImage.cols * self.inputImage.rows)) α :=
  (systemMatrix expf EPSILON self backgroundImage foregroundImage).toMatrix
    (self.inputImage.cols * self.inputImage.rows)

/-! ### Uniform images -/

/-- All pixels of the image have the same colour. -/
def isUniform (image : Mat (Vec3f α)) : Prop :=
  ∀ p q : Int, 0 ≤ p → p < (image.cols : Int) * image.rows →
    0 ≤ q → q < (image.cols : Int) * image.rows → image.data p = image.data q

/-- Pixel `(i, j)` of an `H × W` grid touches none of the four sides. -/
def isInterior (H W i j : Nat) : Prop :=
  (0 < i ∧ i + 1 < H) ∧ (0 < j ∧ j + 1 < W)

/-- Pixel `(i, j)` of an `H × W` grid is in the first or last row and in the first or
last column. -/
def isCorner (H W i j : Nat) : Prop :=
  (i = 0 ∨ i + 1 = H) ∧ (j = 0 ∨ j + 1 = W)

instance (H W i j : Nat) : Decidable (isInterior H W i j) := by
  unfold isInterior; infer_instance

instance (H W i j : Nat) : Decidable (isCorner H W i j) := by
  unfold isCorner; infer_instance

/-- The weight `quantize(exp(0))` of an edge between two pixels of the same colour. -/
def uniformWeight (EPSILON : α) : α :=
  cround (1 / EPSILON) * EPSILON + EPSILON

end SeededSegmentation

section Examples

variable (α : Type) [LinearOrderedField α]

/-- A solver service whose factorisation reports a numerical issue. -/
def failingSolver : SeededSegmentation.SimplicialLLT α Unit :=
  { fresh := ()
    compute := fun _ _ => ()
    info := fun _ => SeededSegmentation.ComputationInfo.NumericalIssue
    solve := fun _ b => (b, ()) }

/-- A solver service whose factorisation succeeds and whose solve reports a numerical
issue: the state counts the operations done. -/
def breakingSolver : SeededSegmentation.SimplicialLLT α Nat :=
  { fresh := 0
    compute := fun _ _ => 1
    info := fun s =>
      if s = 1 then SeededSegmentation.ComputationInfo.Success
      else SeededSegmentation.ComputationInfo.NumericalIssue
    solve := fun _ b => (b, 2) }

end Examples

namespace SeededSegmentation

variable {α : Type} [LinearOrderedField α] [FloorRing α]

/-- The right-hand side `b` of the system as a vector indexed by the pixels. -/
def biasVector (self : SeededSegmentation α) (backgroundImage foregroundImage : Mat Bool) :
    Fin (self.inputImage.cols * self.inputImage.rows) → α :=
  fun p => (seedAssembly self backgroundImage foregroundImage).2 ((p.val : Nat) : Int)

end SeededSegmentation

section Examples

variable (α : Type) [LinearOrderedField α]

/-- A solver service that always reports success and returns the field `v`. -/
def constantSolver (v : SeededSegmentation.VectorXd α) :
    SeededSegmentation.SimplicialLLT α Unit :=
  { fresh := ()
    compute := fun _ _ => ()
    info := fun _ => SeededSegmentation.ComputationInfo.Success
    solve := fun _ _ => (v, ()) }

end Examples

namespace SparseMatrix

variable {α : Type}

/-- The number of insertions made in row `r`. -/
def rowInsertions (m : SparseMatrix α) (r : Int) : Nat :=
  (m.entries.filter fun e => decide (e.1 = r)).length

/-- The number of insertions made in column `c`. -/
def colInsertions (m : SparseMatrix α) (c : Int) : Nat :=
  (m.entries.filter fun e => decide (e.2.1 = c)).length

end SparseMatrix

section Examples

variable (α : Type) [LinearOrderedField α]

/-- The 1×3 image of end-to-end case B: colours `[0,0,0]`, `[0,0,0]`, `[255,255,255]`. -/
def caseBImage : Mat (Vec3f α) :=
  { rows := 1
    cols := 3
    data := fun p =>
      if p = 2 then { c0 := 255, c1 := 255, c2 := 255 } else { c0 := 0, c1 := 0, c2 := 0 } }

/-- The engine bound to the image of case B, with parameters `beta` and `sigma`. -/
def caseBEngine (beta sigma : α) : SeededSegmentation α :=
  { inputImage := caseBImage α, beta := beta, sigma := sigma }

/-- The background mask of case B: a seed at column `0` only. -/
def caseBBackground : Mat Bool := maskOf 1 3 fun p => decide (p = 0)

/-- The foreground mask of case B: a seed at column `2` only. -/
def caseBForeground : Mat Bool := maskOf 1 3 fun p => decide (p = 2)

end Examples

/-! ## Part II: lemmas -/

/-! ## Loops and coefficients -/

/-- A `for` loop whose body adds `g i` to an observable `φ` of the state adds the sum
of the `g i`. -/
theorem foldl_range_additive {S β : Type} [AddCommMonoid β] (φ : S → β) (f : S → Nat → S)
    (g : Nat → β) (n : Nat) (h : ∀ s i, i < n → φ (f s i) = φ s + g i) (s : S) :
    φ ((List.range n).foldl f s) = φ s + ∑ i in Finset.range n, g i := by
  induction n with
  | zero => simp
  | succ n ih =>
    rw [List.range_succ, List.foldl_append, Finset.sum_range_succ]
    simp only [List.foldl_cons, List.foldl_nil]
    rw [h _ n (Nat.lt_succ_self n), ih (fun s i hi => h s i (Nat.lt_succ_of_lt hi)), add_assoc]

/-- A `for` loop whose body overwrites position `i` of an array with `g i` leaves the
array holding `g` on the positions visited and untouched elsewhere. -/
theorem foldl_range_update {S β : Type} (proj : S → Int → β) (f : S → Nat → S)
    (g : Nat → β) (n : Nat)
    (h : ∀ s i, proj (f s i) = Function.update (proj s) (i : Int) (g i)) (s : S) :
    proj ((List.range n).foldl f s) =
      fun p => if 0 ≤ p ∧ p < (n : Int) then g p.toNat else proj s p := by
  induction n with
  | zero =>
    funext p
    rw [if_neg]
    · rfl
    · intro hp
      have := hp.2
      simp at this
      omega
  | succ n ih =>
    rw [List.range_succ, List.foldl_append]
    simp only [List.foldl_cons, List.foldl_nil]
    rw [h, ih]
    funext p
    by_cases hpn : p = (n : Int)
    · subst hpn
      rw [Function.update_same, if_pos ⟨by omega, by push_cast; omega⟩, Int.toNat_ofNat]
    · rw [Function.update_noteq hpn]
      by_cases hp : 0 ≤ p ∧ p < (n : Int)
      · rw [if_pos hp, if_pos ⟨hp.1, by push_cast; omega⟩]
      · rw [if_neg hp, if_neg]
        intro hh
        apply hp
        refine ⟨hh.1, ?_⟩
        have := hh.2
        push_cast at this
        omega

/-- A `for` loop whose body preserves a property of the state preserves it. -/
theorem foldl_range_invariant {S : Type} (P : S → Prop) (f : S → Nat → S) (n : Nat)
    (h : ∀ s i, i < n → P s → P (f s i)) (s : S) (hs : P s) :
    P ((List.range n).foldl f s) := by
  induction n with
  | zero => simpa using hs
  | succ n ih =>
    rw [List.range_succ, List.foldl_append]
    simp only [List.foldl_cons, List.foldl_nil]
    exact h _ _ (Nat.lt_succ_self n) (ih (fun s i hi => h s i (Nat.lt_succ_of_lt hi)))

/-- Row-major flattening is injective on in-range columns. -/
theorem idx_inj (W a b a' b' : Int) (hb : 0 ≤ b) (hbW : b < W) (hb' : 0 ≤ b') (hbW' : b' < W)
    (h : a * W + b = a' * W + b') : a = a' ∧ b = b' := by
  have hW : 0 < W := by omega
  have h1 : (a - a') * W = b' - b := by linarith
  have h2 : a - a' = 0 := by
    by_contra hne
    rcases lt_or_gt_of_ne hne with hlt | hgt
    · have : (a - a') * W ≤ -1 * W := by
        apply mul_le_mul_of_nonneg_right _ hW.le
        omega
      omega
    · have : 1 * W ≤ (a - a') * W := by
        apply mul_le_mul_of_nonneg_right _ hW.le
        omega
      omega
  constructor
  · omega
  · rw [h2] at h1; omega

namespace SparseMatrix

variable {α : Type} [LinearOrderedField α]

theorem coeff_empty (r c : Nat) (p q : Int) : (empty r c : SparseMatrix α).coeff p q = 0 := by
  simp [coeff, empty]

theorem coeff_insert (m : SparseMatrix α) (r c : Int) (v : α) (p q : Int) :
    (m.insert r c v).coeff p q = m.coeff p q + if r = p ∧ c = q then v else 0 := by
  simp [coeff, insert]

theorem coeff_add (a b : SparseMatrix α) (p q : Int) :
    (a.add b).coeff p q = a.coeff p q + b.coeff p q := by
  simp [coeff, add]

end SparseMatrix

namespace SeededSegmentation

variable {α : Type} [LinearOrderedField α] [FloorRing α]

theorem neighborStep_fst (expf : α → α) (EPSILON : α) (self : SeededSegmentation α)
    (i j : Int) (acc : α × SparseMatrix α) (k : Nat) :
    (neighborStep expf EPSILON self i j acc k).1 =
      acc.1 + if inBounds self i j k then edgeValue expf EPSILON self i j k else 0 := by
  unfold neighborStep inBounds
  by_cases h1 : i + dy.getD k 0 < 0 ∨ i + dy.getD k 0 ≥ self.inputImage.rows
  · rw [if_pos h1, if_neg (fun h => h.1 h1), add_zero]
  · by_cases h2 : j + dx.getD k 0 < 0 ∨ j + dx.getD k 0 ≥ self.inputImage.cols
    · rw [if_neg h1, if_pos h2, if_neg (fun h => h.2 h2), add_zero]
    · rw [if_neg h1, if_neg h2, if_pos ⟨h1, h2⟩]

theorem neighborStep_coeff (expf : α → α) (EPSILON : α) (self : SeededSegmentation α)
    (i j : Int) (acc : α × SparseMatrix α) (k : Nat) (p q : Int) :
    (neighborStep expf EPSILON self i j acc k).2.coeff p q =
      acc.2.coeff p q +
        if inBounds self i j k ∧ i * self.inputImage.cols + j = p ∧
            (i + dy.getD k 0) * self.inputImage.cols + (j + dx.getD k 0) = q
        then -edgeValue expf EPSILON self i j k else 0 := by
  unfold neighborStep inBounds
  by_cases h1 : i + dy.getD k 0 < 0 ∨ i + dy.getD k 0 ≥ self.inputImage.rows
  · rw [if_pos h1, if_neg (fun h => h.1.1 h1), add_zero]
  · by_cases h2 : j + dx.getD k 0 < 0 ∨ j + dx.getD k 0 ≥ self.inputImage.cols
    · rw [if_neg h1, if_pos h2, if_neg (fun h => h.1.2 h2), add_zero]
    · rw [if_neg h1, if_neg h2, SparseMatrix.coeff_insert]
      congr 1
      by_cases h3 : i * (self.inputImage.cols : Int) + j = p ∧
          (i + dy.getD k 0) * (self.inputImage.cols : Int) + (j + dx.getD k 0) = q
      · rw [if_pos h3, if_pos ⟨⟨h1, h2⟩, h3⟩]
      · rw [if_neg h3, if_neg (fun h => h3 h.2)]

theorem pixelStep_coeff (expf : α → α) (EPSILON : α) (self : SeededSegmentation α)
    (i : Int) (acc : SparseMatrix α × SparseMatrix α) (j : Nat) (p q : Int) :
    (pixelStep expf EPSILON self i acc j).1.coeff p q +
        (pixelStep expf EPSILON self i acc j).2.coeff p q =
      (acc.1.coeff p q + acc.2.coeff p q) + contribution expf EPSILON self i j p q := by
  unfold pixelStep contribution
  simp only [SparseMatrix.coeff_insert]
  rw [foldl_range_additive (fun s : α × SparseMatrix α => s.2.coeff p q) _ _ _
    (fun s k _ => neighborStep_coeff expf EPSILON self i j s k p q)]
  rw [foldl_range_additive (fun s : α × SparseMatrix α => s.1) _ _ _
    (fun s k _ => neighborStep_fst expf EPSILON self i j s k)]
  simp only [zero_add]
  ring

theorem rowStep_coeff (expf : α → α) (EPSILON : α) (self : SeededSegmentation α)
    (acc : SparseMatrix α × SparseMatrix α) (i : Nat) (p q : Int) :
    (rowStep expf EPSILON self acc i).1.coeff p q +
        (rowStep expf EPSILON self acc i).2.coeff p q =
      (acc.1.coeff p q + acc.2.coeff p q) +
        ∑ j in Finset.range self.inputImage.cols, contribution expf EPSILON self i j p q := by
  unfold rowStep
  exact foldl_range_additive
    (fun s : SparseMatrix α × SparseMatrix α => s.1.coeff p q + s.2.coeff p q) _ _ _
    (fun s j _ => pixelStep_coeff expf EPSILON self i s j p q) acc

/-- The coefficient of the returned matrix as a sum over the loop iterations. -/
theorem calculateLaplacian_coeff_sum (expf : α → α) (EPSILON : α)
    (self : SeededSegmentation α) (p q : Int) :
    (calculateLaplacian expf EPSILON self).coeff p q =
      ∑ i in Finset.range self.inputImage.rows, ∑ j in Finset.range self.inputImage.cols,
        contribution expf EPSILON self i j p q := by
  unfold calculateLaplacian laplacianParts
  simp only [SparseMatrix.coeff_add]
  rw [foldl_range_additive
    (fun s : SparseMatrix α × SparseMatrix α => s.1.coeff p q + s.2.coeff p q) _ _ _
    (fun s i _ => rowStep_coeff expf EPSILON self s i p q)]
  simp [SparseMatrix.coeff_empty]

theorem adjacent_symm {W p q : Nat} (h : adjacent W p q) : adjacent W q p :=
  ⟨fun e => h.1 e.symm, ⟨h.2.1.2, h.2.1.1⟩, ⟨h.2.2.2, h.2.2.1⟩⟩

theorem edgeValue_eq_weight (expf : α → α) (EPSILON : α) (self : SeededSegmentation α)
    (i j : Int) (k : Nat) :
    edgeValue expf EPSILON self i j k =
      weight expf EPSILON self (i * self.inputImage.cols + j)
        ((i + dy.getD k 0) * self.inputImage.cols + (j + dx.getD k 0)) := by
  unfold edgeValue weight normInf Mat.at2
  simp only
  congr 5
  ring

theorem weight_comm (expf : α → α) (EPSILON : α) (self : SeededSegmentation α) (p q : Int) :
    weight expf EPSILON self p q = weight expf EPSILON self q p := by
  unfold weight
  simp only [abs_sub_comm (self.inputImage.data p).c0, abs_sub_comm (self.inputImage.data p).c1,
    abs_sub_comm (self.inputImage.data p).c2]

/-- Among the eight offsets exactly one equals `(di, dj)` when `(di, dj)` is a nonzero
offset with components in `[-1, 1]`, and none otherwise. -/
theorem offsets_sum {β : Type} [AddCommMonoid β] (di dj : Int) (v : β) :
    (∑ k in Finset.range neighborhoodSize,
        if dy.getD k 0 = di ∧ dx.getD k 0 = dj then v else 0) =
      if -1 ≤ di ∧ di ≤ 1 ∧ -1 ≤ dj ∧ dj ≤ 1 ∧ ¬ (di = 0 ∧ dj = 0) then v else 0 := by
  have hi : di = -1 ∨ di = 0 ∨ di = 1 ∨ (di < -1 ∨ 1 < di) := by omega
  have hj : dj = -1 ∨ dj = 0 ∨ dj = 1 ∨ (dj < -1 ∨ 1 < dj) := by omega
  simp only [neighborhoodSize, Finset.sum_range_succ, Finset.sum_range_zero, dy, dx,
    List.getD_cons_succ, List.getD_cons_zero, zero_add]
  rcases hi with rfl | rfl | rfl | hi <;> rcases hj with rfl | rfl | rfl | hj
  all_goals first
    | (simp; done)
    | (iterate 9 rw [if_neg (by omega)]
       simp)

/-- The offset `k` passes the bounds checks at `(i0, j0)` and leads to the in-range pixel
`(i1, j1)` exactly when it is the offset `(i1 - i0, j1 - j0)`. -/
theorem inBounds_and_target_iff (self : SeededSegmentation α) (i0 j0 i1 j1 : Int) (k : Nat)
    (hi1 : 0 ≤ i1 ∧ i1 < self.inputImage.rows) (hj1 : 0 ≤ j1 ∧ j1 < self.inputImage.cols) :
    (inBounds self i0 j0 k ∧
        (i0 + dy.getD k 0) * self.inputImage.cols + (j0 + dx.getD k 0) =
          i1 * self.inputImage.cols + j1) ↔
      (dy.getD k 0 = i1 - i0 ∧ dx.getD k 0 = j1 - j0) := by
  unfold inBounds
  constructor
  · rintro ⟨⟨h1, h2⟩, h3⟩
    have := idx_inj self.inputImage.cols _ _ _ _ (by omega) (by omega) hj1.1 hj1.2 h3
    omega
  · rintro ⟨h1, h2⟩
    have e1 : i0 + dy.getD k 0 = i1 := by omega
    have e2 : j0 + dx.getD k 0 = j1 := by omega
    rw [e1, e2]
    exact ⟨⟨by omega, by omega⟩, rfl⟩

theorem contribution_eq_zero (expf : α → α) (EPSILON : α) (self : SeededSegmentation α)
    (i j p q : Int) (h : i * self.inputImage.cols + j ≠ p) :
    contribution expf EPSILON self i j p q = 0 := by
  unfold contribution
  rw [if_neg (fun hh => h hh.1), add_zero]
  apply Finset.sum_eq_zero
  intro k _
  rw [if_neg (fun hh => h hh.2.1)]

/-- Only the iteration for the pixel at flat position `p` touches row `p`. -/
theorem calculateLaplacian_coeff_row (expf : α → α) (EPSILON : α)
    (self : SeededSegmentation α) (i0 j0 : Nat) (hi0 : i0 < self.inputImage.rows)
    (hj0 : j0 < self.inputImage.cols) (q : Int) :
    (calculateLaplacian expf EPSILON self).coeff ((i0 : Int) * self.inputImage.cols + j0) q =
      contribution expf EPSILON self i0 j0 ((i0 : Int) * self.inputImage.cols + j0) q := by
  rw [calculateLaplacian_coeff_sum]
  rw [Finset.sum_eq_single i0]
  · rw [Finset.sum_eq_single j0]
    · intro j hj hne
      apply contribution_eq_zero
      intro h
      have := idx_inj self.inputImage.cols _ _ _ _ (by omega)
        (by have := Finset.mem_range.1 hj; omega) (by omega) (by omega) h
      omega
    · intro h; exact absurd (Finset.mem_range.2 hj0) h
  · intro i _ hne
    apply Finset.sum_eq_zero
    intro j hj
    apply contribution_eq_zero
    intro h
    have := idx_inj self.inputImage.cols _ _ _ _ (by omega)
      (by have := Finset.mem_range.1 hj; omega) (by omega) (by omega) h
    omega
  · intro h; exact absurd (Finset.mem_range.2 hi0) h

/-- The coefficient of the returned matrix at two in-range pixels given by their
coordinates. -/
theorem calculateLaplacian_coeff_idx (expf : α → α) (EPSILON : α)
    (self : SeededSegmentation α) (i0 j0 i1 j1 : Nat)
    (hi0 : i0 < self.inputImage.rows) (hj0 : j0 < self.inputImage.cols)
    (hi1 : i1 < self.inputImage.rows) (hj1 : j1 < self.inputImage.cols) :
    (calculateLaplacian expf EPSILON self).coeff ((i0 : Int) * self.inputImage.cols + j0)
        ((i1 : Int) * self.inputImage.cols + j1) =
      if i0 = i1 ∧ j0 = j1 then degree expf EPSILON self i0 j0
      else if (i0 ≤ i1 + 1 ∧ i1 ≤ i0 + 1) ∧ (j0 ≤ j1 + 1 ∧ j1 ≤ j0 + 1) then
        -weight expf EPSILON self ((i0 : Int) * self.inputImage.cols + j0)
          ((i1 : Int) * self.inputImage.cols + j1)
      else 0 := by
  rw [calculateLaplacian_coeff_row expf EPSILON self i0 j0 hi0 hj0]
  unfold contribution
  have hsum : (∑ k in Finset.range neighborhoodSize,
      if inBounds self i0 j0 k ∧
          (i0 : Int) * self.inputImage.cols + j0 = (i0 : Int) * self.inputImage.cols + j0 ∧
          ((i0 : Int) + dy.getD k 0) * self.inputImage.cols + ((j0 : Int) + dx.getD k 0) =
            (i1 : Int) * self.inputImage.cols + j1
      then -edgeValue expf EPSILON self i0 j0 k else 0) =
      ∑ k in Finset.range neighborhoodSize,
        if dy.getD k 0 = (i1 : Int) - i0 ∧ dx.getD k 0 = (j1 : Int) - j0 then
          -weight expf EPSILON self ((i0 : Int) * self.inputImage.cols + j0)
            ((i1 : Int) * self.inputImage.cols + j1)
        else 0 := by
    apply Finset.sum_congr rfl
    intro k _
    have hiff := inBounds_and_target_iff self i0 j0 i1 j1 k
      ⟨by omega, by omega⟩ ⟨by omega, by omega⟩
    by_cases hc : dy.getD k 0 = (i1 : Int) - i0 ∧ dx.getD k 0 = (j1 : Int) - j0
    · have hb := hiff.2 hc
      rw [if_pos ⟨hb.1, rfl, hb.2⟩, if_pos hc, edgeValue_eq_weight, hb.2]
    · rw [if_neg hc, if_neg (fun hh => hc (hiff.1 ⟨hh.1, hh.2.2⟩))]
  rw [hsum, offsets_sum]
  by_cases hsame : i0 = i1 ∧ j0 = j1
  · obtain ⟨rfl, rfl⟩ := hsame
    rw [if_neg (by omega), if_pos ⟨rfl, rfl⟩, if_pos ⟨rfl, rfl⟩, zero_add]
    rfl
  · have hne : ¬ ((i0 : Int) * self.inputImage.cols + j0 = (i0 : Int) * self.inputImage.cols + j0 ∧
        (i0 : Int) * self.inputImage.cols + j0 = (i1 : Int) * self.inputImage.cols + j1) := by
      intro hh
      have := idx_inj self.inputImage.cols _ _ _ _ (by omega) (by omega) (by omega) (by omega) hh.2
      omega
    rw [if_neg hne, if_neg hsame, add_zero]
    by_cases hadj : (i0 ≤ i1 + 1 ∧ i1 ≤ i0 + 1) ∧ (j0 ≤ j1 + 1 ∧ j1 ≤ j0 + 1)
    · rw [if_pos hadj, if_pos (by omega)]
    · rw [if_neg hadj, if_neg (by omega)]

/-- The coordinates of an in-range flat position. -/
theorem flat_coords (W H p : Nat) (hp : p < W * H) :
    p / W < H ∧ p % W < W ∧ ((p / W : Nat) : Int) * W + ((p % W : Nat) : Int) = (p : Int) := by
  have hW : 0 < W := by
    rcases Nat.eq_zero_or_pos W with h | h
    · rw [h, Nat.zero_mul] at hp; omega
    · exact h
  refine ⟨Nat.div_lt_of_lt_mul hp, Nat.mod_lt _ hW, ?_⟩
  exact_mod_cast Nat.div_add_mod' p W

/-- The coefficient of the returned matrix at two in-range flat positions. -/
theorem calculateLaplacian_coeff (expf : α → α) (EPSILON : α) (self : SeededSegmentation α)
    (p q : Nat) (hp : p < self.inputImage.cols * self.inputImage.rows)
    (hq : q < self.inputImage.cols * self.inputImage.rows) :
    (calculateLaplacian expf EPSILON self).coeff p q =
      if p = q then
        degree expf EPSILON self ((p / self.inputImage.cols : Nat) : Int)
          ((p % self.inputImage.cols : Nat) : Int)
      else if adjacent self.inputImage.cols p q then -weight expf EPSILON self p q
      else 0 := by
  obtain ⟨hi0, hj0, hp'⟩ := flat_coords _ _ p hp
  obtain ⟨hi1, hj1, hq'⟩ := flat_coords _ _ q hq
  have h := calculateLaplacian_coeff_idx expf EPSILON self _ _ _ _ hi0 hj0 hi1 hj1
  rw [hp', hq'] at h
  rw [h]
  have hpq : p = q ↔ p / self.inputImage.cols = q / self.inputImage.cols ∧
      p % self.inputImage.cols = q % self.inputImage.cols := by
    constructor
    · rintro rfl; exact ⟨rfl, rfl⟩
    · rintro ⟨h1, h2⟩
      have e1 := Nat.div_add_mod' p self.inputImage.cols
      have e2 := Nat.div_add_mod' q self.inputImage.cols
      rw [h1, h2] at e1
      omega
  by_cases hsame : p = q
  · rw [if_pos hsame, if_pos (hpq.1 hsame)]
  · rw [if_neg hsame, if_neg (fun hh => hsame (hpq.2 hh))]
    by_cases hadj : adjacent self.inputImage.cols p q
    · rw [if_pos hadj, if_pos hadj.2]
    · rw [if_neg hadj, if_neg (fun hh => hadj ⟨hsame, hh⟩)]

/-- A flat position below `W * H` is determined by its row and column. -/
theorem flat_eq_iff (W p q : Nat) : p = q ↔ p / W = q / W ∧ p % W = q % W := by
  constructor
  · rintro rfl; exact ⟨rfl, rfl⟩
  · rintro ⟨h1, h2⟩
    have e1 := Nat.div_add_mod' p W
    have e2 := Nat.div_add_mod' q W
    rw [h1, h2] at e1
    omega

/-- An in-range pixel has an in-range flat position. -/
theorem idx_lt (W H a b : Int) (ha : 0 ≤ a ∧ a < H) (hb : 0 ≤ b ∧ b < W) :
    0 ≤ a * W + b ∧ a * W + b < W * H := by
  have hW : 0 ≤ W := by omega
  have h1 : (a + 1) * W ≤ H * W := mul_le_mul_of_nonneg_right (by omega) hW
  have h2 : 0 ≤ a * W := mul_nonneg ha.1 hW
  constructor
  · omega
  · have h3 : (a + 1) * W = a * W + W := by ring
    have h4 : H * W = W * H := by ring
    omega

/-- The values inserted for pixel `(i0, j0)` that land in the column of pixel `(i1, j1)`
add up to the weight of the edge between the two pixels when they are 8-neighbours, and
to zero otherwise. -/
theorem neighbor_sum_idx (expf : α → α) (EPSILON : α) (self : SeededSegmentation α)
    (i0 j0 i1 j1 : Nat)
    (hi1 : i1 < self.inputImage.rows) (hj1 : j1 < self.inputImage.cols) :
    (∑ k in Finset.range neighborhoodSize,
      if inBounds self (i0 : Int) (j0 : Int) k ∧
          ((i0 : Int) + dy.getD k 0) * self.inputImage.cols + ((j0 : Int) + dx.getD k 0) =
            (i1 : Int) * self.inputImage.cols + j1
      then edgeValue expf EPSILON self (i0 : Int) (j0 : Int) k
      else 0) =
      if ¬ (i0 = i1 ∧ j0 = j1) ∧ (i0 ≤ i1 + 1 ∧ i1 ≤ i0 + 1) ∧ (j0 ≤ j1 + 1 ∧ j1 ≤ j0 + 1) then
        weight expf EPSILON self ((i0 : Int) * self.inputImage.cols + j0)
          ((i1 : Int) * self.inputImage.cols + j1)
      else 0 := by
  have hsum : (∑ k in Finset.range neighborhoodSize,
      if inBounds self (i0 : Int) (j0 : Int) k ∧
          ((i0 : Int) + dy.getD k 0) * self.inputImage.cols + ((j0 : Int) + dx.getD k 0) =
            (i1 : Int) * self.inputImage.cols + j1
      then edgeValue expf EPSILON self (i0 : Int) (j0 : Int) k
      else 0) =
      ∑ k in Finset.range neighborhoodSize,
        if dy.getD k 0 = (i1 : Int) - i0 ∧ dx.getD k 0 = (j1 : Int) - j0
        then weight expf EPSILON self ((i0 : Int) * self.inputImage.cols + j0)
          ((i1 : Int) * self.inputImage.cols + j1) else 0 := by
    apply Finset.sum_congr rfl
    intro k _
    have hiff := inBounds_and_target_iff self i0 j0 i1 j1 k ⟨by omega, by omega⟩
      ⟨by omega, by omega⟩
    by_cases hc : dy.getD k 0 = (i1 : Int) - i0 ∧ dx.getD k 0 = (j1 : Int) - j0
    · have hb := hiff.2 hc
      rw [if_pos hb, if_pos hc, edgeValue_eq_weight, hb.2]
    · rw [if_neg hc, if_neg (fun hh => hc (hiff.1 hh))]
  rw [hsum, offsets_sum]
  by_cases hadj : ¬ (i0 = i1 ∧ j0 = j1) ∧ (i0 ≤ i1 + 1 ∧ i1 ≤ i0 + 1) ∧ (j0 ≤ j1 + 1 ∧ j1 ≤ j0 + 1)
  · rw [if_pos hadj, if_pos (by omega)]
  · rw [if_neg hadj, if_neg (by omega)]

/-- The values inserted in row `p` that land in column `q` add up to the weight of the
edge `{p, q}` when `p` and `q` are 8-neighbours, and to zero otherwise. -/
theorem neighbor_sum (expf : α → α) (EPSILON : α) (self : SeededSegmentation α)
    (p q : Nat) (hp : p < self.inputImage.cols * self.inputImage.rows)
    (hq : q < self.inputImage.cols * self.inputImage.rows) :
    (∑ k in Finset.range neighborhoodSize,
      if inBounds self ((p / self.inputImage.cols : Nat) : Int)
            ((p % self.inputImage.cols : Nat) : Int) k ∧
          (((p / self.inputImage.cols : Nat) : Int) + dy.getD k 0) * self.inputImage.cols +
            (((p % self.inputImage.cols : Nat) : Int) + dx.getD k 0) = (q : Int)
      then edgeValue expf EPSILON self ((p / self.inputImage.cols : Nat) : Int)
            ((p % self.inputImage.cols : Nat) : Int) k
      else 0) =
      if adjacent self.inputImage.cols p q then weight expf EPSILON self p q else 0 := by
  obtain ⟨hi0, hj0, hp'⟩ := flat_coords _ _ p hp
  obtain ⟨hi1, hj1, hq'⟩ := flat_coords _ _ q hq
  have hpq := flat_eq_iff self.inputImage.cols p q
  have h := neighbor_sum_idx expf EPSILON self (p / self.inputImage.cols)
    (p % self.inputImage.cols) _ _ hi1 hj1
  rw [hp', hq'] at h
  rw [h]
  by_cases hadj : adjacent self.inputImage.cols p q
  · rw [if_pos hadj, if_pos ⟨fun e => hadj.1 (hpq.2 e), hadj.2⟩]
  · rw [if_neg hadj, if_neg (fun hh => hadj ⟨fun e => hh.1 (hpq.1 e), hh.2⟩)]

/-- The diagonal value of row `p` is the sum of the weights of the edges at `p`. -/
theorem degree_eq_sum (expf : α → α) (EPSILON : α) (self : SeededSegmentation α)
    (p : Nat) (hp : p < self.inputImage.cols * self.inputImage.rows) :
    degree expf EPSILON self ((p / self.inputImage.cols : Nat) : Int)
        ((p % self.inputImage.cols : Nat) : Int) =
      ∑ q in (Finset.range (self.inputImage.cols * self.inputImage.rows)).filter
          (fun q => adjacent self.inputImage.cols p q),
        weight expf EPSILON self p q := by
  obtain ⟨hi0, hj0, _⟩ := flat_coords _ _ p hp
  rw [Finset.sum_filter]
  rw [Finset.sum_congr rfl
    (fun q hq => (neighbor_sum expf EPSILON self p q hp (Finset.mem_range.1 hq)).symm)]
  rw [Finset.sum_comm]
  unfold degree
  apply Finset.sum_congr rfl
  intro k _
  by_cases hb : inBounds self ((p / self.inputImage.cols : Nat) : Int)
      ((p % self.inputImage.cols : Nat) : Int) k
  · rw [if_pos hb]
    have hlt := idx_lt self.inputImage.cols self.inputImage.rows
      (((p / self.inputImage.cols : Nat) : Int) + dy.getD k 0)
      (((p % self.inputImage.cols : Nat) : Int) + dx.getD k 0)
      (by unfold inBounds at hb; omega) (by unfold inBounds at hb; omega)
    obtain ⟨t, ht⟩ := Int.eq_ofNat_of_zero_le hlt.1
    rw [ht] at hlt
    rw [ht, Finset.sum_eq_single t]
    · rw [if_pos ⟨hb, rfl⟩]
    · intro q _ hne
      rw [if_neg]
      intro hh
      exact hne (by exact_mod_cast hh.2.symm)
    · intro hh
      exfalso
      apply hh
      rw [Finset.mem_range]
      exact_mod_cast hlt.2
  · rw [if_neg hb]
    symm
    apply Finset.sum_eq_zero
    intro q _
    rw [if_neg (fun hh => hb hh.1)]

/-! ### Seed assembly and thresholding -/

omit [FloorRing α] in
theorem seedAssembly_coeff (self : SeededSegmentation α) (backgroundImage foregroundImage : Mat Bool)
    (p q : Int) :
    (seedAssembly self backgroundImage foregroundImage).1.coeff p q =
      ∑ i in Finset.range (self.inputImage.cols * self.inputImage.rows),
        if (i : Int) = p ∧ (i : Int) = q then
          (if (backgroundImage.at1 i || foregroundImage.at1 i) = true then (1 : α) else 0)
        else 0 := by
  unfold seedAssembly
  simp only
  rw [foldl_range_additive (fun s : SparseMatrix α × VectorXd α => s.1.coeff p q) _ _ _
    (fun s i _ => by unfold seedStep; exact SparseMatrix.coeff_insert _ _ _ _ _ _)]
  simp [SparseMatrix.coeff_empty]

omit [FloorRing α] in
/-- The matrix `Is` is diagonal with the seed indicator on the diagonal. -/
theorem seedAssembly_coeff_flat (self : SeededSegmentation α)
    (backgroundImage foregroundImage : Mat Bool) (p q : Nat)
    (hp : p < self.inputImage.cols * self.inputImage.rows) :
    (seedAssembly self backgroundImage foregroundImage).1.coeff p q =
      if p = q then
        (if (backgroundImage.at1 p || foregroundImage.at1 p) = true then (1 : α) else 0)
      else 0 := by
  rw [seedAssembly_coeff, Finset.sum_eq_single p]
  · by_cases h : p = q
    · subst h; rw [if_pos ⟨rfl, rfl⟩, if_pos rfl]
    · rw [if_neg h, if_neg]
      intro hh
      exact h (by exact_mod_cast hh.2)
  · intro i _ hne
    rw [if_neg]
    intro hh
    exact hne (by exact_mod_cast hh.1)
  · intro hh
    exact absurd (Finset.mem_range.2 hp) hh

omit [FloorRing α] in
theorem seedAssembly_coeff_offdiag (self : SeededSegmentation α)
    (backgroundImage foregroundImage : Mat Bool) (p q : Int) (hpq : p ≠ q) :
    (seedAssembly self backgroundImage foregroundImage).1.coeff p q = 0 := by
  rw [seedAssembly_coeff]
  apply Finset.sum_eq_zero
  intro i _
  rw [if_neg]
  intro hh
  exact hpq (hh.1.symm.trans hh.2)

omit [FloorRing α] in
/-- The vector `b` holds the bias of every pixel. -/
theorem seedAssembly_bias (self : SeededSegmentation α)
    (backgroundImage foregroundImage : Mat Bool) :
    (seedAssembly self backgroundImage foregroundImage).2 =
      fun p => if 0 ≤ p ∧ p < ((self.inputImage.cols * self.inputImage.rows : Nat) : Int) then
        ((boolToInt (backgroundImage.at1 p) - boolToInt (foregroundImage.at1 p) : Int) : α)
      else 0 := by
  unfold seedAssembly
  simp only
  rw [foldl_range_update (fun s : SparseMatrix α × VectorXd α => s.2) _
    (fun i => ((boolToInt (backgroundImage.at1 i) - boolToInt (foregroundImage.at1 i) : Int) : α))
    _ (fun s i => rfl)]
  funext p
  by_cases hp : 0 ≤ p ∧ p < ((self.inputImage.cols * self.inputImage.rows : Nat) : Int)
  · rw [if_pos hp, if_pos hp, Int.toNat_of_nonneg hp.1]
  · rw [if_neg hp, if_neg hp]

omit [FloorRing α] in
/-- The matrix `final` holds `x` on the pixels. -/
theorem finalImage_data (self : SeededSegmentation α) (x : VectorXd α) :
    (finalImage self x).data =
      fun p => if 0 ≤ p ∧ p < ((self.inputImage.cols * self.inputImage.rows : Nat) : Int) then
        x p else 0 := by
  unfold finalImage
  simp only
  rw [foldl_range_update (fun m : Mat α => m.data) _ (fun i => x (i : Int)) _ (fun s i => rfl)]
  funext p
  by_cases hp : 0 ≤ p ∧ p < ((self.inputImage.cols * self.inputImage.rows : Nat) : Int)
  · rw [if_pos hp, if_pos hp, Int.toNat_of_nonneg hp.1]
  · rw [if_neg hp, if_neg hp]

omit [FloorRing α] in
theorem finalImage_dims (self : SeededSegmentation α) (x : VectorXd α) :
    (finalImage self x).rows = self.inputImage.rows ∧
      (finalImage self x).cols = self.inputImage.cols := by
  unfold finalImage
  simp only
  apply foldl_range_invariant
    (fun m : Mat α => m.rows = self.inputImage.rows ∧ m.cols = self.inputImage.cols)
  · intro s i _ hs
    exact hs
  · exact ⟨rfl, rfl⟩

/-! ### Positivity of the weights -/

omit [FloorRing α] in
theorem cround_nonneg_aux : (0 : α) ≤ 1 / 2 := by norm_num

theorem cround_nonneg (x : α) (hx : 0 ≤ x) : 0 ≤ cround x := by
  unfold cround
  rw [if_pos hx]
  have h : 0 ≤ x + 1 / 2 := add_nonneg hx cround_nonneg_aux
  exact_mod_cast Int.floor_nonneg.2 h

/-- The quantisation `round(v / EPSILON) * EPSILON + EPSILON` of a non-negative `v` is at
least `EPSILON`. -/
theorem quantize_ge (v EPSILON : α) (hv : 0 ≤ v) (hε : 0 < EPSILON) :
    EPSILON ≤ cround (v / EPSILON) * EPSILON + EPSILON := by
  have h1 : 0 ≤ cround (v / EPSILON) := cround_nonneg _ (div_nonneg hv hε.le)
  have h2 : 0 ≤ cround (v / EPSILON) * EPSILON := mul_nonneg h1 hε.le
  linarith

theorem weight_ge (expf : α → α) (EPSILON : α) (self : SeededSegmentation α)
    (hexp : ∀ x, 0 ≤ expf x) (hε : 0 < EPSILON) (p q : Int) :
    EPSILON ≤ weight expf EPSILON self p q := by
  unfold weight
  exact quantize_ge _ _ (hexp _) hε

theorem weight_pos (expf : α → α) (EPSILON : α) (self : SeededSegmentation α)
    (hexp : ∀ x, 0 ≤ expf x) (hε : 0 < EPSILON) (p q : Int) :
    0 < weight expf EPSILON self p q :=
  lt_of_lt_of_le hε (weight_ge expf EPSILON self hexp hε p q)

omit [LinearOrderedField α] [FloorRing α] in
/-- None of the eight offsets is `(0, 0)`. -/
theorem offset_ne_zero (k : Nat) (hk : k < neighborhoodSize) :
    ¬ (dy.getD k 0 = 0 ∧ dx.getD k 0 = 0) := by
  unfold neighborhoodSize at hk
  interval_cases k <;> simp [dy, dx]

/-- Every triplet of `w` is off the diagonal and holds a value that is at most `-EPSILON`,
and every triplet of `d` is on the diagonal. -/
theorem laplacianParts_entries (expf : α → α) (EPSILON : α) (self : SeededSegmentation α)
    (hexp : ∀ x, 0 ≤ expf x) (hε : 0 < EPSILON) :
    (∀ e ∈ (laplacianParts expf EPSILON self).1.entries, e.1 ≠ e.2.1 ∧ e.2.2 ≤ -EPSILON) ∧
      (∀ e ∈ (laplacianParts expf EPSILON self).2.entries, e.1 = e.2.1) := by
  unfold laplacianParts
  simp only
  apply foldl_range_invariant (fun s : SparseMatrix α × SparseMatrix α =>
    (∀ e ∈ s.1.entries, e.1 ≠ e.2.1 ∧ e.2.2 ≤ -EPSILON) ∧ (∀ e ∈ s.2.entries, e.1 = e.2.1))
  · intro s i _ hs
    unfold rowStep
    apply foldl_range_invariant (fun s : SparseMatrix α × SparseMatrix α =>
      (∀ e ∈ s.1.entries, e.1 ≠ e.2.1 ∧ e.2.2 ≤ -EPSILON) ∧ (∀ e ∈ s.2.entries, e.1 = e.2.1))
    · intro s j _ hs
      unfold pixelStep
      simp only
      constructor
      · apply foldl_range_invariant (fun t : α × SparseMatrix α =>
          ∀ e ∈ t.2.entries, e.1 ≠ e.2.1 ∧ e.2.2 ≤ -EPSILON)
        · intro t k hk ht
          unfold neighborStep
          by_cases h1 : (i : Int) + dy.getD k 0 < 0 ∨ (i : Int) + dy.getD k 0 ≥ self.inputImage.rows
          · rw [if_pos h1]; exact ht
          · by_cases h2 : (j : Int) + dx.getD k 0 < 0 ∨
                (j : Int) + dx.getD k 0 ≥ self.inputImage.cols
            · rw [if_neg h1, if_pos h2]; exact ht
            · rw [if_neg h1, if_neg h2]
              intro e he
              simp only [SparseMatrix.insert, List.mem_append, List.mem_singleton] at he
              rcases he with he | he
              · exact ht e he
              · subst he
                refine ⟨?_, ?_⟩
                · intro heq
                  have heq' : (i : Int) * self.inputImage.cols + j =
                      ((i : Int) + dy.getD k 0) * self.inputImage.cols +
                        ((j : Int) + dx.getD k 0) := heq
                  have hk' := idx_inj self.inputImage.cols _ _ _ _ (by omega) (by omega)
                    (by omega) (by omega) heq'
                  exact offset_ne_zero k hk (by omega)
                · rw [edgeValue_eq_weight]
                  exact neg_le_neg (weight_ge expf EPSILON self hexp hε _ _)
        · intro e he
          exact hs.1 e he
      · intro e he
        simp only [SparseMatrix.insert, List.mem_append, List.mem_singleton] at he
        rcases he with he | he
        · exact hs.2 e he
        · subst he; rfl
    · exact hs
  · constructor <;> intro e he <;> simp [SparseMatrix.empty] at he

theorem calculateLaplacian_coeff_symm (expf : α → α) (EPSILON : α)
    (self : SeededSegmentation α) (p q : Nat)
    (hp : p < self.inputImage.cols * self.inputImage.rows)
    (hq : q < self.inputImage.cols * self.inputImage.rows) :
    (calculateLaplacian expf EPSILON self).coeff p q =
      (calculateLaplacian expf EPSILON self).coeff q p := by
  rw [calculateLaplacian_coeff expf EPSILON self p q hp hq,
    calculateLaplacian_coeff expf EPSILON self q p hq hp]
  by_cases hpq : p = q
  · subst hpq; rfl
  · rw [if_neg hpq, if_neg (show ¬ q = p from fun h => hpq h.symm)]
    by_cases hadj : adjacent self.inputImage.cols p q
    · rw [if_pos hadj, if_pos (adjacent_symm hadj), weight_comm]
    · rw [if_neg hadj, if_neg (fun h => hadj (adjacent_symm h))]

end SeededSegmentation

namespace SparseMatrix

variable {α : Type}

theorem sumOver_empty {β : Type} [AddCommMonoid β] (f : Int × Int × α → β) (r c : Nat) :
    sumOver f (empty r c : SparseMatrix α) = 0 := by
  simp [sumOver, empty]

theorem sumOver_insert {β : Type} [AddCommMonoid β] (f : Int × Int × α → β)
    (m : SparseMatrix α) (r c : Int) (v : α) :
    sumOver f (m.insert r c v) = sumOver f m + f (r, c, v) := by
  simp [sumOver, insert]

theorem sumOver_add {β : Type} [AddCommMonoid β] (f : Int × Int × α → β)
    (a b : SparseMatrix α) : sumOver f (a.add b) = sumOver f a + sumOver f b := by
  simp [sumOver, add]

theorem insertions_eq_sumOver (m : SparseMatrix α) (r c : Int) :
    m.insertions r c = sumOver (fun e => if e.1 = r ∧ e.2.1 = c then 1 else 0) m := by
  unfold insertions sumOver
  induction m.entries with
  | nil => rfl
  | cons e es ih =>
    rw [List.filter_cons, List.map_cons, List.sum_cons, ← ih]
    by_cases h : e.1 = r ∧ e.2.1 = c
    · simp [h, Nat.add_comm]
    · rw [if_neg h]
      have : (decide (e.1 = r) && decide (e.2.1 = c)) = false := by
        simpa using h
      simp [this]

theorem stored_iff (m : SparseMatrix α) (r c : Int) :
    m.stored r c = true ↔ 0 < m.insertions r c := by
  unfold stored insertions
  rw [List.any_eq_true, List.length_pos_iff_exists_mem]
  constructor
  · rintro ⟨e, he, hp⟩
    exact ⟨e, List.mem_filter.2 ⟨he, hp⟩⟩
  · rintro ⟨e, he⟩
    exact ⟨e, (List.mem_filter.1 he).1, (List.mem_filter.1 he).2⟩

end SparseMatrix

namespace SeededSegmentation

variable {α : Type} [LinearOrderedField α] [FloorRing α]

theorem neighborStep_sumOver {β : Type} [AddCommMonoid β] (f : Int × Int × α → β)
    (expf : α → α) (EPSILON : α) (self : SeededSegmentation α)
    (i j : Int) (acc : α × SparseMatrix α) (k : Nat) :
    SparseMatrix.sumOver f (neighborStep expf EPSILON self i j acc k).2 =
      SparseMatrix.sumOver f acc.2 +
        if inBounds self i j k then
          f (i * self.inputImage.cols + j,
            (i + dy.getD k 0) * self.inputImage.cols + (j + dx.getD k 0),
            -edgeValue expf EPSILON self i j k)
        else 0 := by
  unfold neighborStep inBounds
  by_cases h1 : i + dy.getD k 0 < 0 ∨ i + dy.getD k 0 ≥ self.inputImage.rows
  · rw [if_pos h1, if_neg (fun h => h.1 h1), add_zero]
  · by_cases h2 : j + dx.getD k 0 < 0 ∨ j + dx.getD k 0 ≥ self.inputImage.cols
    · rw [if_neg h1, if_pos h2, if_neg (fun h => h.2 h2), add_zero]
    · rw [if_neg h1, if_neg h2, SparseMatrix.sumOver_insert, if_pos ⟨h1, h2⟩]

/-- The value `dijValue` when the loop over `k` has run. -/
theorem neighborLoop_fst (expf : α → α) (EPSILON : α) (self : SeededSegmentation α)
    (i j : Int) (w : SparseMatrix α) :
    ((List.range neighborhoodSize).foldl (neighborStep expf EPSILON self i j) (0, w)).1 =
      degree expf EPSILON self i j := by
  rw [foldl_range_additive (fun s : α × SparseMatrix α => s.1) _ _ _
    (fun s k _ => neighborStep_fst expf EPSILON self i j s k)]
  simp only [zero_add]
  rfl

/-- The triplets of `w` and of `d`, summed under any functions `f` and `g`. -/
theorem laplacianParts_sumOver {β : Type} [AddCommMonoid β] (f g : Int × Int × α → β)
    (expf : α → α) (EPSILON : α) (self : SeededSegmentation α) :
    SparseMatrix.sumOver f (laplacianParts expf EPSILON self).1 =
        ∑ i in Finset.range self.inputImage.rows, ∑ j in Finset.range self.inputImage.cols,
          ∑ k in Finset.range neighborhoodSize,
            (if inBounds self i j k then
              f ((i : Int) * self.inputImage.cols + j,
                ((i : Int) + dy.getD k 0) * self.inputImage.cols + ((j : Int) + dx.getD k 0),
                -edgeValue expf EPSILON self i j k)
            else 0) ∧
      SparseMatrix.sumOver g (laplacianParts expf EPSILON self).2 =
        ∑ i in Finset.range self.inputImage.rows, ∑ j in Finset.range self.inputImage.cols,
          g ((i : Int) * self.inputImage.cols + j, (i : Int) * self.inputImage.cols + j,
            degree expf EPSILON self i j) := by
  have hpix1 : ∀ (i : Nat) (s : SparseMatrix α × SparseMatrix α) (j : Nat),
      SparseMatrix.sumOver f (pixelStep expf EPSILON self i s j).1 =
        SparseMatrix.sumOver f s.1 + ∑ k in Finset.range neighborhoodSize,
          (if inBounds self i j k then
            f ((i : Int) * self.inputImage.cols + j,
              ((i : Int) + dy.getD k 0) * self.inputImage.cols + ((j : Int) + dx.getD k 0),
              -edgeValue expf EPSILON self i j k)
          else 0) := by
    intro i s j
    unfold pixelStep
    exact foldl_range_additive (fun t : α × SparseMatrix α => SparseMatrix.sumOver f t.2) _ _ _
      (fun t k _ => neighborStep_sumOver f expf EPSILON self i j t k) _
  have hpix2 : ∀ (i : Nat) (s : SparseMatrix α × SparseMatrix α) (j : Nat),
      SparseMatrix.sumOver g (pixelStep expf EPSILON self i s j).2 =
        SparseMatrix.sumOver g s.2 +
          g ((i : Int) * self.inputImage.cols + j, (i : Int) * self.inputImage.cols + j,
            degree expf EPSILON self i j) := by
    intro i s j
    unfold pixelStep
    simp only
    rw [SparseMatrix.sumOver_insert, neighborLoop_fst]
  have hrow1 : ∀ (s : SparseMatrix α × SparseMatrix α) (i : Nat),
      SparseMatrix.sumOver f (rowStep expf EPSILON self s i).1 =
        SparseMatrix.sumOver f s.1 + ∑ j in Finset.range self.inputImage.cols,
          ∑ k in Finset.range neighborhoodSize,
            (if inBounds self i j k then
              f ((i : Int) * self.inputImage.cols + j,
                ((i : Int) + dy.getD k 0) * self.inputImage.cols + ((j : Int) + dx.getD k 0),
                -edgeValue expf EPSILON self i j k)
            else 0) := by
    intro s i
    unfold rowStep
    exact foldl_range_additive
      (fun s : SparseMatrix α × SparseMatrix α => SparseMatrix.sumOver f s.1) _ _ _
      (fun s j _ => hpix1 i s j) s
  have hrow2 : ∀ (s : SparseMatrix α × SparseMatrix α) (i : Nat),
      SparseMatrix.sumOver g (rowStep expf EPSILON self s i).2 =
        SparseMatrix.sumOver g s.2 + ∑ j in Finset.range self.inputImage.cols,
          g ((i : Int) * self.inputImage.cols + j, (i : Int) * self.inputImage.cols + j,
            degree expf EPSILON self i j) := by
    intro s i
    unfold rowStep
    exact foldl_range_additive
      (fun s : SparseMatrix α × SparseMatrix α => SparseMatrix.sumOver g s.2) _ _ _
      (fun s j _ => hpix2 i s j) s
  unfold laplacianParts
  simp only
  constructor
  · rw [foldl_range_additive
      (fun s : SparseMatrix α × SparseMatrix α => SparseMatrix.sumOver f s.1) _ _ _
      (fun s i _ => hrow1 s i)]
    rw [SparseMatrix.sumOver_empty, zero_add]
  · rw [foldl_range_additive
      (fun s : SparseMatrix α × SparseMatrix α => SparseMatrix.sumOver g s.2) _ _ _
      (fun s i _ => hrow2 s i)]
    rw [SparseMatrix.sumOver_empty, zero_add]

/-- The number of insertions into `w` at the position of two in-range pixels: one when
they are 8-neighbours, none otherwise. -/
theorem insertions_w_idx (expf : α → α) (EPSILON : α) (self : SeededSegmentation α)
    (i0 j0 i1 j1 : Nat)
    (hi0 : i0 < self.inputImage.rows) (hj0 : j0 < self.inputImage.cols)
    (hi1 : i1 < self.inputImage.rows) (hj1 : j1 < self.inputImage.cols) :
    (laplacianParts expf EPSILON self).1.insertions ((i0 : Int) * self.inputImage.cols + j0)
        ((i1 : Int) * self.inputImage.cols + j1) =
      if ¬ (i0 = i1 ∧ j0 = j1) ∧ (i0 ≤ i1 + 1 ∧ i1 ≤ i0 + 1) ∧ (j0 ≤ j1 + 1 ∧ j1 ≤ j0 + 1)
      then 1 else 0 := by
  rw [SparseMatrix.insertions_eq_sumOver,
    (laplacianParts_sumOver _ (fun _ => (0 : Nat)) expf EPSILON self).1]
  have hzero : ∀ i j : Nat, j < self.inputImage.cols → ¬ (i = i0 ∧ j = j0) →
      (∑ k in Finset.range neighborhoodSize,
        (if inBounds self i j k then
          (if (i : Int) * self.inputImage.cols + j = (i0 : Int) * self.inputImage.cols + j0 ∧
              ((i : Int) + dy.getD k 0) * self.inputImage.cols + ((j : Int) + dx.getD k 0) =
                (i1 : Int) * self.inputImage.cols + j1 then 1 else 0)
        else 0)) = 0 := by
    intro i j hj hne
    apply Finset.sum_eq_zero
    intro k _
    have hidx : ¬ ((i : Int) * self.inputImage.cols + j =
        (i0 : Int) * self.inputImage.cols + j0) := by
      intro h
      have := idx_inj self.inputImage.cols _ _ _ _ (by omega) (by omega) (by omega)
        (by omega) h
      omega
    by_cases hb : inBounds self i j k
    · rw [if_pos hb, if_neg (fun hh => hidx hh.1)]
    · rw [if_neg hb]
  rw [Finset.sum_eq_single i0]
  · rw [Finset.sum_eq_single j0]
    · have hsum : (∑ k in Finset.range neighborhoodSize,
          (if inBounds self i0 j0 k then
            (if (i0 : Int) * self.inputImage.cols + j0 =
                  (i0 : Int) * self.inputImage.cols + j0 ∧
                ((i0 : Int) + dy.getD k 0) * self.inputImage.cols + ((j0 : Int) + dx.getD k 0) =
                  (i1 : Int) * self.inputImage.cols + j1 then 1 else 0)
          else 0)) =
          ∑ k in Finset.range neighborhoodSize,
            if dy.getD k 0 = (i1 : Int) - i0 ∧ dx.getD k 0 = (j1 : Int) - j0 then 1 else 0 := by
        apply Finset.sum_congr rfl
        intro k _
        have hiff := inBounds_and_target_iff self i0 j0 i1 j1 k ⟨by omega, by omega⟩
          ⟨by omega, by omega⟩
        by_cases hc : dy.getD k 0 = (i1 : Int) - i0 ∧ dx.getD k 0 = (j1 : Int) - j0
        · have hb := hiff.2 hc
          rw [if_pos hb.1, if_pos ⟨rfl, hb.2⟩, if_pos hc]
        · rw [if_neg hc]
          by_cases hb : inBounds self i0 j0 k
          · rw [if_pos hb, if_neg (fun hh => hc (hiff.1 ⟨hb, hh.2⟩))]
          · rw [if_neg hb]
      rw [hsum, offsets_sum]
      by_cases hadj : ¬ (i0 = i1 ∧ j0 = j1) ∧ (i0 ≤ i1 + 1 ∧ i1 ≤ i0 + 1) ∧
          (j0 ≤ j1 + 1 ∧ j1 ≤ j0 + 1)
      · rw [if_pos hadj, if_pos (by omega)]
      · rw [if_neg hadj, if_neg (by omega)]
    · intro j hj hne
      exact hzero i0 j (Finset.mem_range.1 hj) (fun h => hne h.2)
    · intro h; exact absurd (Finset.mem_range.2 hj0) h
  · intro i _ hne
    apply Finset.sum_eq_zero
    intro j hj
    exact hzero i j (Finset.mem_range.1 hj) (fun h => hne h.1)
  · intro h; exact absurd (Finset.mem_range.2 hi0) h

/-- The number of insertions into `w` at two in-range flat positions. -/
theorem insertions_w (expf : α → α) (EPSILON : α) (self : SeededSegmentation α)
    (p q : Nat) (hp : p < self.inputImage.cols * self.inputImage.rows)
    (hq : q < self.inputImage.cols * self.inputImage.rows) :
    (laplacianParts expf EPSILON self).1.insertions p q =
      if adjacent self.inputImage.cols p q then 1 else 0 := by
  obtain ⟨hi0, hj0, hp'⟩ := flat_coords _ _ p hp
  obtain ⟨hi1, hj1, hq'⟩ := flat_coords _ _ q hq
  have hpq := flat_eq_iff self.inputImage.cols p q
  have h := insertions_w_idx expf EPSILON self _ _ _ _ hi0 hj0 hi1 hj1
  rw [hp', hq'] at h
  rw [h]
  by_cases hadj : adjacent self.inputImage.cols p q
  · rw [if_pos hadj, if_pos ⟨fun e => hadj.1 (hpq.2 e), hadj.2⟩]
  · rw [if_neg hadj, if_neg (fun hh => hadj ⟨fun e => hh.1 (hpq.1 e), hh.2⟩)]

/-- The matrix `d` stores nothing off the diagonal. -/
theorem insertions_d_offdiag (expf : α → α) (EPSILON : α) (self : SeededSegmentation α)
    (p q : Int) (hpq : p ≠ q) :
    (laplacianParts expf EPSILON self).2.insertions p q = 0 := by
  rw [SparseMatrix.insertions_eq_sumOver,
    (laplacianParts_sumOver (fun _ => (0 : Nat)) _ expf EPSILON self).2]
  apply Finset.sum_eq_zero
  intro i _
  apply Finset.sum_eq_zero
  intro j _
  simp only
  rw [if_neg]
  intro hh
  exact hpq (hh.1.symm.trans hh.2)

/-- The returned matrix stores an entry at two distinct in-range flat positions exactly
when they are 8-neighbours. -/
theorem calculateLaplacian_stored (expf : α → α) (EPSILON : α) (self : SeededSegmentation α)
    (p q : Nat) (hp : p < self.inputImage.cols * self.inputImage.rows)
    (hq : q < self.inputImage.cols * self.inputImage.rows) (hpq : p ≠ q) :
    (calculateLaplacian expf EPSILON self).stored p q = true ↔
      adjacent self.inputImage.cols p q := by
  rw [SparseMatrix.stored_iff, SparseMatrix.insertions_eq_sumOver]
  unfold calculateLaplacian
  simp only
  rw [SparseMatrix.sumOver_add, ← SparseMatrix.insertions_eq_sumOver,
    ← SparseMatrix.insertions_eq_sumOver, insertions_w expf EPSILON self p q hp hq,
    insertions_d_offdiag expf EPSILON self p q (by exact_mod_cast hpq), add_zero]
  by_cases hadj : adjacent self.inputImage.cols p q
  · rw [if_pos hadj]; exact ⟨fun _ => hadj, fun _ => Nat.one_pos⟩
  · rw [if_neg hadj]; exact ⟨fun h => absurd h (Nat.lt_irrefl 0), fun h => absurd h hadj⟩

end SeededSegmentation

/-! ### The quadratic form of the Laplacian -/

/-- A double sum of a function that vanishes on the diagonal, folded onto the pairs
`p < q`. -/
theorem sum_pairs_fold {α : Type} [LinearOrderedField α] {n : Nat} (g : Fin n → Fin n → α) (hdiag : ∀ p, g p p = 0) :
    (∑ p, ∑ q, g p q) = ∑ p, ∑ q, if p < q then g p q + g q p else 0 := by
  have hsplit : ∀ p q : Fin n,
      g p q = (if p < q then g p q else 0) + (if q < p then g p q else 0) := by
    intro p q
    rcases lt_trichotomy p q with h | h | h
    · rw [if_pos h, if_neg (not_lt.2 h.le), add_zero]
    · subst h
      rw [if_neg (lt_irrefl _), hdiag, add_zero]
    · rw [if_neg (not_lt.2 h.le), if_pos h, zero_add]
  have h1 : (∑ p, ∑ q, g p q) =
      (∑ p, ∑ q, if p < q then g p q else 0) + ∑ p, ∑ q, if q < p then g p q else 0 := by
    rw [← Finset.sum_add_distrib]
    apply Finset.sum_congr rfl
    intro p _
    rw [← Finset.sum_add_distrib]
    apply Finset.sum_congr rfl
    intro q _
    exact hsplit p q
  rw [h1, Finset.sum_comm (f := fun p q => if q < p then g p q else 0),
    ← Finset.sum_add_distrib]
  apply Finset.sum_congr rfl
  intro p _
  rw [← Finset.sum_add_distrib]
  apply Finset.sum_congr rfl
  intro q _
  by_cases h : p < q
  · rw [if_pos h, if_pos h, if_pos h]
  · rw [if_neg h, if_neg h, if_neg h, add_zero]

/-- The quadratic form of a graph Laplacian is the sum over the edges of the weighted
squared differences. -/
theorem laplacian_quadratic_form {α : Type} [LinearOrderedField α] {n : Nat} (a : Fin n → Fin n → α)
    (hsymm : ∀ p q, a p q = a q p) (hdiag : ∀ p, a p p = 0)
    (L : Matrix (Fin n) (Fin n) α)
    (hL : ∀ p q, L p q = if p = q then ∑ r, a p r else -a p q) (x : Fin n → α) :
    Matrix.dotProduct x (L.mulVec x) =
      ∑ p, ∑ q, if p < q then a p q * (x p - x q) ^ 2 else 0 := by
  have hrow : ∀ p, x p * (L.mulVec x) p = ∑ q, a p q * (x p * x p - x p * x q) := by
    intro p
    unfold Matrix.mulVec Matrix.dotProduct
    have : ∀ q, L p q * x q = (if p = q then (∑ r, a p r) * x q else 0) - a p q * x q := by
      intro q
      rw [hL]
      by_cases h : p = q
      · subst h
        rw [if_pos rfl, if_pos rfl, hdiag, zero_mul, sub_zero]
      · rw [if_neg h, if_neg h, zero_sub, neg_mul]
    rw [Finset.sum_congr rfl (fun q _ => this q), Finset.sum_sub_distrib,
      Finset.sum_ite_eq, if_pos (Finset.mem_univ p), mul_sub, Finset.mul_sum, Finset.sum_mul,
      Finset.mul_sum, ← Finset.sum_sub_distrib]
    apply Finset.sum_congr rfl
    intro q _
    ring
  unfold Matrix.dotProduct
  rw [Finset.sum_congr rfl (fun p _ => hrow p),
    sum_pairs_fold (fun p q => a p q * (x p * x p - x p * x q))
      (fun p => by simp only [hdiag, zero_mul])]
  apply Finset.sum_congr rfl
  intro p _
  apply Finset.sum_congr rfl
  intro q _
  by_cases h : p < q
  · rw [if_pos h, if_pos h, hsymm q p]
    ring
  · rw [if_neg h, if_neg h]

namespace SeededSegmentation

variable {α : Type} [LinearOrderedField α] [FloorRing α]

theorem edgeWeight_symm (expf : α → α) (EPSILON : α) (self : SeededSegmentation α)
    (p q : Nat) : edgeWeight expf EPSILON self p q = edgeWeight expf EPSILON self q p := by
  unfold edgeWeight
  by_cases h : adjacent self.inputImage.cols p q
  · rw [if_pos h, if_pos (adjacent_symm h), weight_comm]
  · rw [if_neg h, if_neg (fun h' => h (adjacent_symm h'))]

theorem edgeWeight_self (expf : α → α) (EPSILON : α) (self : SeededSegmentation α)
    (p : Nat) : edgeWeight expf EPSILON self p p = 0 := by
  unfold edgeWeight
  rw [if_neg (fun h => h.1 rfl)]

theorem edgeWeight_nonneg (expf : α → α) (EPSILON : α) (self : SeededSegmentation α)
    (hexp : ∀ x, 0 ≤ expf x) (hε : 0 < EPSILON) (p q : Nat) :
    0 ≤ edgeWeight expf EPSILON self p q := by
  unfold edgeWeight
  by_cases h : adjacent self.inputImage.cols p q
  · rw [if_pos h]; exact (weight_pos expf EPSILON self hexp hε p q).le
  · rw [if_neg h]

/-- The dense Laplacian is the graph Laplacian of the edge weights. -/
theorem laplacianMatrix_apply (expf : α → α) (EPSILON : α) (self : SeededSegmentation α)
    (p q : Fin (self.inputImage.cols * self.inputImage.rows)) :
    laplacianMatrix expf EPSILON self p q =
      if p = q then ∑ r : Fin (self.inputImage.cols * self.inputImage.rows),
        edgeWeight expf EPSILON self p r
      else -edgeWeight expf EPSILON self p q := by
  unfold laplacianMatrix SparseMatrix.toMatrix
  rw [Matrix.of_apply, calculateLaplacian_coeff expf EPSILON self p q p.isLt q.isLt]
  by_cases hpq : p = q
  · rw [if_pos hpq, if_pos (congrArg Fin.val hpq), degree_eq_sum expf EPSILON self p p.isLt,
      Finset.sum_filter,
      ← Fin.sum_univ_eq_sum_range
        (fun r => if adjacent self.inputImage.cols p r then weight expf EPSILON self p r else 0)]
    rfl
  · rw [if_neg hpq, if_neg (fun h => hpq (Fin.ext h))]
    unfold edgeWeight
    by_cases hadj : adjacent self.inputImage.cols p q
    · rw [if_pos hadj, if_pos hadj]
    · rw [if_neg hadj, if_neg hadj, neg_zero]

/-- The quadratic form of the dense Laplacian as a sum over the edges. -/
theorem laplacianMatrix_quadratic_form (expf : α → α) (EPSILON : α)
    (self : SeededSegmentation α)
    (x : Fin (self.inputImage.cols * self.inputImage.rows) → α) :
    Matrix.dotProduct x ((laplacianMatrix expf EPSILON self).mulVec x) =
      ∑ p : Fin (self.inputImage.cols * self.inputImage.rows),
        ∑ q : Fin (self.inputImage.cols * self.inputImage.rows),
          if p < q then edgeWeight expf EPSILON self p q * (x p - x q) ^ 2 else 0 :=
  laplacian_quadratic_form (fun p q => edgeWeight expf EPSILON self p q)
    (fun p q => edgeWeight_symm expf EPSILON self p q)
    (fun p => edgeWeight_self expf EPSILON self p)
    (laplacianMatrix expf EPSILON self)
    (fun p q => laplacianMatrix_apply expf EPSILON self p q) x

end SeededSegmentation

/-! ### The system matrix -/

theorem sum_map_filterMap_ite {α : Type} [LinearOrderedField α] {γ δ : Type} (l : List γ) (c : γ → Prop) [DecidablePred c]
    (g : γ → δ) (h : δ → α) :
    ((l.filterMap fun f => if c f then some (g f) else none).map h).sum =
      (l.map fun f => if c f then h (g f) else 0).sum := by
  induction l with
  | nil => rfl
  | cons f fs ih =>
    by_cases hc : c f
    · simp [List.filterMap_cons, hc, ih]
    · simp [List.filterMap_cons, hc, ih]

namespace SparseMatrix

variable {α : Type} [LinearOrderedField α]

/-- One triplet of the left factor against the right factor. -/
theorem coeff_mul_single (e : Int × Int × α) (b : SparseMatrix α) (p q : Int) :
    ((b.entries.filterMap fun f =>
        if e.2.1 = f.1 then some (e.1, f.2.1, e.2.2 * f.2.2) else none).map
      fun t => if t.1 = p ∧ t.2.1 = q then t.2.2 else 0).sum =
      (if e.1 = p then e.2.2 else 0) * b.coeff e.2.1 q := by
  rw [sum_map_filterMap_ite b.entries (fun f => e.2.1 = f.1)
    (fun f => (e.1, f.2.1, e.2.2 * f.2.2)) (fun t => if t.1 = p ∧ t.2.1 = q then t.2.2 else 0)]
  unfold coeff
  rw [← List.sum_map_mul_left]
  congr 1
  apply List.map_congr_left
  intro f _
  by_cases h1 : e.2.1 = f.1
  · by_cases h2 : e.1 = p
    · by_cases h3 : f.2.1 = q
      · simp [h1, h2, h3]
      · simp [h1, h2, h3]
    · simp [h1, h2]
  · have h1' : ¬ f.1 = e.2.1 := fun h => h1 h.symm
    simp [h1, h1']

theorem coeff_mul (a b : SparseMatrix α) (n : Nat)
    (ha : ∀ e ∈ a.entries, 0 ≤ e.2.1 ∧ e.2.1 < n) (p q : Int) :
    (a.mul b).coeff p q = ∑ k in Finset.range n, a.coeff p k * b.coeff k q := by
  unfold mul
  simp only [coeff]
  generalize a.entries = l at ha
  induction l with
  | nil => simp
  | cons e es ih =>
    rw [List.flatMap_cons, List.map_append, List.sum_append, ih (fun e he => ha e (List.mem_cons_of_mem _ he))]
    have hs := coeff_mul_single e b p q
    unfold coeff at hs
    rw [hs]
    simp only [List.map_cons, List.sum_cons, add_mul, Finset.sum_add_distrib]
    congr 1
    obtain ⟨h0, hn⟩ := ha e (List.mem_cons_self _ _)
    obtain ⟨t, ht⟩ := Int.eq_ofNat_of_zero_le h0
    rw [Finset.sum_eq_single t]
    · by_cases h2 : e.1 = p
      · simp [h2, ht]
      · simp [h2]
    · intro k _ hk
      have : ¬ e.2.1 = (k : Int) := by
        rw [ht]; intro h; exact hk (by exact_mod_cast h.symm)
      simp [this]
    · intro h
      exfalso; apply h
      rw [Finset.mem_range]
      rw [ht] at hn
      exact_mod_cast hn

theorem toMatrix_add (a b : SparseMatrix α) (n : Nat) :
    (a.add b).toMatrix n = a.toMatrix n + b.toMatrix n := by
  ext p q
  simp only [toMatrix, Matrix.of_apply, Matrix.add_apply, coeff_add]

theorem toMatrix_mul (a b : SparseMatrix α) (n : Nat)
    (ha : ∀ e ∈ a.entries, 0 ≤ e.2.1 ∧ e.2.1 < n) :
    (a.mul b).toMatrix n = a.toMatrix n * b.toMatrix n := by
  ext p q
  simp only [toMatrix, Matrix.of_apply, Matrix.mul_apply]
  rw [coeff_mul a b n ha,
    ← Fin.sum_univ_eq_sum_range (fun k => a.coeff p k * b.coeff k q) n]

end SparseMatrix

namespace SeededSegmentation

variable {α : Type} [LinearOrderedField α] [FloorRing α]

/-- Every triplet of `w` and of `d` sits at an in-range row and column. -/
theorem laplacianParts_inRange (expf : α → α) (EPSILON : α) (self : SeededSegmentation α) :
    (∀ e ∈ (laplacianParts expf EPSILON self).1.entries,
        (0 ≤ e.1 ∧ e.1 < ((self.inputImage.cols * self.inputImage.rows : Nat) : Int)) ∧
        (0 ≤ e.2.1 ∧ e.2.1 < ((self.inputImage.cols * self.inputImage.rows : Nat) : Int))) ∧
      (∀ e ∈ (laplacianParts expf EPSILON self).2.entries,
        (0 ≤ e.1 ∧ e.1 < ((self.inputImage.cols * self.inputImage.rows : Nat) : Int)) ∧
        (0 ≤ e.2.1 ∧ e.2.1 < ((self.inputImage.cols * self.inputImage.rows : Nat) : Int))) := by
  have hin : ∀ a b : Int, (0 ≤ a ∧ a < self.inputImage.rows) → (0 ≤ b ∧ b < self.inputImage.cols) →
      (0 ≤ a * self.inputImage.cols + b ∧
        a * self.inputImage.cols + b <
          ((self.inputImage.cols * self.inputImage.rows : Nat) : Int)) := by
    intro a b ha hb
    have := idx_lt self.inputImage.cols self.inputImage.rows a b ha hb
    exact ⟨this.1, by push_cast; exact this.2⟩
  unfold laplacianParts
  simp only
  apply foldl_range_invariant (fun s : SparseMatrix α × SparseMatrix α =>
    (∀ e ∈ s.1.entries,
      (0 ≤ e.1 ∧ e.1 < ((self.inputImage.cols * self.inputImage.rows : Nat) : Int)) ∧
      (0 ≤ e.2.1 ∧ e.2.1 < ((self.inputImage.cols * self.inputImage.rows : Nat) : Int))) ∧
    (∀ e ∈ s.2.entries,
      (0 ≤ e.1 ∧ e.1 < ((self.inputImage.cols * self.inputImage.rows : Nat) : Int)) ∧
      (0 ≤ e.2.1 ∧ e.2.1 < ((self.inputImage.cols * self.inputImage.rows : Nat) : Int))))
  · intro s i hi hs
    unfold rowStep
    apply foldl_range_invariant (fun s : SparseMatrix α × SparseMatrix α =>
      (∀ e ∈ s.1.entries,
        (0 ≤ e.1 ∧ e.1 < ((self.inputImage.cols * self.inputImage.rows : Nat) : Int)) ∧
        (0 ≤ e.2.1 ∧ e.2.1 < ((self.inputImage.cols * self.inputImage.rows : Nat) : Int))) ∧
      (∀ e ∈ s.2.entries,
        (0 ≤ e.1 ∧ e.1 < ((self.inputImage.cols * self.inputImage.rows : Nat) : Int)) ∧
        (0 ≤ e.2.1 ∧ e.2.1 < ((self.inputImage.cols * self.inputImage.rows : Nat) : Int))))
    · intro s j hj hs
      have hij := hin i j ⟨by omega, by omega⟩ ⟨by omega, by omega⟩
      unfold pixelStep
      simp only
      constructor
      · apply foldl_range_invariant (fun t : α × SparseMatrix α =>
          ∀ e ∈ t.2.entries,
            (0 ≤ e.1 ∧ e.1 < ((self.inputImage.cols * self.inputImage.rows : Nat) : Int)) ∧
            (0 ≤ e.2.1 ∧ e.2.1 < ((self.inputImage.cols * self.inputImage.rows : Nat) : Int)))
        · intro t k _ ht
          unfold neighborStep
          by_cases h1 : (i : Int) + dy.getD k 0 < 0 ∨ (i : Int) + dy.getD k 0 ≥ self.inputImage.rows
          · rw [if_pos h1]; exact ht
          · by_cases h2 : (j : Int) + dx.getD k 0 < 0 ∨
                (j : Int) + dx.getD k 0 ≥ self.inputImage.cols
            · rw [if_neg h1, if_pos h2]; exact ht
            · rw [if_neg h1, if_neg h2]
              intro e he
              simp only [SparseMatrix.insert, List.mem_append, List.mem_singleton] at he
              rcases he with he | he
              · exact ht e he
              · subst he
                exact ⟨hij, hin _ _ ⟨by omega, by omega⟩ ⟨by omega, by omega⟩⟩
        · intro e he
          exact hs.1 e he
      · intro e he
        simp only [SparseMatrix.insert, List.mem_append, List.mem_singleton] at he
        rcases he with he | he
        · exact hs.2 e he
        · subst he
          exact ⟨hij, hij⟩
    · exact hs
  · constructor <;> intro e he <;> simp [SparseMatrix.empty] at he

theorem calculateLaplacian_inRange (expf : α → α) (EPSILON : α) (self : SeededSegmentation α) :
    ∀ e ∈ (calculateLaplacian expf EPSILON self).entries,
      0 ≤ e.2.1 ∧ e.2.1 < ((self.inputImage.cols * self.inputImage.rows : Nat) : Int) := by
  intro e he
  have h := laplacianParts_inRange expf EPSILON self
  unfold calculateLaplacian SparseMatrix.add at he
  simp only [List.mem_append] at he
  rcases he with he | he
  · exact (h.1 e he).2
  · exact (h.2 e he).2

/-- The dense system matrix is the seed diagonal plus the square of the dense
Laplacian. -/
theorem systemMatrixDense_eq (expf : α → α) (EPSILON : α) (self : SeededSegmentation α)
    (backgroundImage foregroundImage : Mat Bool) :
    systemMatrixDense expf EPSILON self backgroundImage foregroundImage =
      Matrix.diagonal (fun p : Fin (self.inputImage.cols * self.inputImage.rows) =>
          (seedIndicator backgroundImage foregroundImage p : α)) +
        laplacianMatrix expf EPSILON self * laplacianMatrix expf EPSILON self := by
  unfold systemMatrixDense systemMatrix laplacianMatrix
  simp only
  rw [SparseMatrix.toMatrix_add,
    SparseMatrix.toMatrix_mul _ _ _ (calculateLaplacian_inRange expf EPSILON self)]
  congr 1
  ext p q
  unfold SparseMatrix.toMatrix seedIndicator
  rw [Matrix.of_apply, seedAssembly_coeff_flat self _ _ p q p.isLt, Matrix.diagonal_apply]
  by_cases h : p = q
  · rw [if_pos h, if_pos (congrArg Fin.val h)]
  · rw [if_neg h, if_neg (fun hh => h (Fin.ext hh))]

/-! ### Connectivity of the grid and definiteness -/

omit [LinearOrderedField α] [FloorRing α] in
theorem coords_div_mod (W i j : Nat) (hj : j < W) :
    (i * W + j) / W = i ∧ (i * W + j) % W = j := by
  have hW : 0 < W := by omega
  constructor
  · rw [Nat.add_comm, Nat.add_mul_div_right _ _ hW, Nat.div_eq_of_lt hj, Nat.zero_add]
  · rw [Nat.add_comm, Nat.add_mul_mod_self_right, Nat.mod_eq_of_lt hj]

omit [LinearOrderedField α] [FloorRing α] in
/-- The 8-connected grid is connected: a function that agrees on every pair of
8-neighbours is constant. -/
theorem grid_connected (W H : Nat) (y : Nat → α)
    (hadj : ∀ p q, p < W * H → q < W * H → adjacent W p q → y p = y q) :
    ∀ p, p < W * H → y p = y 0 := by
  have hlt : ∀ i j, i < H → j < W → i * W + j < W * H := by
    intro i j hi hj
    have h1 : (i + 1) * W ≤ H * W := Nat.mul_le_mul_right _ (by omega)
    rw [Nat.succ_mul] at h1
    rw [Nat.mul_comm W H]
    omega
  have hrow : ∀ i, i < H → ∀ j, j < W → y (i * W + j) = y (i * W) := by
    intro i hi j
    induction j with
    | zero => intro _; rfl
    | succ j ih =>
      intro hj
      rw [← ih (by omega)]
      apply hadj _ _ (hlt i (j + 1) hi hj) (hlt i j hi (by omega))
      have h1 := coords_div_mod W i (j + 1) hj
      have h2 := coords_div_mod W i j (by omega)
      refine ⟨by omega, ?_, ?_⟩
      · rw [h1.1, h2.1]; omega
      · rw [h1.2, h2.2]; omega
  have hcol : ∀ i, i < H → y (i * W) = y 0 := by
    intro i
    induction i with
    | zero => intro _; rw [Nat.zero_mul]
    | succ i ih =>
      intro hi
      rcases Nat.eq_zero_or_pos W with h | hW
      · rw [h, Nat.mul_zero]
      · rw [← ih (by omega)]
        have h1 := coords_div_mod W (i + 1) 0 hW
        have h2 := coords_div_mod W i 0 hW
        rw [Nat.add_zero] at h1 h2
        apply hadj _ _ (by simpa using hlt (i + 1) 0 hi hW)
          (by simpa using hlt i 0 (by omega) hW)
        refine ⟨?_, ?_, ?_⟩
        · intro h
          have := congrArg (· / W) h
          simp only [h1.1, h2.1] at this
          omega
        · rw [h1.1, h2.1]; omega
        · rw [h1.2, h2.2]; omega
  intro p hp
  have hW : 0 < W := by
    rcases Nat.eq_zero_or_pos W with h | h
    · rw [h, Nat.zero_mul] at hp; omega
    · exact h
  have hi : p / W < H := Nat.div_lt_of_lt_mul hp
  have hj : p % W < W := Nat.mod_lt _ hW
  have hp' := Nat.div_add_mod' p W
  rw [← hp', hrow _ hi _ hj, hcol _ hi]

theorem laplacianMatrix_transpose (expf : α → α) (EPSILON : α) (self : SeededSegmentation α) :
    (laplacianMatrix expf EPSILON self).transpose = laplacianMatrix expf EPSILON self := by
  ext p q
  rw [Matrix.transpose_apply, laplacianMatrix_apply, laplacianMatrix_apply]
  by_cases h : p = q
  · subst h; rfl
  · rw [if_neg h, if_neg (fun hh => h hh.symm), edgeWeight_symm]

/-- Every row of the dense Laplacian sums to zero. -/
theorem laplacianMatrix_mulVec_one (expf : α → α) (EPSILON : α)
    (self : SeededSegmentation α) :
    (laplacianMatrix expf EPSILON self).mulVec (fun _ => 1) = 0 := by
  funext p
  unfold Matrix.mulVec Matrix.dotProduct
  simp only [mul_one, Pi.zero_apply]
  have : ∀ q, laplacianMatrix expf EPSILON self p q =
      (if p = q then ∑ r : Fin (self.inputImage.cols * self.inputImage.rows),
        edgeWeight expf EPSILON self p r else 0) - edgeWeight expf EPSILON self p q := by
    intro q
    rw [laplacianMatrix_apply]
    by_cases h : p = q
    · subst h
      rw [if_pos rfl, if_pos rfl, edgeWeight_self, sub_zero]
    · rw [if_neg h, if_neg h, zero_sub]
  rw [Finset.sum_congr rfl (fun q _ => this q), Finset.sum_sub_distrib, Finset.sum_ite_eq,
    if_pos (Finset.mem_univ p), sub_self]

/-- The quadratic form of the dense system matrix. -/
theorem systemMatrixDense_quadratic_form (expf : α → α) (EPSILON : α)
    (self : SeededSegmentation α) (backgroundImage foregroundImage : Mat Bool)
    (x : Fin (self.inputImage.cols * self.inputImage.rows) → α) :
    Matrix.dotProduct x
        ((systemMatrixDense expf EPSILON self backgroundImage foregroundImage).mulVec x) =
      (∑ p : Fin (self.inputImage.cols * self.inputImage.rows),
          seedIndicator backgroundImage foregroundImage p * x p ^ 2) +
        Matrix.dotProduct ((laplacianMatrix expf EPSILON self).mulVec x)
          ((laplacianMatrix expf EPSILON self).mulVec x) := by
  rw [systemMatrixDense_eq, Matrix.add_mulVec, Matrix.dotProduct_add]
  congr 1
  · unfold Matrix.dotProduct
    apply Finset.sum_congr rfl
    intro p _
    rw [Matrix.mulVec_diagonal]
    ring
  · rw [← Matrix.mulVec_mulVec, Matrix.dotProduct_mulVec, ← Matrix.mulVec_transpose,
      laplacianMatrix_transpose]

/-- A vector in the kernel of the dense Laplacian is constant. -/
theorem laplacianMatrix_kernel_const (expf : α → α) (EPSILON : α)
    (self : SeededSegmentation α) (hexp : ∀ x, 0 ≤ expf x) (hε : 0 < EPSILON)
    (x : Fin (self.inputImage.cols * self.inputImage.rows) → α)
    (hx : (laplacianMatrix expf EPSILON self).mulVec x = 0)
    (p q : Fin (self.inputImage.cols * self.inputImage.rows)) : x p = x q := by
  have hq : Matrix.dotProduct x ((laplacianMatrix expf EPSILON self).mulVec x) = 0 := by
    rw [hx, Matrix.dotProduct_zero]
  rw [laplacianMatrix_quadratic_form] at hq
  have hterm_nonneg : ∀ a b : Fin (self.inputImage.cols * self.inputImage.rows),
      0 ≤ (if a < b then edgeWeight expf EPSILON self a b * (x a - x b) ^ 2 else 0) := by
    intro a b
    by_cases h : a < b
    · rw [if_pos h]
      exact mul_nonneg (edgeWeight_nonneg expf EPSILON self hexp hε a b) (sq_nonneg _)
    · rw [if_neg h]
  have h1 := (Finset.sum_eq_zero_iff_of_nonneg
    (fun a _ => Finset.sum_nonneg (fun b _ => hterm_nonneg a b))).1 hq
  have hlt : ∀ a b : Fin (self.inputImage.cols * self.inputImage.rows), a < b →
      adjacent self.inputImage.cols a b → x a = x b := by
    intro a b hab hadj
    have h2 := (Finset.sum_eq_zero_iff_of_nonneg (fun b _ => hterm_nonneg a b)).1
      (h1 a (Finset.mem_univ a)) b (Finset.mem_univ b)
    rw [if_pos hab] at h2
    unfold edgeWeight at h2
    rw [if_pos hadj] at h2
    have hw := weight_pos expf EPSILON self hexp hε a b
    rcases mul_eq_zero.1 h2 with h3 | h3
    · exact absurd h3 (ne_of_gt hw)
    · exact sub_eq_zero.1 ((pow_eq_zero_iff two_ne_zero).1 h3)
  have hadj : ∀ a b : Nat, a < self.inputImage.cols * self.inputImage.rows →
      b < self.inputImage.cols * self.inputImage.rows → adjacent self.inputImage.cols a b →
      (fun t : Nat => if h : t < self.inputImage.cols * self.inputImage.rows
        then x ⟨t, h⟩ else 0) a =
      (fun t : Nat => if h : t < self.inputImage.cols * self.inputImage.rows
        then x ⟨t, h⟩ else 0) b := by
    intro a b ha hb hab
    simp only [dif_pos ha, dif_pos hb]
    rcases Nat.lt_or_gt_of_ne hab.1 with h | h
    · exact hlt ⟨a, ha⟩ ⟨b, hb⟩ h hab
    · exact (hlt ⟨b, hb⟩ ⟨a, ha⟩ h (adjacent_symm hab)).symm
  have hconst := grid_connected self.inputImage.cols self.inputImage.rows _ hadj
  have hp := hconst p p.isLt
  have hq' := hconst q q.isLt
  simp only [dif_pos p.isLt, dif_pos q.isLt] at hp hq'
  rw [hp, hq']

/-- When some pixel is marked, the dense system matrix has a trivial kernel. -/
theorem systemMatrixDense_kernel (expf : α → α) (EPSILON : α) (self : SeededSegmentation α)
    (hexp : ∀ x, 0 ≤ expf x) (hε : 0 < EPSILON) (backgroundImage foregroundImage : Mat Bool)
    (s : Fin (self.inputImage.cols * self.inputImage.rows))
    (hs : (backgroundImage.at1 s || foregroundImage.at1 s) = true)
    (x : Fin (self.inputImage.cols * self.inputImage.rows) → α)
    (hx : (systemMatrixDense expf EPSILON self backgroundImage foregroundImage).mulVec x = 0) :
    x = 0 := by
  have hq : Matrix.dotProduct x
      ((systemMatrixDense expf EPSILON self backgroundImage foregroundImage).mulVec x) = 0 := by
    rw [hx, Matrix.dotProduct_zero]
  rw [systemMatrixDense_quadratic_form] at hq
  have hseed_nonneg : ∀ p : Fin (self.inputImage.cols * self.inputImage.rows),
      0 ≤ (seedIndicator backgroundImage foregroundImage p : α) * x p ^ 2 := by
    intro p
    apply mul_nonneg _ (sq_nonneg _)
    unfold seedIndicator
    split_ifs
    · exact zero_le_one
    · exact le_refl _
  have hA : 0 ≤ ∑ p : Fin (self.inputImage.cols * self.inputImage.rows),
      (seedIndicator backgroundImage foregroundImage p : α) * x p ^ 2 :=
    Finset.sum_nonneg (fun p _ => hseed_nonneg p)
  have hB : 0 ≤ Matrix.dotProduct ((laplacianMatrix expf EPSILON self).mulVec x)
      ((laplacianMatrix expf EPSILON self).mulVec x) :=
    Finset.sum_nonneg (fun p _ => mul_self_nonneg _)
  have hA0 : (∑ p : Fin (self.inputImage.cols * self.inputImage.rows),
      (seedIndicator backgroundImage foregroundImage p : α) * x p ^ 2) = 0 := by linarith
  have hB0 : Matrix.dotProduct ((laplacianMatrix expf EPSILON self).mulVec x)
      ((laplacianMatrix expf EPSILON self).mulVec x) = 0 := by linarith
  have hL : (laplacianMatrix expf EPSILON self).mulVec x = 0 :=
    Matrix.dotProduct_self_eq_zero.1 hB0
  have hxs : x s = 0 := by
    have h := (Finset.sum_eq_zero_iff_of_nonneg (fun p _ => hseed_nonneg p)).1 hA0 s
      (Finset.mem_univ s)
    unfold seedIndicator at h
    rw [if_pos hs, one_mul] at h
    exact (pow_eq_zero_iff two_ne_zero).1 h
  funext p
  rw [laplacianMatrix_kernel_const expf EPSILON self hexp hε x hL p s, hxs]
  rfl

/-- When some pixel is marked, the dense system matrix is invertible. -/
theorem systemMatrixDense_isUnit (expf : α → α) (EPSILON : α) (self : SeededSegmentation α)
    (hexp : ∀ x, 0 ≤ expf x) (hε : 0 < EPSILON) (backgroundImage foregroundImage : Mat Bool)
    (s : Fin (self.inputImage.cols * self.inputImage.rows))
    (hs : (backgroundImage.at1 s || foregroundImage.at1 s) = true) :
    IsUnit (systemMatrixDense expf EPSILON self backgroundImage foregroundImage) := by
  rw [← Matrix.mulVec_injective_iff_isUnit]
  intro x y hxy
  have h : (systemMatrixDense expf EPSILON self backgroundImage foregroundImage).mulVec
      (x - y) = 0 := by
    rw [Matrix.mulVec_sub, hxy, sub_self]
  exact sub_eq_zero.1
    (systemMatrixDense_kernel expf EPSILON self hexp hε backgroundImage foregroundImage s hs _ h)

/-- The dense Laplacian of a non-empty image is singular. -/
theorem laplacianMatrix_not_isUnit (expf : α → α) (EPSILON : α) (self : SeededSegmentation α)
    (hN : 0 < self.inputImage.cols * self.inputImage.rows) :
    ¬ IsUnit (laplacianMatrix expf EPSILON self) := by
  intro hunit
  have hinj := Matrix.mulVec_injective_iff_isUnit.2 hunit
  have h0 : (laplacianMatrix expf EPSILON self).mulVec (fun _ => 1) =
      (laplacianMatrix expf EPSILON self).mulVec 0 := by
    rw [laplacianMatrix_mulVec_one, Matrix.mulVec_zero]
  have h1 := congrFun (hinj h0) ⟨0, hN⟩
  exact one_ne_zero h1

/-- When no pixel is marked, the dense system matrix of a non-empty image is singular. -/
theorem systemMatrixDense_not_isUnit (expf : α → α) (EPSILON : α)
    (self : SeededSegmentation α) (backgroundImage foregroundImage : Mat Bool)
    (hN : 0 < self.inputImage.cols * self.inputImage.rows)
    (hnone : ∀ p : Fin (self.inputImage.cols * self.inputImage.rows),
      (backgroundImage.at1 p || foregroundImage.at1 p) = false) :
    ¬ IsUnit (systemMatrixDense expf EPSILON self backgroundImage foregroundImage) := by
  intro hunit
  have hinj := Matrix.mulVec_injective_iff_isUnit.2 hunit
  have hdiag : Matrix.diagonal (fun p : Fin (self.inputImage.cols * self.inputImage.rows) =>
      (seedIndicator backgroundImage foregroundImage p : α)) = 0 := by
    ext p q
    rw [Matrix.diagonal_apply]
    unfold seedIndicator
    rw [hnone p]
    simp
  have h0 : (systemMatrixDense expf EPSILON self backgroundImage foregroundImage).mulVec
      (fun _ => 1) =
      (systemMatrixDense expf EPSILON self backgroundImage foregroundImage).mulVec 0 := by
    rw [systemMatrixDense_eq, hdiag, zero_add, ← Matrix.mulVec_mulVec,
      laplacianMatrix_mulVec_one, Matrix.mulVec_zero, Matrix.mulVec_zero]
  have h1 := congrFun (hinj h0) ⟨0, hN⟩
  exact one_ne_zero h1

theorem weight_uniform (expf : α → α) (EPSILON : α) (self : SeededSegmentation α)
    (hexp0 : expf 0 = 1) (p q : Int) (h : self.inputImage.data p = self.inputImage.data q) :
    weight expf EPSILON self p q = uniformWeight EPSILON := by
  unfold weight uniformWeight
  simp only [h, sub_self, abs_zero, max_self]
  rw [show (-(self.beta / self.sigma) * (0 : α) ^ 2) = 0 by ring, hexp0]

theorem degree_uniform (expf : α → α) (EPSILON : α) (self : SeededSegmentation α)
    (hexp0 : expf 0 = 1) (huni : isUniform self.inputImage) (i j : Nat)
    (hi : i < self.inputImage.rows) (hj : j < self.inputImage.cols) :
    degree expf EPSILON self i j =
      ∑ k in Finset.range neighborhoodSize,
        if inBounds self i j k then uniformWeight EPSILON else 0 := by
  unfold degree
  apply Finset.sum_congr rfl
  intro k _
  by_cases hb : inBounds self i j k
  · rw [if_pos hb, if_pos hb, edgeValue_eq_weight]
    apply weight_uniform expf EPSILON self hexp0
    have h1 := idx_lt self.inputImage.cols self.inputImage.rows i j
      ⟨by omega, by omega⟩ ⟨by omega, by omega⟩
    have h2 := idx_lt self.inputImage.cols self.inputImage.rows ((i : Int) + dy.getD k 0)
      ((j : Int) + dx.getD k 0) (by unfold inBounds at hb; omega) (by unfold inBounds at hb; omega)
    exact huni _ _ h1.1 h1.2 h2.1 h2.2
  · rw [if_neg hb, if_neg hb]

/-- The diagonal of the Laplacian of a uniform image with at least two rows and two
columns: eight, three or five times the uniform weight. -/
theorem degree_uniform_count (expf : α → α) (EPSILON : α) (self : SeededSegmentation α)
    (hexp0 : expf 0 = 1) (huni : isUniform self.inputImage) (i j : Nat)
    (hi : i < self.inputImage.rows) (hj : j < self.inputImage.cols)
    (hH : 2 ≤ self.inputImage.rows) (hW : 2 ≤ self.inputImage.cols) :
    degree expf EPSILON self i j =
      if isInterior self.inputImage.rows self.inputImage.cols i j then
        8 * uniformWeight EPSILON
      else if isCorner self.inputImage.rows self.inputImage.cols i j then
        3 * uniformWeight EPSILON
      else 5 * uniformWeight EPSILON := by
  rw [degree_uniform expf EPSILON self hexp0 huni i j hi hj]
  unfold isInterior isCorner
  simp only [neighborhoodSize, Finset.sum_range_succ, Finset.sum_range_zero, inBounds, dy, dx,
    List.getD_cons_succ, List.getD_cons_zero, zero_add]
  have hi3 : i = 0 ∨ (0 < i ∧ i + 1 < self.inputImage.rows) ∨
      (0 < i ∧ i + 1 = self.inputImage.rows) := by omega
  have hj3 : j = 0 ∨ (0 < j ∧ j + 1 < self.inputImage.cols) ∨
      (0 < j ∧ j + 1 = self.inputImage.cols) := by omega
  rcases hi3 with hi3 | hi3 | hi3 <;> rcases hj3 with hj3 | hj3 | hj3
  all_goals
    repeat (first | rw [if_pos (by omega)] | rw [if_neg (by omega)])
    ring

omit [LinearOrderedField α] [FloorRing α] in
/-- In a grid of width at least three, the last pixel of a row and the first pixel of the
next row are not 8-neighbours. -/
theorem not_adjacent_wrap (W r : Nat) (hW : 3 ≤ W) :
    ¬ adjacent W (r * W + (W - 1)) ((r + 1) * W) ∧
      ¬ adjacent W ((r + 1) * W) (r * W + (W - 1)) := by
  have hpos : 0 < W := by omega
  have h1 : (r * W + (W - 1)) % W = W - 1 := by
    rw [Nat.add_comm, Nat.add_mul_mod_self_right, Nat.mod_eq_of_lt (by omega)]
  have h2 : ((r + 1) * W) % W = 0 := Nat.mul_mod_left _ _
  constructor
  · intro h
    have := h.2.2.1
    rw [h1, h2] at this
    omega
  · intro h
    have := h.2.2.2
    rw [h1, h2] at this
    omega

end SeededSegmentation

theorem blackImage_isUniform (α : Type) [LinearOrderedField α] (rows cols : Nat) :
    SeededSegmentation.isUniform (blackEngine α rows cols).inputImage :=
  fun _ _ _ _ _ _ => rfl

namespace SeededSegmentation

variable {α : Type} [LinearOrderedField α] [FloorRing α]

/-- The three outcomes of `segment`, by the two status checks. -/
theorem segment_cases {σ : Type} (expf : α → α) (EPSILON MAX_BINARY_VALUE : α)
    (THRESHOLD_TYPE : ThresholdType) (solver : SimplicialLLT α σ) (self : SeededSegmentation α)
    (backgroundImage foregroundImage : Mat Bool) :
    (solver.info (solver.compute solver.fresh
          (systemMatrix expf EPSILON self backgroundImage foregroundImage)) ≠
        ComputationInfo.Success →
      segment expf EPSILON MAX_BINARY_VALUE THRESHOLD_TYPE solver self backgroundImage
          foregroundImage = Except.error (Exception.MathException "Decomposition failed")) ∧
    (solver.info (solver.compute solver.fresh
          (systemMatrix expf EPSILON self backgroundImage foregroundImage)) =
        ComputationInfo.Success →
      solver.info (solver.solve (solver.compute solver.fresh
          (systemMatrix expf EPSILON self backgroundImage foregroundImage))
          (seedAssembly self backgroundImage foregroundImage).2).2 ≠ ComputationInfo.Success →
      segment expf EPSILON MAX_BINARY_VALUE THRESHOLD_TYPE solver self backgroundImage
          foregroundImage = Except.error (Exception.MathException "Solving failed")) ∧
    (solver.info (solver.compute solver.fresh
          (systemMatrix expf EPSILON self backgroundImage foregroundImage)) =
        ComputationInfo.Success →
      solver.info (solver.solve (solver.compute solver.fresh
          (systemMatrix expf EPSILON self backgroundImage foregroundImage))
          (seedAssembly self backgroundImage foregroundImage).2).2 = ComputationInfo.Success →
      segment expf EPSILON MAX_BINARY_VALUE THRESHOLD_TYPE solver self backgroundImage
          foregroundImage =
        Except.ok (applyThresholding MAX_BINARY_VALUE THRESHOLD_TYPE
          (finalImage self (solver.solve (solver.compute solver.fresh
            (systemMatrix expf EPSILON self backgroundImage foregroundImage))
            (seedAssembly self backgroundImage foregroundImage).2).1) segmentThreshold)) := by
  refine ⟨?_, ?_, ?_⟩
  · intro h
    unfold segment
    simp only
    rw [if_pos h]
  · intro h1 h2
    unfold segment
    simp only
    rw [if_neg (not_not.2 h1), if_pos h2]
  · intro h1 h2
    unfold segment
    simp only
    rw [if_neg (not_not.2 h1), if_neg (not_not.2 h2)]

omit [FloorRing α] in
/-- The thresholded image has the dimensions of the bound image. -/
theorem applyThresholding_dims (MAX_BINARY_VALUE : α) (THRESHOLD_TYPE : ThresholdType)
    (self : SeededSegmentation α) (x : VectorXd α) (t : α) :
    (applyThresholding MAX_BINARY_VALUE THRESHOLD_TYPE (finalImage self x) t).rows =
        self.inputImage.rows ∧
      (applyThresholding MAX_BINARY_VALUE THRESHOLD_TYPE (finalImage self x) t).cols =
        self.inputImage.cols :=
  finalImage_dims self x

end SeededSegmentation

/-- Two `for` loops whose bodies preserve a relation between their states end in related
states. -/
theorem foldl_range_rel {S T : Type} (R : S → T → Prop) (f : S → Nat → S) (g : T → Nat → T)
    (n : Nat) (h : ∀ s t i, R s t → R (f s i) (g t i)) (s : S) (t : T) (hst : R s t) :
    R ((List.range n).foldl f s) ((List.range n).foldl g t) := by
  induction n with
  | zero => simpa using hst
  | succ n ih =>
    rw [List.range_succ, List.foldl_append, List.foldl_append]
    simp only [List.foldl_cons, List.foldl_nil]
    exact h _ _ _ ih

namespace SeededSegmentation

variable {α : Type} [LinearOrderedField α] [FloorRing α]

omit [FloorRing α] in
/-- Swapping the masks keeps `Is` and negates `b`. -/
theorem seedAssembly_swap (self : SeededSegmentation α)
    (backgroundImage foregroundImage : Mat Bool) :
    (seedAssembly self foregroundImage backgroundImage).1 =
        (seedAssembly self backgroundImage foregroundImage).1 ∧
      (seedAssembly self foregroundImage backgroundImage).2 =
        -(seedAssembly self backgroundImage foregroundImage).2 := by
  unfold seedAssembly
  simp only
  apply foldl_range_rel
    (fun (s t : SparseMatrix α × VectorXd α) => s.1 = t.1 ∧ s.2 = -t.2)
  · rintro s t i ⟨h1, h2⟩
    unfold seedStep
    simp only
    constructor
    · rw [h1, Bool.or_comm]
    · rw [h2]
      funext p
      by_cases hp : p = (i : Int)
      · subst hp
        rw [Pi.neg_apply, Function.update_same, Function.update_same]
        push_cast
        ring
      · rw [Pi.neg_apply, Function.update_noteq hp, Function.update_noteq hp, Pi.neg_apply]
  · exact ⟨rfl, by funext p; simp⟩

omit [FloorRing α] in
/-- The value of an output pixel of `segment` for the field `x`, with
`THRESHOLD_TYPE = cv::THRESH_BINARY`. -/
theorem output_pixel (MAX_BINARY_VALUE : α) (self : SeededSegmentation α) (x : VectorXd α)
    (r c : Nat) (hr : r < self.inputImage.rows) (hc : c < self.inputImage.cols) :
    (applyThresholding MAX_BINARY_VALUE ThresholdType.THRESH_BINARY (finalImage self x)
        segmentThreshold).at2 r c =
      (if 0 < x ((r : Int) * self.inputImage.cols + c) then MAX_BINARY_VALUE else 0) := by
  have h0 : (segmentThreshold : α) = 0 := by
    unfold segmentThreshold
    norm_num
  have hlt := idx_lt self.inputImage.cols self.inputImage.rows r c
    ⟨by omega, by omega⟩ ⟨by omega, by omega⟩
  have hcond : 0 ≤ (r : Int) * self.inputImage.cols + c ∧
      (r : Int) * self.inputImage.cols + c <
        ((self.inputImage.cols * self.inputImage.rows : Nat) : Int) :=
    ⟨hlt.1, by push_cast; exact hlt.2⟩
  unfold applyThresholding threshold Mat.at2
  simp only [(finalImage_dims self x).2, finalImage_data, h0, if_pos hcond, gt_iff_lt]

end SeededSegmentation

namespace SeededSegmentation

variable {α : Type} [LinearOrderedField α] [FloorRing α]

/-- The dense matrix of the sparse product `laplacian * laplacian`. -/
theorem laplacianSquare_toMatrix (expf : α → α) (EPSILON : α) (self : SeededSegmentation α) :
    ((calculateLaplacian expf EPSILON self).mul (calculateLaplacian expf EPSILON self)).toMatrix
        (self.inputImage.cols * self.inputImage.rows) =
      laplacianMatrix expf EPSILON self * laplacianMatrix expf EPSILON self :=
  SparseMatrix.toMatrix_mul _ _ _ (calculateLaplacian_inRange expf EPSILON self)

/-- The square of the dense Laplacian of a non-empty image is singular. -/
theorem laplacianSquare_not_isUnit (expf : α → α) (EPSILON : α) (self : SeededSegmentation α)
    (hN : 0 < self.inputImage.cols * self.inputImage.rows) :
    ¬ IsUnit (laplacianMatrix expf EPSILON self * laplacianMatrix expf EPSILON self) := by
  intro hunit
  have hinj := Matrix.mulVec_injective_iff_isUnit.2 hunit
  have h0 : (laplacianMatrix expf EPSILON self * laplacianMatrix expf EPSILON self).mulVec
      (fun _ => 1) =
      (laplacianMatrix expf EPSILON self * laplacianMatrix expf EPSILON self).mulVec 0 := by
    rw [← Matrix.mulVec_mulVec, laplacianMatrix_mulVec_one, Matrix.mulVec_zero,
      Matrix.mulVec_zero]
  have h1 := congrFun (hinj h0) ⟨0, hN⟩
  exact one_ne_zero h1

/-- When no pixel is marked, the dense system matrix is the square of the dense
Laplacian. -/
theorem systemMatrixDense_no_seed (expf : α → α) (EPSILON : α) (self : SeededSegmentation α)
    (backgroundImage foregroundImage : Mat Bool)
    (hnone : ∀ p : Fin (self.inputImage.cols * self.inputImage.rows),
      (backgroundImage.at1 p || foregroundImage.at1 p) = false) :
    systemMatrixDense expf EPSILON self backgroundImage foregroundImage =
      laplacianMatrix expf EPSILON self * laplacianMatrix expf EPSILON self := by
  rw [systemMatrixDense_eq]
  have hdiag : Matrix.diagonal (fun p : Fin (self.inputImage.cols * self.inputImage.rows) =>
      (seedIndicator backgroundImage foregroundImage p : α)) = 0 := by
    ext p q
    rw [Matrix.diagonal_apply]
    unfold seedIndicator
    rw [hnone p]
    simp
  rw [hdiag, zero_add]

/-- The dense system matrix is symmetric. -/
theorem systemMatrixDense_transpose (expf : α → α) (EPSILON : α) (self : SeededSegmentation α)
    (backgroundImage foregroundImage : Mat Bool) :
    (systemMatrixDense expf EPSILON self backgroundImage foregroundImage).transpose =
      systemMatrixDense expf EPSILON self backgroundImage foregroundImage := by
  rw [systemMatrixDense_eq, Matrix.transpose_add, Matrix.diagonal_transpose,
    Matrix.transpose_mul, laplacianMatrix_transpose]

/-- When some pixel is marked, the quadratic form of the dense system matrix is positive
on every non-zero vector. -/
theorem systemMatrixDense_quadratic_pos (expf : α → α) (EPSILON : α)
    (self : SeededSegmentation α) (hexp : ∀ x, 0 ≤ expf x) (hε : 0 < EPSILON)
    (backgroundImage foregroundImage : Mat Bool)
    (s : Fin (self.inputImage.cols * self.inputImage.rows))
    (hs : (backgroundImage.at1 s || foregroundImage.at1 s) = true)
    (x : Fin (self.inputImage.cols * self.inputImage.rows) → α) (hx : x ≠ 0) :
    0 < Matrix.dotProduct x
      ((systemMatrixDense expf EPSILON self backgroundImage foregroundImage).mulVec x) := by
  rw [systemMatrixDense_quadratic_form]
  have hseed_nonneg : ∀ p : Fin (self.inputImage.cols * self.inputImage.rows),
      0 ≤ (seedIndicator backgroundImage foregroundImage p : α) * x p ^ 2 := by
    intro p
    apply mul_nonneg _ (sq_nonneg _)
    unfold seedIndicator
    split_ifs
    · exact zero_le_one
    · exact le_refl _
  have hA : 0 ≤ ∑ p : Fin (self.inputImage.cols * self.inputImage.rows),
      (seedIndicator backgroundImage foregroundImage p : α) * x p ^ 2 :=
    Finset.sum_nonneg (fun p _ => hseed_nonneg p)
  have hB : 0 ≤ Matrix.dotProduct ((laplacianMatrix expf EPSILON self).mulVec x)
      ((laplacianMatrix expf EPSILON self).mulVec x) :=
    Finset.sum_nonneg (fun p _ => mul_self_nonneg _)
  rcases lt_or_eq_of_le (add_nonneg hA hB) with hpos | hzero
  · exact hpos
  · exfalso
    apply hx
    have hA0 : (∑ p : Fin (self.inputImage.cols * self.inputImage.rows),
        (seedIndicator backgroundImage foregroundImage p : α) * x p ^ 2) = 0 := by linarith
    have hB0 : Matrix.dotProduct ((laplacianMatrix expf EPSILON self).mulVec x)
        ((laplacianMatrix expf EPSILON self).mulVec x) = 0 := by linarith
    have hL : (laplacianMatrix expf EPSILON self).mulVec x = 0 :=
      Matrix.dotProduct_self_eq_zero.1 hB0
    have hxs : x s = 0 := by
      have h := (Finset.sum_eq_zero_iff_of_nonneg (fun p _ => hseed_nonneg p)).1 hA0 s
        (Finset.mem_univ s)
      unfold seedIndicator at h
      rw [if_pos hs, one_mul] at h
      exact (pow_eq_zero_iff two_ne_zero).1 h
    funext p
    rw [laplacianMatrix_kernel_const expf EPSILON self hexp hε x hL p s, hxs]
    rfl

/-- The kernel of the dense Laplacian is the set of constant vectors. -/
theorem laplacianMatrix_kernel_iff (expf : α → α) (EPSILON : α) (self : SeededSegmentation α)
    (hexp : ∀ x, 0 ≤ expf x) (hε : 0 < EPSILON)
    (x : Fin (self.inputImage.cols * self.inputImage.rows) → α) :
    (laplacianMatrix expf EPSILON self).mulVec x = 0 ↔ ∃ c : α, x = fun _ => c := by
  constructor
  · intro hx
    by_cases hN : 0 < self.inputImage.cols * self.inputImage.rows
    · exact ⟨x ⟨0, hN⟩, funext fun p =>
        laplacianMatrix_kernel_const expf EPSILON self hexp hε x hx p ⟨0, hN⟩⟩
    · exact ⟨0, funext fun p => absurd (Nat.lt_of_le_of_lt (Nat.zero_le _) p.isLt) hN⟩
  · rintro ⟨c, rfl⟩
    have h : (fun _ : Fin (self.inputImage.cols * self.inputImage.rows) => c) =
        c • (fun _ => (1 : α)) := by
      funext p
      simp
    rw [h, Matrix.mulVec_smul, laplacianMatrix_mulVec_one, smul_zero]

/-- An invertible matrix over a field has exactly one solution for every right-hand
side. -/
theorem existsUnique_of_isUnit {n : Nat} (A : Matrix (Fin n) (Fin n) α) (hA : IsUnit A)
    (b : Fin n → α) : ∃! x, A.mulVec x = b := by
  have hdet : IsUnit A.det := (Matrix.isUnit_iff_isUnit_det A).1 hA
  refine ⟨A⁻¹.mulVec b, ?_, ?_⟩
  · show A.mulVec (A⁻¹.mulVec b) = b
    rw [Matrix.mulVec_mulVec, Matrix.mul_nonsing_inv A hdet, Matrix.one_mulVec]
  · intro y hy
    exact Matrix.mulVec_injective_iff_isUnit.2 hA
      (by rw [hy, Matrix.mulVec_mulVec, Matrix.mul_nonsing_inv A hdet, Matrix.one_mulVec])

end SeededSegmentation

namespace SeededSegmentation

variable {α : Type} [LinearOrderedField α] [FloorRing α]

omit [FloorRing α] in
/-- The bias of an in-range pixel. -/
theorem biasVector_apply (self : SeededSegmentation α)
    (backgroundImage foregroundImage : Mat Bool)
    (p : Fin (self.inputImage.cols * self.inputImage.rows)) :
    biasVector self backgroundImage foregroundImage p =
      (if backgroundImage.at1 p = true then (1 : α) else 0) -
        (if foregroundImage.at1 p = true then (1 : α) else 0) := by
  unfold biasVector
  rw [seedAssembly_bias]
  simp only
  rw [if_pos ⟨by omega, by exact_mod_cast p.isLt⟩]
  unfold boolToInt
  cases backgroundImage.at1 p <;> cases foregroundImage.at1 p <;> simp

/-- When every pixel is marked as background and none as foreground, the all-ones vector
solves the system. -/
theorem systemMatrixDense_all_background (expf : α → α) (EPSILON : α)
    (self : SeededSegmentation α) (backgroundImage foregroundImage : Mat Bool)
    (hbg : ∀ p : Nat, p < self.inputImage.cols * self.inputImage.rows →
      backgroundImage.at1 p = true)
    (hfg : ∀ p : Nat, p < self.inputImage.cols * self.inputImage.rows →
      foregroundImage.at1 p = false) :
    (systemMatrixDense expf EPSILON self backgroundImage foregroundImage).mulVec (fun _ => 1) =
      biasVector self backgroundImage foregroundImage := by
  rw [systemMatrixDense_eq, Matrix.add_mulVec, ← Matrix.mulVec_mulVec,
    laplacianMatrix_mulVec_one, Matrix.mulVec_zero, add_zero]
  funext p
  rw [Matrix.mulVec_diagonal, biasVector_apply, mul_one]
  unfold seedIndicator
  rw [hbg p p.isLt, hfg p p.isLt]
  simp

/-- When every pixel is marked as background and none as foreground, the all-ones vector is
the only solution of the system. -/
theorem systemMatrixDense_all_background_unique (expf : α → α) (EPSILON : α)
    (self : SeededSegmentation α) (hexp : ∀ x, 0 ≤ expf x) (hε : 0 < EPSILON)
    (backgroundImage foregroundImage : Mat Bool)
    (hbg : ∀ p : Nat, p < self.inputImage.cols * self.inputImage.rows →
      backgroundImage.at1 p = true)
    (hfg : ∀ p : Nat, p < self.inputImage.cols * self.inputImage.rows →
      foregroundImage.at1 p = false)
    (x : Fin (self.inputImage.cols * self.inputImage.rows) → α)
    (hx : (systemMatrixDense expf EPSILON self backgroundImage foregroundImage).mulVec x =
      biasVector self backgroundImage foregroundImage) :
    x = fun _ => 1 := by
  by_cases hN : 0 < self.inputImage.cols * self.inputImage.rows
  · have h1 := systemMatrixDense_all_background expf EPSILON self backgroundImage
      foregroundImage hbg hfg
    have h0 : (systemMatrixDense expf EPSILON self backgroundImage foregroundImage).mulVec
        (x - fun _ => 1) = 0 := by
      rw [Matrix.mulVec_sub, hx, h1, sub_self]
    have hs : (backgroundImage.at1 ((⟨0, hN⟩ : Fin _) : Nat) ||
        foregroundImage.at1 ((⟨0, hN⟩ : Fin _) : Nat)) = true := by
      rw [hbg 0 hN]
      rfl
    exact sub_eq_zero.1 (systemMatrixDense_kernel expf EPSILON self hexp hε backgroundImage
      foregroundImage ⟨0, hN⟩ hs _ h0)
  · exact funext fun p => absurd (Nat.lt_of_le_of_lt (Nat.zero_le _) p.isLt) hN

end SeededSegmentation

namespace SparseMatrix

variable {α : Type}

theorem length_filter_eq_sumOver (m : SparseMatrix α) (P : Int × Int × α → Prop)
    [DecidablePred P] :
    (m.entries.filter fun e => decide (P e)).length =
      sumOver (fun e => if P e then 1 else 0) m := by
  unfold sumOver
  induction m.entries with
  | nil => rfl
  | cons e es ih =>
    rw [List.filter_cons, List.map_cons, List.sum_cons, ← ih]
    by_cases h : P e
    · simp [h, Nat.add_comm]
    · simp [h]

theorem rowInsertions_eq_sumOver (m : SparseMatrix α) (r : Int) :
    m.rowInsertions r = sumOver (fun e => if e.1 = r then 1 else 0) m :=
  length_filter_eq_sumOver m (fun e => e.1 = r)

theorem colInsertions_eq_sumOver (m : SparseMatrix α) (c : Int) :
    m.colInsertions c = sumOver (fun e => if e.2.1 = c then 1 else 0) m :=
  length_filter_eq_sumOver m (fun e => e.2.1 = c)

end SparseMatrix

namespace SeededSegmentation

variable {α : Type} [LinearOrderedField α] [FloorRing α]

/-- Exactly one pixel has a given in-range flat position. -/
theorem pixel_count_eq_one (W H i0 j0 : Nat) (hi0 : i0 < H) (hj0 : j0 < W) :
    (∑ i in Finset.range H, ∑ j in Finset.range W,
      if (i : Int) * W + j = (i0 : Int) * W + j0 then 1 else 0) = 1 := by
  have hzero : ∀ i j : Nat, j < W → ¬ (i = i0 ∧ j = j0) →
      (if (i : Int) * W + j = (i0 : Int) * W + j0 then 1 else 0) = 0 := by
    intro i j hj hne
    rw [if_neg]
    intro h
    have := idx_inj W _ _ _ _ (by omega) (by omega) (by omega) (by omega) h
    omega
  rw [Finset.sum_eq_single i0]
  · rw [Finset.sum_eq_single j0]
    · rw [if_pos rfl]
    · intro j hj hne
      exact hzero i0 j (Finset.mem_range.1 hj) (fun h => hne h.2)
    · intro h; exact absurd (Finset.mem_range.2 hj0) h
  · intro i _ hne
    apply Finset.sum_eq_zero
    intro j hj
    exact hzero i j (Finset.mem_range.1 hj) (fun h => hne h.1)
  · intro h; exact absurd (Finset.mem_range.2 hi0) h

/-- At most one pixel has a given flat position. -/
theorem pixel_count_le_one (W H : Nat) (t : Int) :
    (∑ i in Finset.range H, ∑ j in Finset.range W,
      if (i : Int) * W + j = t then 1 else 0) ≤ 1 := by
  by_cases h : ∃ i0 j0 : Nat, i0 < H ∧ j0 < W ∧ (i0 : Int) * W + j0 = t
  · obtain ⟨i0, j0, hi0, hj0, rfl⟩ := h
    rw [pixel_count_eq_one W H i0 j0 hi0 hj0]
  · rw [Finset.sum_eq_zero]
    · exact Nat.zero_le 1
    · intro i hi
      apply Finset.sum_eq_zero
      intro j hj
      rw [if_neg]
      intro heq
      exact h ⟨i, j, Finset.mem_range.1 hi, Finset.mem_range.1 hj, heq⟩

/-- The number of offsets of pixel `(i0, j0)` that pass the bounds checks and lead to the
in-range pixel `(i1, j1)`: one when the two pixels are 8-neighbours, none otherwise. -/
theorem target_count_idx (self : SeededSegmentation α) (i0 j0 i1 j1 : Nat)
    (hi1 : i1 < self.inputImage.rows) (hj1 : j1 < self.inputImage.cols) :
    (∑ k in Finset.range neighborhoodSize,
      (if inBounds self i0 j0 k then
        (if ((i0 : Int) + dy.getD k 0) * self.inputImage.cols + ((j0 : Int) + dx.getD k 0) =
            (i1 : Int) * self.inputImage.cols + j1 then 1 else 0)
      else 0)) =
      if ¬ (i0 = i1 ∧ j0 = j1) ∧ (i0 ≤ i1 + 1 ∧ i1 ≤ i0 + 1) ∧ (j0 ≤ j1 + 1 ∧ j1 ≤ j0 + 1)
      then 1 else 0 := by
  have hsum : (∑ k in Finset.range neighborhoodSize,
      (if inBounds self i0 j0 k then
        (if ((i0 : Int) + dy.getD k 0) * self.inputImage.cols + ((j0 : Int) + dx.getD k 0) =
            (i1 : Int) * self.inputImage.cols + j1 then 1 else 0)
      else 0)) =
      ∑ k in Finset.range neighborhoodSize,
        if dy.getD k 0 = (i1 : Int) - i0 ∧ dx.getD k 0 = (j1 : Int) - j0 then 1 else 0 := by
    apply Finset.sum_congr rfl
    intro k _
    have hiff := inBounds_and_target_iff self i0 j0 i1 j1 k ⟨by omega, by omega⟩
      ⟨by omega, by omega⟩
    by_cases hc : dy.getD k 0 = (i1 : Int) - i0 ∧ dx.getD k 0 = (j1 : Int) - j0
    · have hb := hiff.2 hc
      rw [if_pos hb.1, if_pos hb.2, if_pos hc]
    · rw [if_neg hc]
      by_cases hb : inBounds self i0 j0 k
      · rw [if_pos hb, if_neg (fun hh => hc (hiff.1 ⟨hb, hh⟩))]
      · rw [if_neg hb]
  rw [hsum, offsets_sum]
  by_cases hadj : ¬ (i0 = i1 ∧ j0 = j1) ∧ (i0 ≤ i1 + 1 ∧ i1 ≤ i0 + 1) ∧
      (j0 ≤ j1 + 1 ∧ j1 ≤ j0 + 1)
  · rw [if_pos hadj, if_pos (by omega)]
  · rw [if_neg hadj, if_neg (by omega)]

end SeededSegmentation

namespace SeededSegmentation

variable {α : Type} [LinearOrderedField α] [FloorRing α]

/-- The number of insertions into `w` in the row of an in-range pixel: the number of its
offsets that pass the bounds checks. -/
theorem rowInsertions_w_idx (expf : α → α) (EPSILON : α) (self : SeededSegmentation α)
    (i0 j0 : Nat) (hi0 : i0 < self.inputImage.rows) (hj0 : j0 < self.inputImage.cols) :
    (laplacianParts expf EPSILON self).1.rowInsertions
        ((i0 : Int) * self.inputImage.cols + j0) =
      ∑ k in Finset.range neighborhoodSize, if inBounds self i0 j0 k then 1 else 0 := by
  rw [SparseMatrix.rowInsertions_eq_sumOver,
    (laplacianParts_sumOver _ (fun _ => (0 : Nat)) expf EPSILON self).1]
  have hzero : ∀ i j : Nat, j < self.inputImage.cols → ¬ (i = i0 ∧ j = j0) →
      (∑ k in Finset.range neighborhoodSize,
        (if inBounds self i j k then
          (if (i : Int) * self.inputImage.cols + j = (i0 : Int) * self.inputImage.cols + j0
            then 1 else 0)
        else 0)) = 0 := by
    intro i j hj hne
    apply Finset.sum_eq_zero
    intro k _
    have hidx : ¬ ((i : Int) * self.inputImage.cols + j =
        (i0 : Int) * self.inputImage.cols + j0) := by
      intro h
      have := idx_inj self.inputImage.cols _ _ _ _ (by omega) (by omega) (by omega)
        (by omega) h
      omega
    by_cases hb : inBounds self i j k
    · rw [if_pos hb, if_neg hidx]
    · rw [if_neg hb]
  rw [Finset.sum_eq_single i0]
  · rw [Finset.sum_eq_single j0]
    · apply Finset.sum_congr rfl
      intro k _
      by_cases hb : inBounds self i0 j0 k
      · rw [if_pos hb, if_pos hb]
        exact if_pos rfl
      · rw [if_neg hb, if_neg hb]
    · intro j hj hne
      exact hzero i0 j (Finset.mem_range.1 hj) (fun h => hne h.2)
    · intro h; exact absurd (Finset.mem_range.2 hj0) h
  · intro i _ hne
    apply Finset.sum_eq_zero
    intro j hj
    exact hzero i j (Finset.mem_range.1 hj) (fun h => hne h.1)
  · intro h; exact absurd (Finset.mem_range.2 hi0) h

/-- A sum of eight indicators is at most eight. -/
theorem indicator_sum_le (P : Nat → Prop) [DecidablePred P] :
    (∑ k in Finset.range neighborhoodSize, if P k then 1 else 0) ≤ 8 := by
  calc (∑ k in Finset.range neighborhoodSize, if P k then 1 else 0)
      ≤ ∑ _k in Finset.range neighborhoodSize, 1 := by
        apply Finset.sum_le_sum
        intro k _
        split_ifs
        · exact le_refl 1
        · exact Nat.zero_le 1
    _ = 8 := by simp [neighborhoodSize]

/-- The number of insertions into `w` in the column of an in-range pixel is at most
eight. -/
theorem colInsertions_w_idx_le (expf : α → α) (EPSILON : α) (self : SeededSegmentation α)
    (i1 j1 : Nat) (hi1 : i1 < self.inputImage.rows) (hj1 : j1 < self.inputImage.cols) :
    (laplacianParts expf EPSILON self).1.colInsertions
        ((i1 : Int) * self.inputImage.cols + j1) ≤ 8 := by
  rw [SparseMatrix.colInsertions_eq_sumOver,
    (laplacianParts_sumOver _ (fun _ => (0 : Nat)) expf EPSILON self).1]
  have hflip : ∀ i ∈ Finset.range self.inputImage.rows,
      ∀ j ∈ Finset.range self.inputImage.cols,
      (∑ k in Finset.range neighborhoodSize,
        (if inBounds self i j k then
          (if ((i : Int) + dy.getD k 0) * self.inputImage.cols + ((j : Int) + dx.getD k 0) =
              (i1 : Int) * self.inputImage.cols + j1 then 1 else 0)
        else 0)) =
      ∑ k in Finset.range neighborhoodSize,
        (if inBounds self i1 j1 k then
          (if ((i1 : Int) + dy.getD k 0) * self.inputImage.cols + ((j1 : Int) + dx.getD k 0) =
              (i : Int) * self.inputImage.cols + j then 1 else 0)
        else 0) := by
    intro i hi j hj
    rw [target_count_idx self i j i1 j1 hi1 hj1,
      target_count_idx self i1 j1 i j (Finset.mem_range.1 hi) (Finset.mem_range.1 hj)]
    by_cases hc : ¬ (i = i1 ∧ j = j1) ∧ (i ≤ i1 + 1 ∧ i1 ≤ i + 1) ∧ (j ≤ j1 + 1 ∧ j1 ≤ j + 1)
    · rw [if_pos hc, if_pos (by omega)]
    · rw [if_neg hc, if_neg (by omega)]
  have hswap : (∑ i in Finset.range self.inputImage.rows,
      ∑ j in Finset.range self.inputImage.cols, ∑ k in Finset.range neighborhoodSize,
        (if inBounds self i j k then
          (if ((i : Int) + dy.getD k 0) * self.inputImage.cols + ((j : Int) + dx.getD k 0) =
              (i1 : Int) * self.inputImage.cols + j1 then 1 else 0)
        else 0)) =
      ∑ k in Finset.range neighborhoodSize, ∑ i in Finset.range self.inputImage.rows,
        ∑ j in Finset.range self.inputImage.cols,
          (if inBounds self i1 j1 k then
            (if ((i1 : Int) + dy.getD k 0) * self.inputImage.cols + ((j1 : Int) + dx.getD k 0) =
                (i : Int) * self.inputImage.cols + j then 1 else 0)
          else 0) := by
    rw [Finset.sum_congr rfl (fun i hi => Finset.sum_congr rfl (fun j hj => hflip i hi j hj)),
      Finset.sum_congr rfl (fun i _ => Finset.sum_comm), Finset.sum_comm]
  refine le_trans (le_of_eq hswap) ?_
  calc (∑ k in Finset.range neighborhoodSize, ∑ i in Finset.range self.inputImage.rows,
        ∑ j in Finset.range self.inputImage.cols,
          (if inBounds self i1 j1 k then
            (if ((i1 : Int) + dy.getD k 0) * self.inputImage.cols + ((j1 : Int) + dx.getD k 0) =
                (i : Int) * self.inputImage.cols + j then 1 else 0)
          else 0))
      ≤ ∑ _k in Finset.range neighborhoodSize, 1 := by
        apply Finset.sum_le_sum
        intro k _
        by_cases hb : inBounds self i1 j1 k
        · simp only [if_pos hb]
          have h := pixel_count_le_one self.inputImage.cols self.inputImage.rows
            (((i1 : Int) + dy.getD k 0) * self.inputImage.cols + ((j1 : Int) + dx.getD k 0))
          simp only [eq_comm] at h ⊢
          exact h
        · simp only [if_neg hb, Finset.sum_const_zero]
          exact Nat.zero_le 1
    _ = 8 := by simp [neighborhoodSize]

/-- The matrix `d` receives exactly one insertion at the diagonal position of an in-range
pixel, which is the only insertion in its row and in its column. -/
theorem insertions_d_idx (expf : α → α) (EPSILON : α) (self : SeededSegmentation α)
    (i0 j0 : Nat) (hi0 : i0 < self.inputImage.rows) (hj0 : j0 < self.inputImage.cols) :
    (laplacianParts expf EPSILON self).2.insertions ((i0 : Int) * self.inputImage.cols + j0)
        ((i0 : Int) * self.inputImage.cols + j0) = 1 ∧
      (laplacianParts expf EPSILON self).2.rowInsertions
        ((i0 : Int) * self.inputImage.cols + j0) = 1 ∧
      (laplacianParts expf EPSILON self).2.colInsertions
        ((i0 : Int) * self.inputImage.cols + j0) = 1 := by
  have h1 := pixel_count_eq_one self.inputImage.cols self.inputImage.rows i0 j0 hi0 hj0
  refine ⟨?_, ?_, ?_⟩
  · rw [SparseMatrix.insertions_eq_sumOver,
      (laplacianParts_sumOver (fun _ => (0 : Nat)) _ expf EPSILON self).2]
    simp only [and_self]
    exact h1
  · rw [SparseMatrix.rowInsertions_eq_sumOver,
      (laplacianParts_sumOver (fun _ => (0 : Nat)) _ expf EPSILON self).2]
    exact h1
  · rw [SparseMatrix.colInsertions_eq_sumOver,
      (laplacianParts_sumOver (fun _ => (0 : Nat)) _ expf EPSILON self).2]
    exact h1

end SeededSegmentation

namespace SeededSegmentation

variable {α : Type} [LinearOrderedField α] [FloorRing α]

omit [LinearOrderedField α] [FloorRing α] in
/-- The eight offsets are pairwise distinct. -/
theorem offset_inj (k k' : Nat) (hk : k < neighborhoodSize) (hk' : k' < neighborhoodSize)
    (h : dy.getD k 0 = dy.getD k' 0 ∧ dx.getD k 0 = dx.getD k' 0) : k = k' := by
  unfold neighborhoodSize at hk hk'
  interval_cases k <;> interval_cases k' <;> simp [dy, dx] at h ⊢

/-- The flat forms of the insertion counts of `w` and `d`. -/
theorem insertion_counts (expf : α → α) (EPSILON : α) (self : SeededSegmentation α)
    (p : Nat) (hp : p < self.inputImage.cols * self.inputImage.rows) :
    (laplacianParts expf EPSILON self).1.rowInsertions p ≤ 8 ∧
      (laplacianParts expf EPSILON self).1.colInsertions p ≤ 8 ∧
      (laplacianParts expf EPSILON self).2.insertions p p = 1 ∧
      (laplacianParts expf EPSILON self).2.rowInsertions p = 1 ∧
      (laplacianParts expf EPSILON self).2.colInsertions p = 1 := by
  obtain ⟨hi0, hj0, hp'⟩ := flat_coords _ _ p hp
  have hrow := rowInsertions_w_idx expf EPSILON self _ _ hi0 hj0
  have hcol := colInsertions_w_idx_le expf EPSILON self _ _ hi0 hj0
  have hd := insertions_d_idx expf EPSILON self _ _ hi0 hj0
  rw [hp'] at hrow hcol hd
  refine ⟨?_, hcol, hd.1, hd.2.1, hd.2.2⟩
  rw [hrow]
  exact indicator_sum_le _

end SeededSegmentation

namespace SeededSegmentation

variable {α : Type} [LinearOrderedField α] [FloorRing α]

/-- The off-diagonal coefficients of the Laplacian of a 1×3 image. -/
theorem laplacian_offdiag_1x3 (expf : α → α) (EPSILON : α) (self : SeededSegmentation α)
    (hrows : self.inputImage.rows = 1) (hcols : self.inputImage.cols = 3) :
    (calculateLaplacian expf EPSILON self).coeff 0 1 = -weight expf EPSILON self 0 1 ∧
      (calculateLaplacian expf EPSILON self).coeff 1 0 = -weight expf EPSILON self 0 1 ∧
      (calculateLaplacian expf EPSILON self).coeff 1 2 = -weight expf EPSILON self 1 2 ∧
      (calculateLaplacian expf EPSILON self).coeff 2 1 = -weight expf EPSILON self 1 2 ∧
      (calculateLaplacian expf EPSILON self).coeff 0 2 = 0 ∧
      (calculateLaplacian expf EPSILON self).coeff 2 0 = 0 := by
  have hN : self.inputImage.cols * self.inputImage.rows = 3 := by rw [hcols, hrows]
  have h01 := calculateLaplacian_coeff expf EPSILON self 0 1 (by omega) (by omega)
  have h10 := calculateLaplacian_coeff expf EPSILON self 1 0 (by omega) (by omega)
  have h12 := calculateLaplacian_coeff expf EPSILON self 1 2 (by omega) (by omega)
  have h21 := calculateLaplacian_coeff expf EPSILON self 2 1 (by omega) (by omega)
  have h02 := calculateLaplacian_coeff expf EPSILON self 0 2 (by omega) (by omega)
  have h20 := calculateLaplacian_coeff expf EPSILON self 2 0 (by omega) (by omega)
  rw [hcols, if_neg (by decide), if_pos (by decide)] at h01 h10 h12 h21
  rw [hcols, if_neg (by decide), if_neg (by decide)] at h02 h20
  rw [weight_comm expf EPSILON self _ _] at h10 h21
  refine ⟨?_, ?_, ?_, ?_, ?_, ?_⟩
  · exact_mod_cast h01
  · exact_mod_cast h10
  · exact_mod_cast h12
  · exact_mod_cast h21
  · exact_mod_cast h02
  · exact_mod_cast h20

/-- The diagonal coefficients of the Laplacian of a 1×3 image. -/
theorem laplacian_diag_1x3 (expf : α → α) (EPSILON : α) (self : SeededSegmentation α)
    (hrows : self.inputImage.rows = 1) (hcols : self.inputImage.cols = 3) :
    (calculateLaplacian expf EPSILON self).coeff 0 0 = weight expf EPSILON self 0 1 ∧
      (calculateLaplacian expf EPSILON self).coeff 1 1 =
        weight expf EPSILON self 0 1 + weight expf EPSILON self 1 2 ∧
      (calculateLaplacian expf EPSILON self).coeff 2 2 = weight expf EPSILON self 1 2 := by
  have hN : self.inputImage.cols * self.inputImage.rows = 3 := by rw [hcols, hrows]
  have h00 := calculateLaplacian_coeff expf EPSILON self 0 0 (by omega) (by omega)
  have h11 := calculateLaplacian_coeff expf EPSILON self 1 1 (by omega) (by omega)
  have h22 := calculateLaplacian_coeff expf EPSILON self 2 2 (by omega) (by omega)
  rw [if_pos rfl, degree_eq_sum expf EPSILON self 0 (by omega), hN, hcols,
    Finset.sum_filter] at h00
  rw [if_pos rfl, degree_eq_sum expf EPSILON self 1 (by omega), hN, hcols,
    Finset.sum_filter] at h11
  rw [if_pos rfl, degree_eq_sum expf EPSILON self 2 (by omega), hN, hcols,
    Finset.sum_filter] at h22
  simp only [Finset.sum_range_succ, Finset.sum_range_zero, zero_add] at h00 h11 h22
  rw [if_neg (by decide), if_pos (by decide), if_neg (by decide)] at h00
  rw [if_pos (by decide), if_neg (by decide), if_pos (by decide),
    weight_comm expf EPSILON self _ _] at h11
  rw [if_neg (by decide), if_pos (by decide), if_neg (by decide),
    weight_comm expf EPSILON self _ _] at h22
  refine ⟨?_, ?_, ?_⟩
  · simpa using h00
  · simpa using h11
  · simpa using h22

end SeededSegmentation

/-- The closed form of the solution of the 3×3 system of end-to-end case B, for edge weights
`a` and `c`. -/
theorem caseB_solution {α : Type} [LinearOrderedField α] (a c : α) (ha : 0 < a) (hc : 0 < c) :
    (Matrix.diagonal ![(1 : α), 0, 1] +
        !![a, -a, 0; -a, a + c, -c; 0, -c, c] * !![a, -a, 0; -a, a + c, -c; 0, -c, c]).mulVec
      ![(a ^ 2 + a * c + c ^ 2) / (3 * a ^ 2 * c ^ 2 + a ^ 2 + a * c + c ^ 2),
        (a ^ 2 - c ^ 2) / (3 * a ^ 2 * c ^ 2 + a ^ 2 + a * c + c ^ 2),
        -((a ^ 2 + a * c + c ^ 2) / (3 * a ^ 2 * c ^ 2 + a ^ 2 + a * c + c ^ 2))] =
      ![1, 0, -1] := by
  have hS : (3 * a ^ 2 * c ^ 2 + a ^ 2 + a * c + c ^ 2) ≠ 0 := by positivity
  ext i
  fin_cases i
  · simp [Matrix.mulVec, Matrix.dotProduct, Fin.sum_univ_three, Matrix.mul_apply,
      Matrix.diagonal_apply]
    field_simp
    ring
  · simp [Matrix.mulVec, Matrix.dotProduct, Fin.sum_univ_three, Matrix.mul_apply,
      Matrix.diagonal_apply]
    field_simp
    ring
  · simp [Matrix.mulVec, Matrix.dotProduct, Fin.sum_univ_three, Matrix.mul_apply,
      Matrix.diagonal_apply]
    field_simp
    ring

/-- The system of end-to-end case B: the matrix is the seed diagonal `(1, 0, 1)` plus the
square of the path Laplacian with weights `a = weight(0,1)` and `c = weight(1,2)`, and the
right-hand side is `(1, 0, -1)`. -/
theorem caseB_system {α : Type} [LinearOrderedField α] [FloorRing α] (expf : α → α)
    (EPSILON beta sigma : α) :
    (SeededSegmentation.systemMatrixDense expf EPSILON (caseBEngine α beta sigma)
        caseBBackground caseBForeground : Matrix (Fin 3) (Fin 3) α) =
      Matrix.diagonal ![(1 : α), 0, 1] +
        !![SeededSegmentation.weight expf EPSILON (caseBEngine α beta sigma) 0 1,
            -SeededSegmentation.weight expf EPSILON (caseBEngine α beta sigma) 0 1, 0;
          -SeededSegmentation.weight expf EPSILON (caseBEngine α beta sigma) 0 1,
            SeededSegmentation.weight expf EPSILON (caseBEngine α beta sigma) 0 1 +
              SeededSegmentation.weight expf EPSILON (caseBEngine α beta sigma) 1 2,
            -SeededSegmentation.weight expf EPSILON (caseBEngine α beta sigma) 1 2;
          0, -SeededSegmentation.weight expf EPSILON (caseBEngine α beta sigma) 1 2,
            SeededSegmentation.weight expf EPSILON (caseBEngine α beta sigma) 1 2] *
        !![SeededSegmentation.weight expf EPSILON (caseBEngine α beta sigma) 0 1,
            -SeededSegmentation.weight expf EPSILON (caseBEngine α beta sigma) 0 1, 0;
          -SeededSegmentation.weight expf EPSILON (caseBEngine α beta sigma) 0 1,
            SeededSegmentation.weight expf EPSILON (caseBEngine α beta sigma) 0 1 +
              SeededSegmentation.weight expf EPSILON (caseBEngine α beta sigma) 1 2,
            -SeededSegmentation.weight expf EPSILON (caseBEngine α beta sigma) 1 2;
          0, -SeededSegmentation.weight expf EPSILON (caseBEngine α beta sigma) 1 2,
            SeededSegmentation.weight expf EPSILON (caseBEngine α beta sigma) 1 2] ∧
      (SeededSegmentation.biasVector (caseBEngine α beta sigma) caseBBackground
        caseBForeground : Fin 3 → α) = ![1, 0, -1] := by
  have hoff := SeededSegmentation.laplacian_offdiag_1x3 expf EPSILON
    (caseBEngine α beta sigma) rfl rfl
  have hdiag := SeededSegmentation.laplacian_diag_1x3 expf EPSILON
    (caseBEngine α beta sigma) rfl rfl
  have hL : (SeededSegmentation.laplacianMatrix expf EPSILON (caseBEngine α beta sigma) :
      Matrix (Fin 3) (Fin 3) α) =
      !![SeededSegmentation.weight expf EPSILON (caseBEngine α beta sigma) 0 1,
          -SeededSegmentation.weight expf EPSILON (caseBEngine α beta sigma) 0 1, 0;
        -SeededSegmentation.weight expf EPSILON (caseBEngine α beta sigma) 0 1,
          SeededSegmentation.weight expf EPSILON (caseBEngine α beta sigma) 0 1 +
            SeededSegmentation.weight expf EPSILON (caseBEngine α beta sigma) 1 2,
          -SeededSegmentation.weight expf EPSILON (caseBEngine α beta sigma) 1 2;
        0, -SeededSegmentation.weight expf EPSILON (caseBEngine α beta sigma) 1 2,
          SeededSegmentation.weight expf EPSILON (caseBEngine α beta sigma) 1 2] := by
    ext i j
    fin_cases i <;> fin_cases j
    · exact hdiag.1
    · exact hoff.1
    · exact hoff.2.2.2.2.1
    · exact hoff.2.1
    · exact hdiag.2.1
    · exact hoff.2.2.1
    · exact hoff.2.2.2.2.2
    · exact hoff.2.2.2.1
    · exact hdiag.2.2
  have hI : (Matrix.diagonal (fun p : Fin 3 =>
      (SeededSegmentation.seedIndicator caseBBackground caseBForeground ((p.val : Nat) : Int) : α)) :
        Matrix (Fin 3) (Fin 3) α) = Matrix.diagonal ![(1 : α), 0, 1] := by
    refine congrArg Matrix.diagonal ?_
    funext p
    fin_cases p <;>
      simp [SeededSegmentation.seedIndicator, caseBBackground, caseBForeground, maskOf, Mat.at1]
  constructor
  · rw [SeededSegmentation.systemMatrixDense_eq]
    exact congrArg₂ (· + ·) hI (congrArg₂ (· * ·) hL hL)
  · funext p
    rw [SeededSegmentation.biasVector_apply]
    fin_cases p <;> simp [caseBBackground, caseBForeground, maskOf, Mat.at1]

/-- The solution of the system of end-to-end case B is the closed form
`((a²+ac+c²)/S, (a²-c²)/S, -(a²+ac+c²)/S)` with `S = 3a²c² + a² + ac + c²`. -/
theorem caseB_unique {α : Type} [LinearOrderedField α] [FloorRing α] (expf : α → α)
    (EPSILON beta sigma : α) (hexp : ∀ x, 0 ≤ expf x) (hε : 0 < EPSILON) (x : Fin 3 → α)
    (hx : (SeededSegmentation.systemMatrixDense expf EPSILON (caseBEngine α beta sigma)
        caseBBackground caseBForeground).mulVec x =
      SeededSegmentation.biasVector (caseBEngine α beta sigma) caseBBackground
        caseBForeground) :
    x = ![(SeededSegmentation.weight expf EPSILON (caseBEngine α beta sigma) 0 1 ^ 2 +
            SeededSegmentation.weight expf EPSILON (caseBEngine α beta sigma) 0 1 *
              SeededSegmentation.weight expf EPSILON (caseBEngine α beta sigma) 1 2 +
            SeededSegmentation.weight expf EPSILON (caseBEngine α beta sigma) 1 2 ^ 2) /
          (3 * SeededSegmentation.weight expf EPSILON (caseBEngine α beta sigma) 0 1 ^ 2 *
              SeededSegmentation.weight expf EPSILON (caseBEngine α beta sigma) 1 2 ^ 2 +
            SeededSegmentation.weight expf EPSILON (caseBEngine α beta sigma) 0 1 ^ 2 +
            SeededSegmentation.weight expf EPSILON (caseBEngine α beta sigma) 0 1 *
              SeededSegmentation.weight expf EPSILON (caseBEngine α beta sigma) 1 2 +
            SeededSegmentation.weight expf EPSILON (caseBEngine α beta sigma) 1 2 ^ 2),
        (SeededSegmentation.weight expf EPSILON (caseBEngine α beta sigma) 0 1 ^ 2 -
            SeededSegmentation.weight expf EPSILON (caseBEngine α beta sigma) 1 2 ^ 2) /
          (3 * SeededSegmentation.weight expf EPSILON (caseBEngine α beta sigma) 0 1 ^ 2 *
              SeededSegmentation.weight expf EPSILON (caseBEngine α beta sigma) 1 2 ^ 2 +
            SeededSegmentation.weight expf EPSILON (caseBEngine α beta sigma) 0 1 ^ 2 +
            SeededSegmentation.weight expf EPSILON (caseBEngine α beta sigma) 0 1 *
              SeededSegmentation.weight expf EPSILON (caseBEngine α beta sigma) 1 2 +
            SeededSegmentation.weight expf EPSILON (caseBEngine α beta sigma) 1 2 ^ 2),
        -((SeededSegmentation.weight expf EPSILON (caseBEngine α beta sigma) 0 1 ^ 2 +
            SeededSegmentation.weight expf EPSILON (caseBEngine α beta sigma) 0 1 *
              SeededSegmentation.weight expf EPSILON (caseBEngine α beta sigma) 1 2 +
            SeededSegmentation.weight expf EPSILON (caseBEngine α beta sigma) 1 2 ^ 2) /
          (3 * SeededSegmentation.weight expf EPSILON (caseBEngine α beta sigma) 0 1 ^ 2 *
              SeededSegmentation.weight expf EPSILON (caseBEngine α beta sigma) 1 2 ^ 2 +
            SeededSegmentation.weight expf EPSILON (caseBEngine α beta sigma) 0 1 ^ 2 +
            SeededSegmentation.weight expf EPSILON (caseBEngine α beta sigma) 0 1 *
              SeededSegmentation.weight expf EPSILON (caseBEngine α beta sigma) 1 2 +
            SeededSegmentation.weight expf EPSILON (caseBEngine α beta sigma) 1 2 ^ 2))] := by
  have ha := SeededSegmentation.weight_pos expf EPSILON (caseBEngine α beta sigma) hexp hε 0 1
  have hc := SeededSegmentation.weight_pos expf EPSILON (caseBEngine α beta sigma) hexp hε 1 2
  have hsys := caseB_system expf EPSILON beta sigma
  have hsol := caseB_solution _ _ ha hc
  rw [← hsys.1, ← hsys.2] at hsol
  have hinj := Matrix.mulVec_injective_iff_isUnit.2
    (SeededSegmentation.systemMatrixDense_isUnit expf EPSILON (caseBEngine α beta sigma)
      hexp hε caseBBackground caseBForeground ⟨0, (by decide : 0 < 3)⟩ rfl)
  exact hinj (hx.trans hsol.symm)

/-- The signs of the solution of the system of end-to-end case B. -/
theorem caseB_signs {α : Type} [LinearOrderedField α] [FloorRing α] (expf : α → α)
    (EPSILON beta sigma : α) (hexp : ∀ x, 0 ≤ expf x) (hε : 0 < EPSILON) (x : Fin 3 → α)
    (hx : (SeededSegmentation.systemMatrixDense expf EPSILON (caseBEngine α beta sigma)
        caseBBackground caseBForeground).mulVec x =
      SeededSegmentation.biasVector (caseBEngine α beta sigma) caseBBackground
        caseBForeground) :
    0 < x 0 ∧ x 2 < 0 ∧
      (SeededSegmentation.weight expf EPSILON (caseBEngine α beta sigma) 1 2 <
          SeededSegmentation.weight expf EPSILON (caseBEngine α beta sigma) 0 1 → 0 < x 1) := by
  have ha := SeededSegmentation.weight_pos expf EPSILON (caseBEngine α beta sigma) hexp hε 0 1
  have hc := SeededSegmentation.weight_pos expf EPSILON (caseBEngine α beta sigma) hexp hε 1 2
  have hu := caseB_unique expf EPSILON beta sigma hexp hε x hx
  have h0 := congrFun hu 0
  have h1 := congrFun hu 1
  have h2 := congrFun hu 2
  simp only [Matrix.cons_val_zero, Matrix.cons_val_one, Matrix.head_cons,
    Matrix.cons_val_two, Matrix.tail_cons] at h0 h1 h2
  refine ⟨?_, ?_, ?_⟩
  · rw [h0]
    positivity
  · rw [h2, neg_lt_zero]
    positivity
  · intro hlt
    rw [h1]
    apply div_pos _ (by positivity)
    nlinarith

/-- The two edge weights of end-to-end case B for the real exponential, `EPSILON = 1/1000`
and `beta = sigma = 1`: the edge between the two black pixels weighs `1001/1000`, the edge
across the colour boundary weighs `1/1000`. -/
theorem caseB_weights_real :
    SeededSegmentation.weight Real.exp (1 / 1000) (caseBEngine ℝ 1 1) 0 1 = 1001 / 1000 ∧
      SeededSegmentation.weight Real.exp (1 / 1000) (caseBEngine ℝ 1 1) 1 2 = 1 / 1000 := by
  have hsmall : Real.exp (-(255 : ℝ) ^ 2) < 1 / 2000 := by
    have h1 := Real.add_one_le_exp ((255 : ℝ) ^ 2)
    have hpos := Real.exp_pos ((255 : ℝ) ^ 2)
    rw [Real.exp_neg, inv_eq_one_div, div_lt_div_iff₀ hpos (by norm_num)]
    nlinarith
  have hpos := Real.exp_pos (-(255 : ℝ) ^ 2)
  constructor
  · have hfl : ⌊(1000 : ℝ) + 1 / 2⌋ = 1000 := by
      rw [Int.floor_eq_iff]
      constructor <;> norm_num
    simp only [SeededSegmentation.weight, caseBEngine, caseBImage, cround]
    norm_num [hfl]
  · have hfl : ⌊Real.exp (-(255 : ℝ) ^ 2) / (1 / 1000) + 1 / 2⌋ = 0 := by
      rw [Int.floor_eq_iff]
      constructor
      · have : 0 ≤ Real.exp (-(255 : ℝ) ^ 2) / (1 / 1000) := by positivity
        push_cast
        linarith
      · rw [div_div_eq_mul_div]
        push_cast
        linarith
    have hnn : 0 ≤ Real.exp (-(255 : ℝ) ^ 2) / (1 / 1000) := by positivity
    simp only [SeededSegmentation.weight, caseBEngine, caseBImage, cround]
    norm_num
    norm_num at hnn
    have hfl0 : ⌊Real.exp (-65025) / (1 / 1000 : ℝ) + 1 / 2⌋ = 0 := by
      norm_num at hfl
      rw [Int.floor_eq_iff]
      norm_num
      exact hfl
    rw [if_pos hnn, hfl0]
    norm_num

/-- The solution of the system of end-to-end case B for the real exponential,
`EPSILON = 1/1000` and `beta = sigma = 1`, in numbers. -/
theorem caseB_solution_real :
    (SeededSegmentation.systemMatrixDense Real.exp (1 / 1000) (caseBEngine ℝ 1 1)
        caseBBackground caseBForeground).mulVec
      (![1003003000000 / 1003006006003, 1002000000000 / 1003006006003,
        -(1003003000000 / 1003006006003)] : Fin 3 → ℝ) =
      SeededSegmentation.biasVector (caseBEngine ℝ 1 1) caseBBackground caseBForeground := by
  have hsys := caseB_system Real.exp (1 / 1000 : ℝ) 1 1
  have hw := caseB_weights_real
  have hsol := caseB_solution (1001 / 1000 : ℝ) (1 / 1000) (by norm_num) (by norm_num)
  rw [hsys.1, hsys.2, hw.1, hw.2]
  convert hsol using 2
  ext i
  fin_cases i <;> norm_num

/-! ## Part III: the claims -/

namespace SeededSegmentation

variable {α : Type} [LinearOrderedField α] [FloorRing α]

/-- C1. For every image, `beta`, `sigma` and `EPSILON`, the matrix `L` returned by
`calculateLaplacian` satisfies: for all in-range flat positions `p` and `q` that are
8-neighbours, `L[p,q] = -weight(p,q)` with
`weight(p,q) = round(exp(-(beta/sigma)*d^2)/EPSILON)*EPSILON + EPSILON` and `d` the largest
channel difference of the two colours; and for every in-range `p`, `L[p,p]` is the sum of
`weight(p,q)` over exactly the in-range 8-neighbours `q` of `p`.  (No assumption on the sign
of the parameters is needed.) -/
theorem C1_laplacian_entries (expf : α → α) (EPSILON : α) (self : SeededSegmentation α) :
    (∀ p q : Nat, p < self.inputImage.cols * self.inputImage.rows →
        q < self.inputImage.cols * self.inputImage.rows →
        adjacent self.inputImage.cols p q →
        (calculateLaplacian expf EPSILON self).coeff p q = -weight expf EPSILON self p q) ∧
      (∀ p : Nat, p < self.inputImage.cols * self.inputImage.rows →
        (calculateLaplacian expf EPSILON self).coeff p p =
          ∑ q in (Finset.range (self.inputImage.cols * self.inputImage.rows)).filter
              (fun q => adjacent self.inputImage.cols p q),
            weight expf EPSILON self p q) := by
  constructor
  · intro p q hp hq hadj
    rw [calculateLaplacian_coeff expf EPSILON self p q hp hq, if_neg hadj.1, if_pos hadj]
  · intro p hp
    rw [calculateLaplacian_coeff expf EPSILON self p p hp hp, if_pos rfl,
      degree_eq_sum expf EPSILON self p hp]

omit [FloorRing α] in
/-- C2. For every pair of masks, the seed assembly of `segment` produces a matrix `Is` with
`Is[i,i] = 1` if `backgroundMask[i]` or `foregroundMask[i]` and `0` otherwise for every flat
index `i < N`, all off-diagonal entries `0`, and a vector `b` with
`b[i] = (backgroundMask[i] ? 1 : 0) - (foregroundMask[i] ? 1 : 0)`; a pixel marked in both
masks gets `b[i] = 0` and `Is[i,i] = 1`, an unmarked pixel gets `b[i] = 0` and
`Is[i,i] = 0`. -/
theorem C2_seed_assembly (self : SeededSegmentation α)
    (backgroundImage foregroundImage : Mat Bool) :
    (∀ i : Nat, i < self.inputImage.cols * self.inputImage.rows →
        (seedAssembly self backgroundImage foregroundImage).1.coeff i i =
          (if (backgroundImage.at1 i || foregroundImage.at1 i) = true then (1 : α) else 0) ∧
        (seedAssembly self backgroundImage foregroundImage).2 i =
          (if backgroundImage.at1 i = true then (1 : α) else 0) -
            (if foregroundImage.at1 i = true then (1 : α) else 0)) ∧
      (∀ p q : Int, p ≠ q →
        (seedAssembly self backgroundImage foregroundImage).1.coeff p q = 0) ∧
      (∀ i : Nat, i < self.inputImage.cols * self.inputImage.rows →
        backgroundImage.at1 i = true → foregroundImage.at1 i = true →
        (seedAssembly self backgroundImage foregroundImage).2 i = 0 ∧
          (seedAssembly self backgroundImage foregroundImage).1.coeff i i = 1) ∧
      (∀ i : Nat, i < self.inputImage.cols * self.inputImage.rows →
        backgroundImage.at1 i = false → foregroundImage.at1 i = false →
        (seedAssembly self backgroundImage foregroundImage).2 i = 0 ∧
          (seedAssembly self backgroundImage foregroundImage).1.coeff i i = 0) := by
  have hb : ∀ i : Nat, i < self.inputImage.cols * self.inputImage.rows →
      (seedAssembly self backgroundImage foregroundImage).2 i =
        (if backgroundImage.at1 i = true then (1 : α) else 0) -
          (if foregroundImage.at1 i = true then (1 : α) else 0) := by
    intro i hi
    rw [seedAssembly_bias]
    simp only
    rw [if_pos ⟨by omega, by exact_mod_cast hi⟩]
    unfold boolToInt
    cases backgroundImage.at1 i <;> cases foregroundImage.at1 i <;> simp
  have hI : ∀ i : Nat, i < self.inputImage.cols * self.inputImage.rows →
      (seedAssembly self backgroundImage foregroundImage).1.coeff i i =
        (if (backgroundImage.at1 i || foregroundImage.at1 i) = true then (1 : α) else 0) := by
    intro i hi
    rw [seedAssembly_coeff_flat self _ _ i i hi, if_pos rfl]
  refine ⟨fun i hi => ⟨hI i hi, hb i hi⟩, ?_, ?_, ?_⟩
  · intro p q hpq
    exact seedAssembly_coeff_offdiag self _ _ p q hpq
  · intro i hi h1 h2
    rw [hb i hi, hI i hi, h1, h2]
    simp
  · intro i hi h1 h2
    rw [hb i hi, hI i hi, h1, h2]
    simp

omit [FloorRing α] in
/-- C3. Construction fails with the user-input exception if and only if `beta < 0` or
`sigma <= 0`; otherwise it succeeds and stores the image, `beta` and `sigma` unchanged.  In
particular it fails for every `beta < 0`, fails for every `sigma <= 0`, and succeeds for
`beta = 0` with any `sigma > 0`. -/
theorem C3_construct (inputImageIn : Mat (Vec3f α)) (betaIn sigmaIn : α) :
    ((∃ msg, construct inputImageIn betaIn sigmaIn =
          Except.error (Exception.UserInputException msg)) ↔ (betaIn < 0 ∨ sigmaIn ≤ 0)) ∧
      (¬ (betaIn < 0 ∨ sigmaIn ≤ 0) →
        construct inputImageIn betaIn sigmaIn =
          Except.ok { inputImage := inputImageIn, beta := betaIn, sigma := sigmaIn }) ∧
      (betaIn < 0 → construct inputImageIn betaIn sigmaIn =
          Except.error (Exception.UserInputException "Beta value should be positive")) ∧
      (sigmaIn ≤ 0 → ∃ msg, construct inputImageIn betaIn sigmaIn =
          Except.error (Exception.UserInputException msg)) ∧
      (betaIn = 0 → 0 < sigmaIn →
        construct inputImageIn betaIn sigmaIn =
          Except.ok { inputImage := inputImageIn, beta := betaIn, sigma := sigmaIn }) := by
  have hok : ¬ (betaIn < 0 ∨ sigmaIn ≤ 0) →
      construct inputImageIn betaIn sigmaIn =
        Except.ok { inputImage := inputImageIn, beta := betaIn, sigma := sigmaIn } := by
    intro h
    unfold construct
    simp only
    rw [if_neg (fun hb => h (Or.inl hb)), if_neg (fun hs => h (Or.inr hs))]
  have hbeta : betaIn < 0 → construct inputImageIn betaIn sigmaIn =
      Except.error (Exception.UserInputException "Beta value should be positive") := by
    intro h
    unfold construct
    simp only
    rw [if_pos h]
  have hsigma : sigmaIn ≤ 0 → ∃ msg, construct inputImageIn betaIn sigmaIn =
      Except.error (Exception.UserInputException msg) := by
    intro h
    by_cases hb : betaIn < 0
    · exact ⟨_, hbeta hb⟩
    · refine ⟨"Sigma value should be greater than 0", ?_⟩
      unfold construct
      simp only
      rw [if_neg hb, if_pos h]
  refine ⟨⟨?_, ?_⟩, hok, hbeta, hsigma, ?_⟩
  · rintro ⟨msg, hmsg⟩
    by_contra hcon
    rw [hok hcon] at hmsg
    cases hmsg
  · rintro (h | h)
    · exact ⟨_, hbeta h⟩
    · exact hsigma h
  · intro hb hs
    apply hok
    rintro (h | h)
    · rw [hb] at h; exact lt_irrefl _ h
    · exact absurd hs (not_lt.2 h)

/-- C4. The threshold that `segment` passes to `applyThresholding` is exactly `0`, a mask
returned by `segment` is the thresholding at `0` of the solver's field, and with
`THRESHOLD_TYPE = cv::THRESH_BINARY` the output pixel at row `r`, column `c` is "on"
(`MAX_BINARY_VALUE`) if `x[r*W + c] > 0` and "off" (`0`) otherwise, so for a non-zero
`MAX_BINARY_VALUE` it is "on" if and only if `x[r*W + c] > 0`; a value exactly equal to `0`
is "off". -/
theorem C4_threshold {σ : Type} (expf : α → α) (EPSILON MAX_BINARY_VALUE : α)
    (solver : SimplicialLLT α σ) (self : SeededSegmentation α)
    (backgroundImage foregroundImage : Mat Bool) (x : VectorXd α) (r c : Nat)
    (hr : r < self.inputImage.rows) (hc : c < self.inputImage.cols) :
    (segmentThreshold : α) = 0 ∧
      (∀ out, segment expf EPSILON MAX_BINARY_VALUE ThresholdType.THRESH_BINARY solver self
            backgroundImage foregroundImage = Except.ok out →
          ∃ x' : VectorXd α, out =
            applyThresholding MAX_BINARY_VALUE ThresholdType.THRESH_BINARY (finalImage self x') 0) ∧
      (applyThresholding MAX_BINARY_VALUE ThresholdType.THRESH_BINARY (finalImage self x)
          segmentThreshold).at2 r c =
        (if 0 < x ((r : Int) * self.inputImage.cols + c) then MAX_BINARY_VALUE else 0) ∧
      (MAX_BINARY_VALUE ≠ 0 →
        ((applyThresholding MAX_BINARY_VALUE ThresholdType.THRESH_BINARY (finalImage self x)
          segmentThreshold).at2 r c = MAX_BINARY_VALUE ↔
            0 < x ((r : Int) * self.inputImage.cols + c))) ∧
      (x ((r : Int) * self.inputImage.cols + c) = 0 →
        (applyThresholding MAX_BINARY_VALUE ThresholdType.THRESH_BINARY (finalImage self x)
          segmentThreshold).at2 r c = 0) := by
  have h0 : (segmentThreshold : α) = 0 := by
    unfold segmentThreshold
    norm_num
  have hpix : (applyThresholding MAX_BINARY_VALUE ThresholdType.THRESH_BINARY
        (finalImage self x) segmentThreshold).at2 r c =
      (if 0 < x ((r : Int) * self.inputImage.cols + c) then MAX_BINARY_VALUE else 0) := by
    have hlt := idx_lt self.inputImage.cols self.inputImage.rows r c
      ⟨by omega, by omega⟩ ⟨by omega, by omega⟩
    have hcond : 0 ≤ (r : Int) * self.inputImage.cols + c ∧
        (r : Int) * self.inputImage.cols + c <
          ((self.inputImage.cols * self.inputImage.rows : Nat) : Int) :=
      ⟨hlt.1, by push_cast; exact hlt.2⟩
    unfold applyThresholding threshold Mat.at2
    simp only [(finalImage_dims self x).2, finalImage_data, h0, if_pos hcond, gt_iff_lt]
  refine ⟨h0, ?_, hpix, ?_, ?_⟩
  · intro out hout
    unfold segment at hout
    simp only at hout
    split_ifs at hout
    rw [h0] at hout
    exact ⟨_, (Except.ok.inj hout).symm⟩
  · intro hmax
    rw [hpix]
    by_cases hx : 0 < x ((r : Int) * self.inputImage.cols + c)
    · rw [if_pos hx]; exact ⟨fun _ => hx, fun _ => rfl⟩
    · rw [if_neg hx]; exact ⟨fun h => absurd h.symm hmax, fun h => absurd h hx⟩
  · intro hx
    rw [hpix, hx, if_neg (lt_irrefl 0)]

/-- C5. The matrix returned by `calculateLaplacian` is symmetric: `L[p,q] = L[q,p]` for all
flat positions `p, q < N`. -/
theorem C5_symmetric (expf : α → α) (EPSILON : α) (self : SeededSegmentation α) (p q : Nat)
    (hp : p < self.inputImage.cols * self.inputImage.rows)
    (hq : q < self.inputImage.cols * self.inputImage.rows) :
    (calculateLaplacian expf EPSILON self).coeff p q =
      (calculateLaplacian expf EPSILON self).coeff q p :=
  calculateLaplacian_coeff_symm expf EPSILON self p q hp hq

/-- C6. When `exp` is non-negative and `EPSILON` is positive, the quantised edge weight
`round(exp(-(beta/sigma)*d^2)/EPSILON)*EPSILON + EPSILON` is at least `EPSILON`, hence
strictly positive, for every pair of pixels; the value the loop computes for an offset is at
least `EPSILON`; and every stored off-diagonal triplet of the returned matrix holds a value
that is at most `-EPSILON`, hence strictly negative and never zero. -/
theorem C6_weight_positive (expf : α → α) (EPSILON : α) (self : SeededSegmentation α)
    (hexp : ∀ x, 0 ≤ expf x) (hε : 0 < EPSILON) :
    (∀ p q : Int, EPSILON ≤ weight expf EPSILON self p q ∧ 0 < weight expf EPSILON self p q) ∧
      (∀ (i j : Int) (k : Nat), EPSILON ≤ edgeValue expf EPSILON self i j k) ∧
      (∀ e ∈ (calculateLaplacian expf EPSILON self).entries,
        e.1 ≠ e.2.1 → e.2.2 ≤ -EPSILON ∧ e.2.2 < 0 ∧ e.2.2 ≠ 0) := by
  refine ⟨fun p q => ⟨weight_ge expf EPSILON self hexp hε p q,
    weight_pos expf EPSILON self hexp hε p q⟩, ?_, ?_⟩
  · intro i j k
    rw [edgeValue_eq_weight]
    exact weight_ge expf EPSILON self hexp hε _ _
  · intro e he hne
    have hparts := laplacianParts_entries expf EPSILON self hexp hε
    unfold calculateLaplacian SparseMatrix.add at he
    simp only [List.mem_append] at he
    rcases he with he | he
    · have h := (hparts.1 e he).2
      have hneg : e.2.2 < 0 := lt_of_le_of_lt h (neg_neg_of_pos hε)
      exact ⟨h, hneg, ne_of_lt hneg⟩
    · exact absurd (hparts.2 e he) hne

/-- C7 (amended). For every uniform-colour image and `exp(0) = 1`: every edge weight equals
the single constant `w = round(1/EPSILON)*EPSILON + EPSILON`, every off-diagonal entry for
an existing edge equals `-w`, and, when the image has at least two rows and at least two
columns, the Laplacian diagonal equals `8w` at every interior pixel, `3w` at every corner
pixel and `5w` at every non-corner border pixel. -/
theorem C7_uniform_laplacian (expf : α → α) (EPSILON : α) (self : SeededSegmentation α)
    (hexp0 : expf 0 = 1) (huni : isUniform self.inputImage) :
    (∀ p q : Nat, p < self.inputImage.cols * self.inputImage.rows →
        q < self.inputImage.cols * self.inputImage.rows →
        weight expf EPSILON self p q = uniformWeight EPSILON) ∧
      (∀ p q : Nat, p < self.inputImage.cols * self.inputImage.rows →
        q < self.inputImage.cols * self.inputImage.rows →
        adjacent self.inputImage.cols p q →
        (calculateLaplacian expf EPSILON self).coeff p q = -uniformWeight EPSILON) ∧
      (∀ i j : Nat, i < self.inputImage.rows → j < self.inputImage.cols →
        2 ≤ self.inputImage.rows → 2 ≤ self.inputImage.cols →
        (calculateLaplacian expf EPSILON self).coeff ((i : Int) * self.inputImage.cols + j)
            ((i : Int) * self.inputImage.cols + j) =
          if isInterior self.inputImage.rows self.inputImage.cols i j then
            8 * uniformWeight EPSILON
          else if isCorner self.inputImage.rows self.inputImage.cols i j then
            3 * uniformWeight EPSILON
          else 5 * uniformWeight EPSILON) := by
  have hw : ∀ p q : Nat, p < self.inputImage.cols * self.inputImage.rows →
      q < self.inputImage.cols * self.inputImage.rows →
      weight expf EPSILON self p q = uniformWeight EPSILON := by
    intro p q hp hq
    apply weight_uniform expf EPSILON self hexp0
    exact huni p q (by omega) (by exact_mod_cast hp) (by omega) (by exact_mod_cast hq)
  refine ⟨hw, ?_, ?_⟩
  · intro p q hp hq hadj
    rw [calculateLaplacian_coeff expf EPSILON self p q hp hq, if_neg hadj.1, if_pos hadj,
      hw p q hp hq]
  · intro i j hi hj hH hW
    rw [calculateLaplacian_coeff_idx expf EPSILON self i j i j hi hj hi hj,
      if_pos ⟨rfl, rfl⟩, degree_uniform_count expf EPSILON self hexp0 huni i j hi hj hH hW]

/-- C8. For all flat positions `p != q` below `N = W*H` (so `W, H > 0`, square or not),
`calculateLaplacian` stores an entry at `(p, q)` if and only if the pixels
`(p div W, p mod W)` and `(q div W, q mod W)` differ by at most one in row and at most one
in column; the pixel `(row, col)` is the one at flat position `row*W + col`; and there is no
wraparound: when `W >= 3`, nothing is stored between the last pixel of a row and the first
pixel of the next row. -/
theorem C8_edges_iff_neighbours (expf : α → α) (EPSILON : α) (self : SeededSegmentation α)
    (p q : Nat) (hp : p < self.inputImage.cols * self.inputImage.rows)
    (hq : q < self.inputImage.cols * self.inputImage.rows) (hpq : p ≠ q) :
    ((calculateLaplacian expf EPSILON self).stored p q = true ↔
        (p / self.inputImage.cols ≤ q / self.inputImage.cols + 1 ∧
          q / self.inputImage.cols ≤ p / self.inputImage.cols + 1) ∧
        (p % self.inputImage.cols ≤ q % self.inputImage.cols + 1 ∧
          q % self.inputImage.cols ≤ p % self.inputImage.cols + 1)) ∧
      self.inputImage.at2 ((p / self.inputImage.cols : Nat) : Int)
          ((p % self.inputImage.cols : Nat) : Int) = self.inputImage.data p ∧
      (∀ r : Nat, 3 ≤ self.inputImage.cols → r + 1 < self.inputImage.rows →
        (calculateLaplacian expf EPSILON self).stored
            ((r * self.inputImage.cols + (self.inputImage.cols - 1) : Nat) : Int)
            (((r + 1) * self.inputImage.cols : Nat) : Int) = false ∧
          (calculateLaplacian expf EPSILON self).stored
            (((r + 1) * self.inputImage.cols : Nat) : Int)
            ((r * self.inputImage.cols + (self.inputImage.cols - 1) : Nat) : Int) = false) := by
  refine ⟨?_, ?_, ?_⟩
  · rw [calculateLaplacian_stored expf EPSILON self p q hp hq hpq]
    exact ⟨fun h => h.2, fun h => ⟨hpq, h⟩⟩
  · unfold Mat.at2
    rw [(flat_coords _ _ p hp).2.2]
  · intro r hW hr
    have hlast : r * self.inputImage.cols + (self.inputImage.cols - 1) <
        self.inputImage.cols * self.inputImage.rows := by
      have h1 : (r + 1) * self.inputImage.cols ≤ self.inputImage.rows * self.inputImage.cols :=
        Nat.mul_le_mul_right _ (by omega)
      have h2 : (r + 1) * self.inputImage.cols = r * self.inputImage.cols + self.inputImage.cols :=
        Nat.succ_mul _ _
      rw [Nat.mul_comm self.inputImage.cols]
      omega
    have hfirst : (r + 1) * self.inputImage.cols <
        self.inputImage.cols * self.inputImage.rows := by
      rw [Nat.mul_comm self.inputImage.cols]
      exact Nat.mul_lt_mul_of_pos_right hr (by omega)
    have hne : r * self.inputImage.cols + (self.inputImage.cols - 1) ≠
        (r + 1) * self.inputImage.cols := by
      rw [Nat.succ_mul]
      omega
    have hwrap := not_adjacent_wrap self.inputImage.cols r hW
    constructor
    · rw [Bool.eq_false_iff]
      intro h
      exact hwrap.1 ((calculateLaplacian_stored expf EPSILON self _ _ hlast hfirst hne).1 h)
    · rw [Bool.eq_false_iff]
      intro h
      exact hwrap.2
        ((calculateLaplacian_stored expf EPSILON self _ _ hfirst hlast (Ne.symm hne)).1 h)

/-- C9. When `exp` is non-negative and `EPSILON` is positive, the Laplacian `L` returned by
`calculateLaplacian` is positive semi-definite: for every vector `x` of length `N`,
`x^T L x >= 0`; and `x^T L x` equals the sum over the undirected edges `{p, q}` (pairs of
8-neighbours with `p < q`) of `weight(p,q) * (x[p] - x[q])^2`. -/
theorem C9_positive_semidefinite (expf : α → α) (EPSILON : α) (self : SeededSegmentation α)
    (hexp : ∀ x, 0 ≤ expf x) (hε : 0 < EPSILON)
    (x : Fin (self.inputImage.cols * self.inputImage.rows) → α) :
    0 ≤ Matrix.dotProduct x
        (((calculateLaplacian expf EPSILON self).toMatrix
          (self.inputImage.cols * self.inputImage.rows)).mulVec x) ∧
      Matrix.dotProduct x
        (((calculateLaplacian expf EPSILON self).toMatrix
          (self.inputImage.cols * self.inputImage.rows)).mulVec x) =
        ∑ p : Fin (self.inputImage.cols * self.inputImage.rows),
          ∑ q : Fin (self.inputImage.cols * self.inputImage.rows),
            if p < q ∧ adjacent self.inputImage.cols p q then
              weight expf EPSILON self p q * (x p - x q) ^ 2
            else 0 := by
  have hq := laplacianMatrix_quadratic_form expf EPSILON self x
  unfold laplacianMatrix at hq
  constructor
  · rw [hq]
    apply Finset.sum_nonneg
    intro p _
    apply Finset.sum_nonneg
    intro q _
    by_cases h : p < q
    · rw [if_pos h]
      exact mul_nonneg (edgeWeight_nonneg expf EPSILON self hexp hε p q) (sq_nonneg _)
    · rw [if_neg h]
  · rw [hq]
    apply Finset.sum_congr rfl
    intro p _
    apply Finset.sum_congr rfl
    intro q _
    unfold edgeWeight
    by_cases h : p < q
    · by_cases hadj : adjacent self.inputImage.cols p q
      · rw [if_pos h, if_pos hadj, if_pos ⟨h, hadj⟩]
      · rw [if_pos h, if_neg hadj, if_neg (fun hh => hadj hh.2), zero_mul]
    · rw [if_neg h, if_neg (fun hh => h hh.1)]

/-- C10 (amended). When `exp` is non-negative, `EPSILON` is positive and at least one pixel
is marked by the background or the foreground mask, the system matrix
`A = Is + L*L` that `segment` hands to the solver is invertible, even though `L` alone is
singular. -/
theorem C10_system_invertible (expf : α → α) (EPSILON : α) (self : SeededSegmentation α)
    (hexp : ∀ x, 0 ≤ expf x) (hε : 0 < EPSILON) (backgroundImage foregroundImage : Mat Bool)
    (s : Nat) (hsN : s < self.inputImage.cols * self.inputImage.rows)
    (hs : (backgroundImage.at1 s || foregroundImage.at1 s) = true) :
    IsUnit ((systemMatrix expf EPSILON self backgroundImage foregroundImage).toMatrix
        (self.inputImage.cols * self.inputImage.rows)) ∧
      ¬ IsUnit ((calculateLaplacian expf EPSILON self).toMatrix
        (self.inputImage.cols * self.inputImage.rows)) :=
  ⟨systemMatrixDense_isUnit expf EPSILON self hexp hε backgroundImage foregroundImage
      ⟨s, hsN⟩ hs,
    laplacianMatrix_not_isUnit expf EPSILON self (Nat.lt_of_le_of_lt (Nat.zero_le s) hsN)⟩

/-- C11. End-to-end case A, for every image: when `exp` is non-negative, `EPSILON` is
positive, the background mask is true at every pixel and the foreground mask is false at
every pixel, the all-ones vector solves `(Is + L*L) x = b` and is the only solution; a
field that is `1` on the pixels thresholds to "on" (`MAX_BINARY_VALUE`, with
`THRESHOLD_TYPE = cv::THRESH_BINARY`) at every pixel; and when the solver reports success
twice and returns a solution of the system, `segment` returns a mask that is "on" at every
pixel. -/
theorem C11_all_background {σ : Type} (expf : α → α) (EPSILON MAX_BINARY_VALUE : α)
    (solver : SimplicialLLT α σ) (self : SeededSegmentation α)
    (hexp : ∀ x, 0 ≤ expf x) (hε : 0 < EPSILON) (backgroundImage foregroundImage : Mat Bool)
    (hbg : ∀ p : Nat, p < self.inputImage.cols * self.inputImage.rows →
      backgroundImage.at1 p = true)
    (hfg : ∀ p : Nat, p < self.inputImage.cols * self.inputImage.rows →
      foregroundImage.at1 p = false) :
    ((systemMatrix expf EPSILON self backgroundImage foregroundImage).toMatrix
          (self.inputImage.cols * self.inputImage.rows)).mulVec (fun _ => 1) =
        biasVector self backgroundImage foregroundImage ∧
      (∀ x : Fin (self.inputImage.cols * self.inputImage.rows) → α,
        ((systemMatrix expf EPSILON self backgroundImage foregroundImage).toMatrix
            (self.inputImage.cols * self.inputImage.rows)).mulVec x =
          biasVector self backgroundImage foregroundImage → x = fun _ => 1) ∧
      (∀ xv : VectorXd α,
        (∀ p : Fin (self.inputImage.cols * self.inputImage.rows), xv ((p.val : Nat) : Int) = 1) →
        ∀ r c : Nat, r < self.inputImage.rows → c < self.inputImage.cols →
          (applyThresholding MAX_BINARY_VALUE ThresholdType.THRESH_BINARY (finalImage self xv)
            segmentThreshold).at2 r c = MAX_BINARY_VALUE) ∧
      (solver.info (solver.compute solver.fresh
            (systemMatrix expf EPSILON self backgroundImage foregroundImage)) =
          ComputationInfo.Success →
        solver.info (solver.solve (solver.compute solver.fresh
            (systemMatrix expf EPSILON self backgroundImage foregroundImage))
            (seedAssembly self backgroundImage foregroundImage).2).2 = ComputationInfo.Success →
        ((systemMatrix expf EPSILON self backgroundImage foregroundImage).toMatrix
            (self.inputImage.cols * self.inputImage.rows)).mulVec
            (fun p => (solver.solve (solver.compute solver.fresh
              (systemMatrix expf EPSILON self backgroundImage foregroundImage))
              (seedAssembly self backgroundImage foregroundImage).2).1 ((p.val : Nat) : Int)) =
          biasVector self backgroundImage foregroundImage →
        ∃ out, segment expf EPSILON MAX_BINARY_VALUE ThresholdType.THRESH_BINARY solver self
            backgroundImage foregroundImage = Except.ok out ∧
          ∀ r c : Nat, r < self.inputImage.rows → c < self.inputImage.cols →
            out.at2 r c = MAX_BINARY_VALUE) := by
  have huniq := systemMatrixDense_all_background_unique expf EPSILON self hexp hε
    backgroundImage foregroundImage hbg hfg
  have hout : ∀ xv : VectorXd α,
      (∀ p : Fin (self.inputImage.cols * self.inputImage.rows), xv ((p.val : Nat) : Int) = 1) →
      ∀ r c : Nat, r < self.inputImage.rows → c < self.inputImage.cols →
        (applyThresholding MAX_BINARY_VALUE ThresholdType.THRESH_BINARY (finalImage self xv)
          segmentThreshold).at2 r c = MAX_BINARY_VALUE := by
    intro xv hxv r c hr hc
    have hlt := idx_lt self.inputImage.cols self.inputImage.rows r c
      ⟨by omega, by omega⟩ ⟨by omega, by omega⟩
    obtain ⟨t, ht⟩ := Int.eq_ofNat_of_zero_le hlt.1
    have htN : t < self.inputImage.cols * self.inputImage.rows := by
      have := hlt.2
      rw [ht] at this
      exact_mod_cast this
    have hone := hxv ⟨t, htN⟩
    rw [output_pixel MAX_BINARY_VALUE self xv r c hr hc, ht]
    simp only at hone
    rw [hone, if_pos zero_lt_one]
  refine ⟨systemMatrixDense_all_background expf EPSILON self backgroundImage foregroundImage
    hbg hfg, huniq, hout, ?_⟩
  intro h1 h2 hsol
  refine ⟨_, (segment_cases expf EPSILON MAX_BINARY_VALUE ThresholdType.THRESH_BINARY solver
    self backgroundImage foregroundImage).2.2 h1 h2, ?_⟩
  exact hout _ (fun p => congrFun (huniq _ hsol) p)

/-- C12. End-to-end case B: for the 1×3 image with colours `[0,0,0]`, `[0,0,0]`,
`[255,255,255]`, the background seed at column `0` only and the foreground seed at column
`2` only, with `exp` non-negative and `EPSILON` positive (any `beta`, `sigma`): every
solution `x` of `(Is + L*L) x = b` has `x[0] > 0` and `x[2] < 0`, and `x[1] > 0` whenever
the weight of edge `(0,1)` is strictly larger than that of edge `(1,2)`; so, with
`THRESHOLD_TYPE = cv::THRESH_BINARY`, the output is "on" at column `0`, "off" at column `2`
and "on" at column `1` under that condition, also for the mask `segment` returns when the
solver reports success twice and returns a solution. -/
theorem C12_case_b {σ : Type} (expf : α → α) (EPSILON MAX_BINARY_VALUE beta sigma : α)
    (solver : SimplicialLLT α σ) (hexp : ∀ x, 0 ≤ expf x) (hε : 0 < EPSILON)
    (x : Fin 3 → α) (xv : VectorXd α)
    (hx : ((systemMatrix expf EPSILON (caseBEngine α beta sigma) caseBBackground
          caseBForeground).toMatrix
        ((caseBEngine α beta sigma).inputImage.cols *
          (caseBEngine α beta sigma).inputImage.rows)).mulVec x =
      biasVector (caseBEngine α beta sigma) caseBBackground caseBForeground)
    (hxv : ∀ p : Fin 3, xv ((p.val : Nat) : Int) = x p) :
    (0 < x 0 ∧ x 2 < 0 ∧
        (weight expf EPSILON (caseBEngine α beta sigma) 1 2 <
          weight expf EPSILON (caseBEngine α beta sigma) 0 1 → 0 < x 1)) ∧
      ((applyThresholding MAX_BINARY_VALUE ThresholdType.THRESH_BINARY
            (finalImage (caseBEngine α beta sigma) xv) segmentThreshold).at2 0 0 =
          MAX_BINARY_VALUE ∧
        (applyThresholding MAX_BINARY_VALUE ThresholdType.THRESH_BINARY
            (finalImage (caseBEngine α beta sigma) xv) segmentThreshold).at2 0 2 = 0 ∧
        (weight expf EPSILON (caseBEngine α beta sigma) 1 2 <
            weight expf EPSILON (caseBEngine α beta sigma) 0 1 →
          (applyThresholding MAX_BINARY_VALUE ThresholdType.THRESH_BINARY
            (finalImage (caseBEngine α beta sigma) xv) segmentThreshold).at2 0 1 =
          MAX_BINARY_VALUE)) ∧
      (solver.info (solver.compute solver.fresh
            (systemMatrix expf EPSILON (caseBEngine α beta sigma) caseBBackground
              caseBForeground)) = ComputationInfo.Success →
        solver.info (solver.solve (solver.compute solver.fresh
            (systemMatrix expf EPSILON (caseBEngine α beta sigma) caseBBackground
              caseBForeground))
            (seedAssembly (caseBEngine α beta sigma) caseBBackground caseBForeground).2).2 =
          ComputationInfo.Success →
        ((systemMatrix expf EPSILON (caseBEngine α beta sigma) caseBBackground
              caseBForeground).toMatrix
            ((caseBEngine α beta sigma).inputImage.cols *
              (caseBEngine α beta sigma).inputImage.rows)).mulVec
            (fun p => (solver.solve (solver.compute solver.fresh
              (systemMatrix expf EPSILON (caseBEngine α beta sigma) caseBBackground
                caseBForeground))
              (seedAssembly (caseBEngine α beta sigma) caseBBackground
                caseBForeground).2).1 ((p.val : Nat) : Int)) =
          biasVector (caseBEngine α beta sigma) caseBBackground caseBForeground →
        ∃ out, segment expf EPSILON MAX_BINARY_VALUE ThresholdType.THRESH_BINARY solver
            (caseBEngine α beta sigma) caseBBackground caseBForeground = Except.ok out ∧
          out.at2 0 0 = MAX_BINARY_VALUE ∧ out.at2 0 2 = 0 ∧
          (weight expf EPSILON (caseBEngine α beta sigma) 1 2 <
            weight expf EPSILON (caseBEngine α beta sigma) 0 1 →
            out.at2 0 1 = MAX_BINARY_VALUE)) := by
  have hout : ∀ (y : Fin 3 → α) (yv : VectorXd α),
      (systemMatrixDense expf EPSILON (caseBEngine α beta sigma) caseBBackground
        caseBForeground).mulVec y =
        biasVector (caseBEngine α beta sigma) caseBBackground caseBForeground →
      (∀ p : Fin 3, yv ((p.val : Nat) : Int) = y p) →
      (applyThresholding MAX_BINARY_VALUE ThresholdType.THRESH_BINARY
          (finalImage (caseBEngine α beta sigma) yv) segmentThreshold).at2 0 0 =
        MAX_BINARY_VALUE ∧
      (applyThresholding MAX_BINARY_VALUE ThresholdType.THRESH_BINARY
          (finalImage (caseBEngine α beta sigma) yv) segmentThreshold).at2 0 2 = 0 ∧
      (weight expf EPSILON (caseBEngine α beta sigma) 1 2 <
          weight expf EPSILON (caseBEngine α beta sigma) 0 1 →
        (applyThresholding MAX_BINARY_VALUE ThresholdType.THRESH_BINARY
          (finalImage (caseBEngine α beta sigma) yv) segmentThreshold).at2 0 1 =
        MAX_BINARY_VALUE) := by
    intro y yv hy hyv
    have hs := caseB_signs expf EPSILON beta sigma hexp hε y hy
    have h0 := output_pixel MAX_BINARY_VALUE (caseBEngine α beta sigma) yv 0 0
      (by decide : 0 < 1) (by decide : 0 < 3)
    have h1 := output_pixel MAX_BINARY_VALUE (caseBEngine α beta sigma) yv 0 1
      (by decide : 0 < 1) (by decide : 1 < 3)
    have h2 := output_pixel MAX_BINARY_VALUE (caseBEngine α beta sigma) yv 0 2
      (by decide : 0 < 1) (by decide : 2 < 3)
    have e0 := hyv 0
    have e1 := hyv 1
    have e2 := hyv 2
    simp only [Fin.val_zero, Fin.val_one, Fin.val_two, Nat.cast_zero, Nat.cast_one,
      Nat.cast_ofNat] at e0 e1 e2
    simp only [Nat.cast_zero, Nat.cast_one, Nat.cast_ofNat, zero_mul, zero_add] at h0 h1 h2
    rw [e0] at h0
    rw [e1] at h1
    rw [e2] at h2
    refine ⟨?_, ?_, ?_⟩
    · rw [h0, if_pos hs.1]
    · rw [h2, if_neg (not_lt.2 hs.2.1.le)]
    · intro hlt
      rw [h1, if_pos (hs.2.2 hlt)]
  refine ⟨caseB_signs expf EPSILON beta sigma hexp hε x hx, hout x xv hx hxv, ?_⟩
  intro h1 h2 hsol
  exact ⟨_, (segment_cases expf EPSILON MAX_BINARY_VALUE ThresholdType.THRESH_BINARY solver
    (caseBEngine α beta sigma) caseBBackground caseBForeground).2.2 h1 h2,
    hout _ _ hsol (fun _ => rfl)⟩

/-- C13 (amended). `segment` raises no shape error and validates neither the masks'
dimensions nor the image size: its result does not depend on the dimensions the masks
declare, the only errors it returns are the solver's "Decomposition failed" and "Solving
failed", and whenever the solver reports success twice it returns a mask, which has the
dimensions of the bound image (also when the image is zero-sized). -/
theorem C13_no_shape_validation {σ : Type} (expf : α → α) (EPSILON MAX_BINARY_VALUE : α)
    (THRESHOLD_TYPE : ThresholdType) (solver : SimplicialLLT α σ) (self : SeededSegmentation α)
    (backgroundImage foregroundImage : Mat Bool) :
    (∀ bgRows bgCols fgRows fgCols : Nat,
        segment expf EPSILON MAX_BINARY_VALUE THRESHOLD_TYPE solver self
            { rows := bgRows, cols := bgCols, data := backgroundImage.data }
            { rows := fgRows, cols := fgCols, data := foregroundImage.data } =
          segment expf EPSILON MAX_BINARY_VALUE THRESHOLD_TYPE solver self backgroundImage
            foregroundImage) ∧
    (segment expf EPSILON MAX_BINARY_VALUE THRESHOLD_TYPE solver self backgroundImage
          foregroundImage = Except.error (Exception.MathException "Decomposition failed") ∨
      segment expf EPSILON MAX_BINARY_VALUE THRESHOLD_TYPE solver self backgroundImage
          foregroundImage = Except.error (Exception.MathException "Solving failed") ∨
      ∃ out, segment expf EPSILON MAX_BINARY_VALUE THRESHOLD_TYPE solver self backgroundImage
          foregroundImage = Except.ok out ∧
        out.rows = self.inputImage.rows ∧ out.cols = self.inputImage.cols) ∧
    (solver.info (solver.compute solver.fresh
          (systemMatrix expf EPSILON self backgroundImage foregroundImage)) =
        ComputationInfo.Success →
      solver.info (solver.solve (solver.compute solver.fresh
          (systemMatrix expf EPSILON self backgroundImage foregroundImage))
          (seedAssembly self backgroundImage foregroundImage).2).2 = ComputationInfo.Success →
      ∃ out, segment expf EPSILON MAX_BINARY_VALUE THRESHOLD_TYPE solver self backgroundImage
          foregroundImage = Except.ok out ∧
        out.rows = self.inputImage.rows ∧ out.cols = self.inputImage.cols) := by
  have hc := segment_cases expf EPSILON MAX_BINARY_VALUE THRESHOLD_TYPE solver self
    backgroundImage foregroundImage
  have hok : solver.info (solver.compute solver.fresh
        (systemMatrix expf EPSILON self backgroundImage foregroundImage)) =
        ComputationInfo.Success →
      solver.info (solver.solve (solver.compute solver.fresh
          (systemMatrix expf EPSILON self backgroundImage foregroundImage))
          (seedAssembly self backgroundImage foregroundImage).2).2 = ComputationInfo.Success →
      ∃ out, segment expf EPSILON MAX_BINARY_VALUE THRESHOLD_TYPE solver self backgroundImage
          foregroundImage = Except.ok out ∧
        out.rows = self.inputImage.rows ∧ out.cols = self.inputImage.cols := by
    intro h1 h2
    exact ⟨_, hc.2.2 h1 h2, applyThresholding_dims MAX_BINARY_VALUE THRESHOLD_TYPE self _ _⟩
  refine ⟨fun _ _ _ _ => rfl, ?_, hok⟩
  by_cases h1 : solver.info (solver.compute solver.fresh
      (systemMatrix expf EPSILON self backgroundImage foregroundImage)) =
        ComputationInfo.Success
  · by_cases h2 : solver.info (solver.solve (solver.compute solver.fresh
        (systemMatrix expf EPSILON self backgroundImage foregroundImage))
        (seedAssembly self backgroundImage foregroundImage).2).2 = ComputationInfo.Success
    · exact Or.inr (Or.inr (hok h1 h2))
    · exact Or.inr (Or.inl (hc.2.1 h1 h2))
  · exact Or.inl (hc.1 h1)

/-- C14. With the solver a service that reports a status after the factorisation and after
the solve: `segment` returns a mask only if both steps report success, and then the mask is
the thresholded field of the solve; a factorisation failure aborts with the error
"Decomposition failed" whatever the solve step would do (no solve is attempted), a solve
failure aborts with the distinct error "Solving failed", and in both cases no mask is
returned. -/
theorem C14_solver_failures {σ : Type} (expf : α → α) (EPSILON MAX_BINARY_VALUE : α)
    (THRESHOLD_TYPE : ThresholdType) (solver : SimplicialLLT α σ) (self : SeededSegmentation α)
    (backgroundImage foregroundImage : Mat Bool) :
    (∀ out, segment expf EPSILON MAX_BINARY_VALUE THRESHOLD_TYPE solver self backgroundImage
          foregroundImage = Except.ok out →
        solver.info (solver.compute solver.fresh
            (systemMatrix expf EPSILON self backgroundImage foregroundImage)) =
          ComputationInfo.Success ∧
        solver.info (solver.solve (solver.compute solver.fresh
            (systemMatrix expf EPSILON self backgroundImage foregroundImage))
            (seedAssembly self backgroundImage foregroundImage).2).2 =
          ComputationInfo.Success ∧
        out = applyThresholding MAX_BINARY_VALUE THRESHOLD_TYPE
          (finalImage self (solver.solve (solver.compute solver.fresh
            (systemMatrix expf EPSILON self backgroundImage foregroundImage))
            (seedAssembly self backgroundImage foregroundImage).2).1) segmentThreshold) ∧
    (solver.info (solver.compute solver.fresh
          (systemMatrix expf EPSILON self backgroundImage foregroundImage)) ≠
        ComputationInfo.Success →
      ∀ solve' : σ → VectorXd α → VectorXd α × σ,
        segment expf EPSILON MAX_BINARY_VALUE THRESHOLD_TYPE
            { fresh := solver.fresh, compute := solver.compute, info := solver.info,
              solve := solve' }
            self backgroundImage foregroundImage =
          Except.error (Exception.MathException "Decomposition failed")) ∧
    (solver.info (solver.compute solver.fresh
          (systemMatrix expf EPSILON self backgroundImage foregroundImage)) =
        ComputationInfo.Success →
      solver.info (solver.solve (solver.compute solver.fresh
          (systemMatrix expf EPSILON self backgroundImage foregroundImage))
          (seedAssembly self backgroundImage foregroundImage).2).2 ≠ ComputationInfo.Success →
      segment expf EPSILON MAX_BINARY_VALUE THRESHOLD_TYPE solver self backgroundImage
          foregroundImage = Except.error (Exception.MathException "Solving failed")) ∧
    Exception.MathException "Decomposition failed" ≠ Exception.MathException "Solving failed" := by
  have hc := segment_cases expf EPSILON MAX_BINARY_VALUE THRESHOLD_TYPE solver self
    backgroundImage foregroundImage
  refine ⟨?_, ?_, hc.2.1, by decide⟩
  · intro out hout
    by_cases h1 : solver.info (solver.compute solver.fresh
        (systemMatrix expf EPSILON self backgroundImage foregroundImage)) =
          ComputationInfo.Success
    · by_cases h2 : solver.info (solver.solve (solver.compute solver.fresh
          (systemMatrix expf EPSILON self backgroundImage foregroundImage))
          (seedAssembly self backgroundImage foregroundImage).2).2 = ComputationInfo.Success
      · rw [hc.2.2 h1 h2] at hout
        exact ⟨h1, h2, (Except.ok.inj hout).symm⟩
      · rw [hc.2.1 h1 h2] at hout
        cases hout
    · rw [hc.1 h1] at hout
      cases hout
  · intro h solve'
    exact (segment_cases expf EPSILON MAX_BINARY_VALUE THRESHOLD_TYPE
      { fresh := solver.fresh, compute := solver.compute, info := solver.info,
        solve := solve' } self backgroundImage foregroundImage).1 h

/-- C15. Every row of the Laplacian `L` returned by `calculateLaplacian` sums to zero: `L`
applied to the all-ones vector is the zero vector.  Hence, for a non-empty image, `L` and
`L*L` are singular and, when neither mask marks any pixel, the system matrix
`Is + L*L` equals `L*L` and is singular. -/
theorem C15_rows_sum_zero (expf : α → α) (EPSILON : α) (self : SeededSegmentation α) :
    (∀ p : Fin (self.inputImage.cols * self.inputImage.rows),
        ∑ q : Fin (self.inputImage.cols * self.inputImage.rows),
          (calculateLaplacian expf EPSILON self).coeff p q = 0) ∧
      ((calculateLaplacian expf EPSILON self).toMatrix
        (self.inputImage.cols * self.inputImage.rows)).mulVec (fun _ => 1) = 0 ∧
      (0 < self.inputImage.cols * self.inputImage.rows →
        ¬ IsUnit ((calculateLaplacian expf EPSILON self).toMatrix
            (self.inputImage.cols * self.inputImage.rows)) ∧
          ¬ IsUnit (((calculateLaplacian expf EPSILON self).mul
            (calculateLaplacian expf EPSILON self)).toMatrix
            (self.inputImage.cols * self.inputImage.rows))) ∧
      (∀ backgroundImage foregroundImage : Mat Bool,
        (∀ p : Fin (self.inputImage.cols * self.inputImage.rows),
          (backgroundImage.at1 p || foregroundImage.at1 p) = false) →
        (systemMatrix expf EPSILON self backgroundImage foregroundImage).toMatrix
            (self.inputImage.cols * self.inputImage.rows) =
          ((calculateLaplacian expf EPSILON self).mul
            (calculateLaplacian expf EPSILON self)).toMatrix
            (self.inputImage.cols * self.inputImage.rows) ∧
        (0 < self.inputImage.cols * self.inputImage.rows →
          ¬ IsUnit ((systemMatrix expf EPSILON self backgroundImage foregroundImage).toMatrix
            (self.inputImage.cols * self.inputImage.rows)))) := by
  have hone := laplacianMatrix_mulVec_one expf EPSILON self
  refine ⟨?_, hone, ?_, ?_⟩
  · intro p
    have h := congrFun hone p
    unfold Matrix.mulVec Matrix.dotProduct laplacianMatrix SparseMatrix.toMatrix at h
    simpa using h
  · intro hN
    refine ⟨laplacianMatrix_not_isUnit expf EPSILON self hN, ?_⟩
    rw [laplacianSquare_toMatrix]
    exact laplacianSquare_not_isUnit expf EPSILON self hN
  · intro backgroundImage foregroundImage hnone
    refine ⟨?_, fun hN => systemMatrixDense_not_isUnit expf EPSILON self backgroundImage
      foregroundImage hN hnone⟩
    rw [laplacianSquare_toMatrix]
    exact systemMatrixDense_no_seed expf EPSILON self backgroundImage foregroundImage hnone

/-- C16. When `exp` is non-negative, `EPSILON` is positive and at least one pixel is marked
by the background or the foreground mask, the matrix `A = Is + L*L` is symmetric and
positive definite (`x^T A x > 0` for every non-zero `x`); the null space of `L` is the set
of constant vectors (the multiples of the all-ones vector); and `A x = b` has exactly one
solution for every right-hand side `b`, in particular for the bias vector of the masks. -/
theorem C16_positive_definite (expf : α → α) (EPSILON : α) (self : SeededSegmentation α)
    (hexp : ∀ x, 0 ≤ expf x) (hε : 0 < EPSILON) (backgroundImage foregroundImage : Mat Bool)
    (s : Nat) (hsN : s < self.inputImage.cols * self.inputImage.rows)
    (hs : (backgroundImage.at1 s || foregroundImage.at1 s) = true) :
    ((systemMatrix expf EPSILON self backgroundImage foregroundImage).toMatrix
          (self.inputImage.cols * self.inputImage.rows)).transpose =
        (systemMatrix expf EPSILON self backgroundImage foregroundImage).toMatrix
          (self.inputImage.cols * self.inputImage.rows) ∧
      (∀ x : Fin (self.inputImage.cols * self.inputImage.rows) → α, x ≠ 0 →
        0 < Matrix.dotProduct x
          (((systemMatrix expf EPSILON self backgroundImage foregroundImage).toMatrix
            (self.inputImage.cols * self.inputImage.rows)).mulVec x)) ∧
      (∀ x : Fin (self.inputImage.cols * self.inputImage.rows) → α,
        ((calculateLaplacian expf EPSILON self).toMatrix
            (self.inputImage.cols * self.inputImage.rows)).mulVec x = 0 ↔
          ∃ c : α, x = fun _ => c) ∧
      (∀ b : Fin (self.inputImage.cols * self.inputImage.rows) → α,
        ∃! x, ((systemMatrix expf EPSILON self backgroundImage foregroundImage).toMatrix
          (self.inputImage.cols * self.inputImage.rows)).mulVec x = b) ∧
      (∃! x, ((systemMatrix expf EPSILON self backgroundImage foregroundImage).toMatrix
          (self.inputImage.cols * self.inputImage.rows)).mulVec x =
        biasVector self backgroundImage foregroundImage) :=
  ⟨systemMatrixDense_transpose expf EPSILON self backgroundImage foregroundImage,
    fun x hx => systemMatrixDense_quadratic_pos expf EPSILON self hexp hε backgroundImage
      foregroundImage ⟨s, hsN⟩ hs x hx,
    fun x => laplacianMatrix_kernel_iff expf EPSILON self hexp hε x,
    fun b => existsUnique_of_isUnit _
      (systemMatrixDense_isUnit expf EPSILON self hexp hε backgroundImage foregroundImage
        ⟨s, hsN⟩ hs) b,
    existsUnique_of_isUnit _
      (systemMatrixDense_isUnit expf EPSILON self hexp hε backgroundImage foregroundImage
        ⟨s, hsN⟩ hs) _⟩

/-- C17. During one run of `calculateLaplacian` no matrix position is inserted twice: for a
fixed in-range pixel `(i, j)` the targets `(i+dy[k])*W + (j+dx[k])` of the offsets that pass
the bounds checks are pairwise distinct, all different from `i*W + j` and all in `[0, N)`;
each row index `i*W + j` is produced by exactly one `(i, j)`; every position of `w` and of
`d` receives at most one insertion; and every row and every column of `w` receives at most
8 insertions and of `d` exactly 1. -/
theorem C17_no_double_insertion (expf : α → α) (EPSILON : α) (self : SeededSegmentation α) :
    (∀ i j : Nat, i < self.inputImage.rows → j < self.inputImage.cols →
      ∀ k k' : Nat, k < neighborhoodSize → k' < neighborhoodSize →
        inBounds self i j k → inBounds self i j k' →
        (((i : Int) + dy.getD k 0) * self.inputImage.cols + ((j : Int) + dx.getD k 0) =
            ((i : Int) + dy.getD k' 0) * self.inputImage.cols + ((j : Int) + dx.getD k' 0) →
          k = k') ∧
        ((i : Int) + dy.getD k 0) * self.inputImage.cols + ((j : Int) + dx.getD k 0) ≠
          (i : Int) * self.inputImage.cols + j ∧
        0 ≤ ((i : Int) + dy.getD k 0) * self.inputImage.cols + ((j : Int) + dx.getD k 0) ∧
        ((i : Int) + dy.getD k 0) * self.inputImage.cols + ((j : Int) + dx.getD k 0) <
          ((self.inputImage.cols * self.inputImage.rows : Nat) : Int)) ∧
      (∀ i j i' j' : Nat, j < self.inputImage.cols → j' < self.inputImage.cols →
        (i : Int) * self.inputImage.cols + j = (i' : Int) * self.inputImage.cols + j' →
        i = i' ∧ j = j') ∧
      (∀ p q : Nat, p < self.inputImage.cols * self.inputImage.rows →
        q < self.inputImage.cols * self.inputImage.rows →
        (laplacianParts expf EPSILON self).1.insertions p q ≤ 1 ∧
          (laplacianParts expf EPSILON self).2.insertions p q ≤ 1) ∧
      (∀ p : Nat, p < self.inputImage.cols * self.inputImage.rows →
        (laplacianParts expf EPSILON self).1.rowInsertions p ≤ 8 ∧
          (laplacianParts expf EPSILON self).1.colInsertions p ≤ 8 ∧
          (laplacianParts expf EPSILON self).2.rowInsertions p = 1 ∧
          (laplacianParts expf EPSILON self).2.colInsertions p = 1) := by
  refine ⟨?_, ?_, ?_, ?_⟩
  · intro i j hi hj k k' hk hk' hb hb'
    have hb1 := hb
    have hb2 := hb'
    unfold inBounds at hb1 hb2
    have hlt := idx_lt self.inputImage.cols self.inputImage.rows ((i : Int) + dy.getD k 0)
      ((j : Int) + dx.getD k 0) (by omega) (by omega)
    refine ⟨?_, ?_, hlt.1, by push_cast; exact hlt.2⟩
    · intro heq
      have h := idx_inj self.inputImage.cols _ _ _ _ (by omega) (by omega) (by omega)
        (by omega) heq
      exact offset_inj k k' hk hk' ⟨by omega, by omega⟩
    · intro heq
      have h := idx_inj self.inputImage.cols _ _ _ _ (by omega) (by omega) (by omega)
        (by omega) heq
      exact offset_ne_zero k hk ⟨by omega, by omega⟩
  · intro i j i' j' hj hj' heq
    have h := idx_inj self.inputImage.cols _ _ _ _ (by omega) (by omega) (by omega)
      (by omega) heq
    omega
  · intro p q hp hq
    constructor
    · rw [insertions_w expf EPSILON self p q hp hq]
      split_ifs
      · exact le_refl 1
      · exact Nat.zero_le 1
    · by_cases hpq : p = q
      · subst hpq
        rw [(insertion_counts expf EPSILON self p hp).2.2.1]
      · rw [insertions_d_offdiag expf EPSILON self p q (by exact_mod_cast hpq)]
        exact Nat.zero_le 1
  · intro p hp
    have h := insertion_counts expf EPSILON self p hp
    exact ⟨h.1, h.2.1, h.2.2.2.1, h.2.2.2.2⟩

/-- C18. Swapping the two masks is an exact sign flip of the system: the assembly for
`(foregroundMask, backgroundMask)` yields the same `Is`, the same system matrix
`Is + L*L` (the Laplacian does not depend on the masks) and the negated bias `-b`; so `x`
solves `(Is + L*L) x = b` for the original masks if and only if `-x` solves it for the
swapped masks; and, with `THRESHOLD_TYPE = cv::THRESH_BINARY`, a pixel where the field is
non-zero is "on" for exactly one of `x` and `-x`, while a pixel where the field is `0` is
"off" for both. -/
theorem C18_mask_swap (expf : α → α) (EPSILON MAX_BINARY_VALUE : α)
    (self : SeededSegmentation α) (backgroundImage foregroundImage : Mat Bool)
    (x : Fin (self.inputImage.cols * self.inputImage.rows) → α) (xv : VectorXd α)
    (r c : Nat) (hr : r < self.inputImage.rows) (hc : c < self.inputImage.cols) :
    (seedAssembly self foregroundImage backgroundImage).1 =
        (seedAssembly self backgroundImage foregroundImage).1 ∧
      systemMatrix expf EPSILON self foregroundImage backgroundImage =
        systemMatrix expf EPSILON self backgroundImage foregroundImage ∧
      (∀ p : Int, (seedAssembly self foregroundImage backgroundImage).2 p =
        -(seedAssembly self backgroundImage foregroundImage).2 p) ∧
      ((systemMatrixDense expf EPSILON self backgroundImage foregroundImage).mulVec x =
          biasVector self backgroundImage foregroundImage ↔
        (systemMatrixDense expf EPSILON self foregroundImage backgroundImage).mulVec (-x) =
          biasVector self foregroundImage backgroundImage) ∧
      (xv ((r : Int) * self.inputImage.cols + c) ≠ 0 →
        ((applyThresholding MAX_BINARY_VALUE ThresholdType.THRESH_BINARY (finalImage self xv)
            segmentThreshold).at2 r c = MAX_BINARY_VALUE ∧
          (applyThresholding MAX_BINARY_VALUE ThresholdType.THRESH_BINARY
            (finalImage self (-xv)) segmentThreshold).at2 r c = 0) ∨
        ((applyThresholding MAX_BINARY_VALUE ThresholdType.THRESH_BINARY (finalImage self xv)
            segmentThreshold).at2 r c = 0 ∧
          (applyThresholding MAX_BINARY_VALUE ThresholdType.THRESH_BINARY
            (finalImage self (-xv)) segmentThreshold).at2 r c = MAX_BINARY_VALUE)) ∧
      (xv ((r : Int) * self.inputImage.cols + c) = 0 →
        (applyThresholding MAX_BINARY_VALUE ThresholdType.THRESH_BINARY (finalImage self xv)
            segmentThreshold).at2 r c = 0 ∧
          (applyThresholding MAX_BINARY_VALUE ThresholdType.THRESH_BINARY
            (finalImage self (-xv)) segmentThreshold).at2 r c = 0) := by
  have hswap := seedAssembly_swap self backgroundImage foregroundImage
  have hsys : systemMatrix expf EPSILON self foregroundImage backgroundImage =
      systemMatrix expf EPSILON self backgroundImage foregroundImage := by
    unfold systemMatrix
    simp only
    rw [hswap.1]
  refine ⟨hswap.1, hsys, fun p => by rw [hswap.2]; rfl, ?_, ?_, ?_⟩
  · have hb : biasVector self foregroundImage backgroundImage =
        -biasVector self backgroundImage foregroundImage := by
      funext p
      unfold biasVector
      rw [hswap.2]
      rfl
    unfold systemMatrixDense
    rw [hsys, Matrix.mulVec_neg, hb]
    exact neg_inj.symm
  · intro hx
    rw [output_pixel MAX_BINARY_VALUE self xv r c hr hc,
      output_pixel MAX_BINARY_VALUE self (-xv) r c hr hc, Pi.neg_apply]
    rcases lt_or_gt_of_ne hx with h | h
    · right
      rw [if_neg (not_lt.2 h.le), if_pos (neg_pos.2 h)]
      exact ⟨rfl, rfl⟩
    · left
      rw [if_pos h, if_neg (not_lt.2 (neg_nonpos.2 h.le))]
      exact ⟨rfl, rfl⟩
  · intro hx
    rw [output_pixel MAX_BINARY_VALUE self xv r c hr hc,
      output_pixel MAX_BINARY_VALUE self (-xv) r c hr hc, Pi.neg_apply, hx, neg_zero,
      if_neg (lt_irrefl 0)]
    exact ⟨rfl, rfl⟩

end SeededSegmentation

/-! ## Part IV: counterexamples and instances of the claims -/

/-- The statement C1 on a 2×2 image: the diagonally opposite pixels `0` and `3` are
8-neighbours and the entry between them is minus their weight. -/
theorem C1_laplacian_entries_witness :
    SeededSegmentation.adjacent (blackEngine ℝ 2 2).inputImage.cols 0 3 ∧
    (SeededSegmentation.calculateLaplacian Real.exp (1 / 1000) (blackEngine ℝ 2 2)).coeff
        (0 : Nat) (3 : Nat) =
      -SeededSegmentation.weight Real.exp (1 / 1000) (blackEngine ℝ 2 2) (0 : Nat) (3 : Nat) :=
  ⟨by decide,
    (SeededSegmentation.C1_laplacian_entries Real.exp (1 / 1000) (blackEngine ℝ 2 2)).1 0 3
      (by decide) (by decide) (by decide)⟩

/-- The statement C2 on a 2×2 image with background mask `{0, 1}` and foreground mask
`{1, 2}`: pixel `1`, marked in both, gets bias `0` and constraint `1`. -/
theorem C2_seed_assembly_witness :
    ((maskOf 2 2 fun p => decide (p = 0 ∨ p = 1)).at1 (1 : Nat) = true ∧
      (maskOf 2 2 fun p => decide (p = 1 ∨ p = 2)).at1 (1 : Nat) = true) ∧
    ((SeededSegmentation.seedAssembly (blackEngine ℚ 2 2)
        (maskOf 2 2 fun p => decide (p = 0 ∨ p = 1))
        (maskOf 2 2 fun p => decide (p = 1 ∨ p = 2))).2 (1 : Nat) = 0 ∧
      (SeededSegmentation.seedAssembly (blackEngine ℚ 2 2)
        (maskOf 2 2 fun p => decide (p = 0 ∨ p = 1))
        (maskOf 2 2 fun p => decide (p = 1 ∨ p = 2))).1.coeff (1 : Nat) (1 : Nat) = 1) :=
  ⟨⟨by decide, by decide⟩,
    (SeededSegmentation.C2_seed_assembly (blackEngine ℚ 2 2)
      (maskOf 2 2 fun p => decide (p = 0 ∨ p = 1))
      (maskOf 2 2 fun p => decide (p = 1 ∨ p = 2))).2.2.1 1 (by decide) (by decide) (by decide)⟩

/-- The statement C3 for the parameters `beta = 0`, `sigma = 1`: construction succeeds and
stores the arguments. -/
theorem C3_construct_witness :
    ((0 : ℚ) = 0 ∧ (0 : ℚ) < 1) ∧
    SeededSegmentation.construct (blackImage ℚ 2 2) 0 1 =
      Except.ok { inputImage := blackImage ℚ 2 2, beta := 0, sigma := 1 } :=
  ⟨⟨rfl, by decide⟩,
    (SeededSegmentation.C3_construct (blackImage ℚ 2 2) 0 1).2.2.2.2 rfl (by decide)⟩

/-- The statement C4 on a 2×2 image with the field `x = (1, 0, -1, 2)`: the pixel of row
`0`, column `1`, where `x` is exactly `0`, is "off". -/
theorem C4_threshold_witness :
    ((0 : Nat) < (blackEngine ℚ 2 2).inputImage.rows ∧
      (1 : Nat) < (blackEngine ℚ 2 2).inputImage.cols) ∧
    (SeededSegmentation.applyThresholding 255 SeededSegmentation.ThresholdType.THRESH_BINARY
        (SeededSegmentation.finalImage (blackEngine ℚ 2 2)
          (fun p => if p = 0 then 1 else if p = 1 then 0 else if p = 2 then -1 else 2))
        SeededSegmentation.segmentThreshold).at2 (0 : Nat) (1 : Nat) = (0 : ℚ) :=
  ⟨⟨by decide, by decide⟩,
    (SeededSegmentation.C4_threshold (fun _ => (1 : ℚ)) (1 / 1000) 255 (echoSolver ℚ)
      (blackEngine ℚ 2 2) (maskOf 2 2 fun p => decide (p = 0))
      (maskOf 2 2 fun p => decide (p = 3))
      (fun p => if p = 0 then 1 else if p = 1 then 0 else if p = 2 then -1 else 2) 0 1
      (by decide) (by decide)).2.2.2.2 (by decide)⟩

/-- The statement C5 on a 2×2 image, at the diagonal pair of pixels `0` and `3`. -/
theorem C5_symmetric_witness :
    ((0 : Nat) < (blackEngine ℝ 2 2).inputImage.cols * (blackEngine ℝ 2 2).inputImage.rows ∧
      (3 : Nat) < (blackEngine ℝ 2 2).inputImage.cols * (blackEngine ℝ 2 2).inputImage.rows) ∧
    (SeededSegmentation.calculateLaplacian Real.exp (1 / 1000) (blackEngine ℝ 2 2)).coeff
        (0 : Nat) (3 : Nat) =
      (SeededSegmentation.calculateLaplacian Real.exp (1 / 1000) (blackEngine ℝ 2 2)).coeff
        (3 : Nat) (0 : Nat) :=
  ⟨⟨by decide, by decide⟩,
    SeededSegmentation.C5_symmetric Real.exp (1 / 1000) (blackEngine ℝ 2 2) 0 3
      (by decide) (by decide)⟩

/-- The statement C6 for the real exponential, `EPSILON = 1/1000` and a 2×2 image. -/
theorem C6_weight_positive_witness :
    ((∀ x : ℝ, 0 ≤ Real.exp x) ∧ (0 : ℝ) < 1 / 1000) ∧
    ((∀ p q : Int,
        (1 / 1000 : ℝ) ≤ SeededSegmentation.weight Real.exp (1 / 1000) (blackEngine ℝ 2 2) p q ∧
          0 < SeededSegmentation.weight Real.exp (1 / 1000) (blackEngine ℝ 2 2) p q) ∧
      (∀ (i j : Int) (k : Nat),
        (1 / 1000 : ℝ) ≤
          SeededSegmentation.edgeValue Real.exp (1 / 1000) (blackEngine ℝ 2 2) i j k) ∧
      (∀ e ∈ (SeededSegmentation.calculateLaplacian Real.exp (1 / 1000)
          (blackEngine ℝ 2 2)).entries,
        e.1 ≠ e.2.1 → e.2.2 ≤ -(1 / 1000 : ℝ) ∧ e.2.2 < 0 ∧ e.2.2 ≠ 0)) :=
  ⟨⟨fun x => (Real.exp_pos x).le, by norm_num⟩,
    SeededSegmentation.C6_weight_positive Real.exp (1 / 1000) (blackEngine ℝ 2 2)
      (fun x => (Real.exp_pos x).le) (by norm_num)⟩

/-- C7 (as stated) fails on the uniform 1×2 image: its pixel `(0, 0)` is a corner, it has a
single neighbour, and its Laplacian diagonal is `w`, not `3w`. -/
theorem C7_counterexample :
    SeededSegmentation.isUniform (blackEngine ℝ 1 2).inputImage ∧
      SeededSegmentation.isCorner (blackEngine ℝ 1 2).inputImage.rows
        (blackEngine ℝ 1 2).inputImage.cols 0 0 ∧
      (0 : ℝ) ≤ (blackEngine ℝ 1 2).beta ∧ (0 : ℝ) < (blackEngine ℝ 1 2).sigma ∧
      (SeededSegmentation.calculateLaplacian Real.exp (1 / 1000) (blackEngine ℝ 1 2)).coeff 0 0 =
        SeededSegmentation.uniformWeight (1 / 1000 : ℝ) ∧
      (SeededSegmentation.calculateLaplacian Real.exp (1 / 1000) (blackEngine ℝ 1 2)).coeff 0 0 ≠
        3 * SeededSegmentation.uniformWeight (1 / 1000 : ℝ) := by
  have hcoeff : (SeededSegmentation.calculateLaplacian Real.exp (1 / 1000)
      (blackEngine ℝ 1 2)).coeff 0 0 = SeededSegmentation.uniformWeight (1 / 1000 : ℝ) := by
    have h := SeededSegmentation.calculateLaplacian_coeff_idx Real.exp (1 / 1000)
      (blackEngine ℝ 1 2) 0 0 0 0 (by decide) (by decide) (by decide) (by decide)
    rw [if_pos ⟨rfl, rfl⟩, SeededSegmentation.degree_uniform Real.exp (1 / 1000)
      (blackEngine ℝ 1 2) Real.exp_zero (blackImage_isUniform ℝ 1 2) 0 0 (by decide)
      (by decide)] at h
    simp [SeededSegmentation.neighborhoodSize, Finset.sum_range_succ,
      SeededSegmentation.inBounds, SeededSegmentation.dy, SeededSegmentation.dx,
      blackEngine, blackImage] at h
    simpa [blackEngine, blackImage] using h
  have hpos : (0 : ℝ) < SeededSegmentation.uniformWeight (1 / 1000 : ℝ) :=
    lt_of_lt_of_le (by norm_num)
      (SeededSegmentation.quantize_ge (1 : ℝ) (1 / 1000) zero_le_one (by norm_num))
  refine ⟨blackImage_isUniform ℝ 1 2, Or.inl rfl |> fun h => ⟨h, Or.inl rfl⟩, ?_, ?_, hcoeff, ?_⟩
  · simp [blackEngine]
  · simp [blackEngine]
  · rw [hcoeff]
    intro h
    linarith

/-- The statement C7 on the uniform 3×3 image: the diagonal at the interior pixel `(1, 1)`,
flat position `4`, is `8w`. -/
theorem C7_uniform_laplacian_witness :
    (Real.exp 0 = 1 ∧ SeededSegmentation.isUniform (blackEngine ℝ 3 3).inputImage) ∧
      (SeededSegmentation.calculateLaplacian Real.exp (1 / 1000) (blackEngine ℝ 3 3)).coeff 4 4 =
        8 * SeededSegmentation.uniformWeight (1 / 1000 : ℝ) := by
  refine ⟨⟨Real.exp_zero, blackImage_isUniform ℝ 3 3⟩, ?_⟩
  have h := (SeededSegmentation.C7_uniform_laplacian Real.exp (1 / 1000) (blackEngine ℝ 3 3)
    Real.exp_zero (blackImage_isUniform ℝ 3 3)).2.2 1 1 (by decide) (by decide) (by decide)
    (by decide)
  rw [if_pos (by decide)] at h
  simpa [blackEngine, blackImage] using h

/-- The statement C8 on a 2×3 image: the horizontally adjacent positions `1` and `2` hold
an entry. -/
theorem C8_edges_iff_neighbours_witness :
    ((1 : Nat) < (blackEngine ℝ 2 3).inputImage.cols * (blackEngine ℝ 2 3).inputImage.rows ∧
      (2 : Nat) < (blackEngine ℝ 2 3).inputImage.cols * (blackEngine ℝ 2 3).inputImage.rows ∧
      (1 : Nat) ≠ 2) ∧
    (SeededSegmentation.calculateLaplacian Real.exp (1 / 1000) (blackEngine ℝ 2 3)).stored
      ((1 : Nat) : Int) ((2 : Nat) : Int) = true :=
  ⟨⟨by decide, by decide, by decide⟩,
    (SeededSegmentation.C8_edges_iff_neighbours Real.exp (1 / 1000) (blackEngine ℝ 2 3) 1 2
      (by decide) (by decide) (by decide)).1.2 (by decide)⟩

/-- The statement C9 on a 2×2 image for the vector `x = (0, 1, 2, 3)`. -/
theorem C9_positive_semidefinite_witness :
    ((∀ x : ℝ, 0 ≤ Real.exp x) ∧ (0 : ℝ) < 1 / 1000) ∧
    0 ≤ Matrix.dotProduct
      (fun p : Fin ((blackEngine ℝ 2 2).inputImage.cols * (blackEngine ℝ 2 2).inputImage.rows) =>
        (p.val : ℝ))
      (((SeededSegmentation.calculateLaplacian Real.exp (1 / 1000)
          (blackEngine ℝ 2 2)).toMatrix
          ((blackEngine ℝ 2 2).inputImage.cols * (blackEngine ℝ 2 2).inputImage.rows)).mulVec
        (fun p => (p.val : ℝ))) :=
  ⟨⟨fun x => (Real.exp_pos x).le, by norm_num⟩,
    (SeededSegmentation.C9_positive_semidefinite Real.exp (1 / 1000) (blackEngine ℝ 2 2)
      (fun x => (Real.exp_pos x).le) (by norm_num) (fun p => (p.val : ℝ))).1⟩

/-- C10 (as stated) fails on the 2×2 image with two empty masks: the parameters are valid
and the system matrix `Is + L*L = L*L` is singular. -/
theorem C10_counterexample :
    ((0 : ℝ) ≤ (blackEngine ℝ 2 2).beta ∧ (0 : ℝ) < (blackEngine ℝ 2 2).sigma ∧
      (0 : ℝ) < 1 / 1000) ∧
    ¬ IsUnit ((SeededSegmentation.systemMatrix Real.exp (1 / 1000) (blackEngine ℝ 2 2)
        (maskOf 2 2 fun _ => false) (maskOf 2 2 fun _ => false)).toMatrix
      ((blackEngine ℝ 2 2).inputImage.cols * (blackEngine ℝ 2 2).inputImage.rows)) := by
  refine ⟨⟨?_, ?_, by norm_num⟩, ?_⟩
  · simp [blackEngine]
  · simp [blackEngine]
  · exact SeededSegmentation.systemMatrixDense_not_isUnit Real.exp (1 / 1000)
      (blackEngine ℝ 2 2) (maskOf 2 2 fun _ => false) (maskOf 2 2 fun _ => false)
      (by decide) (fun _ => rfl)

/-- The statement C10 on a 2×2 image whose pixel `0` is marked as background. -/
theorem C10_system_invertible_witness :
    ((∀ x : ℝ, 0 ≤ Real.exp x) ∧ (0 : ℝ) < 1 / 1000 ∧
      (0 : Nat) < (blackEngine ℝ 2 2).inputImage.cols * (blackEngine ℝ 2 2).inputImage.rows ∧
      ((maskOf 2 2 fun p => decide (p = 0)).at1 (0 : Nat) ||
        (maskOf 2 2 fun _ => false).at1 (0 : Nat)) = true) ∧
    (IsUnit ((SeededSegmentation.systemMatrix Real.exp (1 / 1000) (blackEngine ℝ 2 2)
        (maskOf 2 2 fun p => decide (p = 0)) (maskOf 2 2 fun _ => false)).toMatrix
        ((blackEngine ℝ 2 2).inputImage.cols * (blackEngine ℝ 2 2).inputImage.rows)) ∧
      ¬ IsUnit ((SeededSegmentation.calculateLaplacian Real.exp (1 / 1000)
        (blackEngine ℝ 2 2)).toMatrix
        ((blackEngine ℝ 2 2).inputImage.cols * (blackEngine ℝ 2 2).inputImage.rows))) :=
  ⟨⟨fun x => (Real.exp_pos x).le, by norm_num, by decide, by decide⟩,
    SeededSegmentation.C10_system_invertible Real.exp (1 / 1000) (blackEngine ℝ 2 2)
      (fun x => (Real.exp_pos x).le) (by norm_num) (maskOf 2 2 fun p => decide (p = 0))
      (maskOf 2 2 fun _ => false) 0 (by decide) (by decide)⟩

/-- The statement C11 on the 2×2 uniform-colour image, for the real exponential and a
solver that returns the all-ones vector: `segment` returns the mask that is "on" at every
pixel. -/
theorem C11_all_background_witness :
    ∃ out, SeededSegmentation.segment Real.exp (1 / 1000) 255
        SeededSegmentation.ThresholdType.THRESH_BINARY (constantSolver ℝ fun _ => 1)
        (blackEngine ℝ 2 2) (maskOf 2 2 fun _ => true) (maskOf 2 2 fun _ => false) =
          Except.ok out ∧
      ∀ r c : Nat, r < (blackEngine ℝ 2 2).inputImage.rows →
        c < (blackEngine ℝ 2 2).inputImage.cols → out.at2 r c = 255 :=
  (SeededSegmentation.C11_all_background Real.exp (1 / 1000) 255
    (constantSolver ℝ fun _ => 1) (blackEngine ℝ 2 2) (fun x => (Real.exp_pos x).le)
    (by norm_num) (maskOf 2 2 fun _ => true) (maskOf 2 2 fun _ => false)
    (fun _ _ => rfl) (fun _ _ => rfl)).2.2.2 rfl rfl
    (SeededSegmentation.C11_all_background Real.exp (1 / 1000) 255
      (constantSolver ℝ fun _ => 1) (blackEngine ℝ 2 2) (fun x => (Real.exp_pos x).le)
      (by norm_num) (maskOf 2 2 fun _ => true) (maskOf 2 2 fun _ => false)
      (fun _ _ => rfl) (fun _ _ => rfl)).1

/-- The statement C12 for the real exponential, `EPSILON = 1/1000`, `beta = sigma = 1`, and a
solver that returns the exact solution
`(1003003000000, 1002000000000, -1003003000000) / 1003006006003`: the weight of edge `(0,1)`
is `1001/1000`, that of edge `(1,2)` is `1/1000`, and `segment` returns the mask that is
"on" at columns `0` and `1` and "off" at column `2`. -/
theorem C12_case_b_witness :
    ∃ out, SeededSegmentation.segment Real.exp (1 / 1000) 255
        SeededSegmentation.ThresholdType.THRESH_BINARY
        (constantSolver ℝ fun p =>
          if p = 0 then 1003003000000 / 1003006006003
          else if p = 1 then 1002000000000 / 1003006006003
          else -(1003003000000 / 1003006006003))
        (caseBEngine ℝ 1 1) caseBBackground caseBForeground = Except.ok out ∧
      out.at2 0 0 = 255 ∧ out.at2 0 2 = 0 ∧ out.at2 0 1 = 255 := by
  have hv : (fun p : Fin 3 =>
      (fun q : Int =>
        if q = 0 then (1003003000000 / 1003006006003 : ℝ)
        else if q = 1 then 1002000000000 / 1003006006003
        else -(1003003000000 / 1003006006003)) ((p.val : Nat) : Int)) =
      ![1003003000000 / 1003006006003, 1002000000000 / 1003006006003,
        -(1003003000000 / 1003006006003)] := by
    funext p
    fin_cases p <;> simp
  have hlt : SeededSegmentation.weight Real.exp (1 / 1000) (caseBEngine ℝ 1 1) 1 2 <
      SeededSegmentation.weight Real.exp (1 / 1000) (caseBEngine ℝ 1 1) 0 1 := by
    rw [caseB_weights_real.1, caseB_weights_real.2]
    norm_num
  obtain ⟨out, hout, h0, h2, h1⟩ :=
    (SeededSegmentation.C12_case_b Real.exp (1 / 1000) 255 1 1
      (constantSolver ℝ fun p =>
        if p = 0 then 1003003000000 / 1003006006003
        else if p = 1 then 1002000000000 / 1003006006003
        else -(1003003000000 / 1003006006003))
      (fun x => (Real.exp_pos x).le) (by norm_num)
      ![1003003000000 / 1003006006003, 1002000000000 / 1003006006003,
        -(1003003000000 / 1003006006003)]
      (fun p =>
        if p = 0 then 1003003000000 / 1003006006003
        else if p = 1 then 1002000000000 / 1003006006003
        else -(1003003000000 / 1003006006003))
      caseB_solution_real (fun p => congrFun hv p)).2.2 rfl rfl
      (hv.symm ▸ caseB_solution_real)
  exact ⟨out, hout, h0, h2, h1 hlt⟩

/-- C13 (as stated) fails: with a solver that reports success, `segment` returns a mask for
a 2×2 image and two 1×1 masks, and for a zero-sized 0×3 image; no error is raised. -/
theorem C13_counterexample :
    ((maskOf 1 1 fun p => decide (p = 0)).rows ≠ (blackEngine ℝ 2 2).inputImage.rows ∧
      ∃ out, SeededSegmentation.segment Real.exp (1 / 1000) 255
        SeededSegmentation.ThresholdType.THRESH_BINARY (echoSolver ℝ) (blackEngine ℝ 2 2)
        (maskOf 1 1 fun p => decide (p = 0)) (maskOf 1 1 fun _ => false) = Except.ok out) ∧
    ((blackEngine ℝ 0 3).inputImage.rows = 0 ∧
      ∃ out, SeededSegmentation.segment Real.exp (1 / 1000) 255
        SeededSegmentation.ThresholdType.THRESH_BINARY (echoSolver ℝ) (blackEngine ℝ 0 3)
        (maskOf 0 3 fun _ => false) (maskOf 0 3 fun _ => false) = Except.ok out) := by
  refine ⟨⟨by decide, ?_⟩, ⟨rfl, ?_⟩⟩
  · exact ⟨_, (SeededSegmentation.segment_cases Real.exp (1 / 1000) 255
      SeededSegmentation.ThresholdType.THRESH_BINARY (echoSolver ℝ) (blackEngine ℝ 2 2)
      (maskOf 1 1 fun p => decide (p = 0)) (maskOf 1 1 fun _ => false)).2.2 rfl rfl⟩
  · exact ⟨_, (SeededSegmentation.segment_cases Real.exp (1 / 1000) 255
      SeededSegmentation.ThresholdType.THRESH_BINARY (echoSolver ℝ) (blackEngine ℝ 0 3)
      (maskOf 0 3 fun _ => false) (maskOf 0 3 fun _ => false)).2.2 rfl rfl⟩

/-- The statement C13 on a 2×2 image with two 1×1 masks and a solver that reports success:
the returned mask is 2×2. -/
theorem C13_no_shape_validation_witness :
    ∃ out, SeededSegmentation.segment Real.exp (1 / 1000) 255
        SeededSegmentation.ThresholdType.THRESH_BINARY (echoSolver ℝ) (blackEngine ℝ 2 2)
        (maskOf 1 1 fun p => decide (p = 0)) (maskOf 1 1 fun _ => false) = Except.ok out ∧
      out.rows = (blackEngine ℝ 2 2).inputImage.rows ∧
      out.cols = (blackEngine ℝ 2 2).inputImage.cols :=
  (SeededSegmentation.C13_no_shape_validation Real.exp (1 / 1000) 255
    SeededSegmentation.ThresholdType.THRESH_BINARY (echoSolver ℝ) (blackEngine ℝ 2 2)
    (maskOf 1 1 fun p => decide (p = 0)) (maskOf 1 1 fun _ => false)).2.2 rfl rfl

/-- The statement C14 on a 2×2 image with a solver whose solve step fails after a successful
factorisation: `segment` aborts with "Solving failed". -/
theorem C14_solver_failures_witness :
    SeededSegmentation.segment Real.exp (1 / 1000) 255
        SeededSegmentation.ThresholdType.THRESH_BINARY (breakingSolver ℝ) (blackEngine ℝ 2 2)
        (maskOf 2 2 fun p => decide (p = 0)) (maskOf 2 2 fun p => decide (p = 3)) =
      Except.error (Exception.MathException "Solving failed") :=
  (SeededSegmentation.C14_solver_failures Real.exp (1 / 1000) 255
    SeededSegmentation.ThresholdType.THRESH_BINARY (breakingSolver ℝ) (blackEngine ℝ 2 2)
    (maskOf 2 2 fun p => decide (p = 0)) (maskOf 2 2 fun p => decide (p = 3))).2.2.1
    (by simp [breakingSolver]) (by simp [breakingSolver])

/-- The statement C16 on the 2×2 uniform-colour image with the background seed at pixel `0`
and no foreground seed, for the real exponential: the system has exactly one solution. -/
theorem C16_positive_definite_witness :
    ∃! x, ((SeededSegmentation.systemMatrix Real.exp (1 / 1000) (blackEngine ℝ 2 2)
          (maskOf 2 2 fun p => decide (p = 0)) (maskOf 2 2 fun _ => false)).toMatrix
        ((blackEngine ℝ 2 2).inputImage.cols * (blackEngine ℝ 2 2).inputImage.rows)).mulVec x =
      SeededSegmentation.biasVector (blackEngine ℝ 2 2)
        (maskOf 2 2 fun p => decide (p = 0)) (maskOf 2 2 fun _ => false) :=
  (SeededSegmentation.C16_positive_definite Real.exp (1 / 1000) (blackEngine ℝ 2 2)
    (fun x => (Real.exp_pos x).le) (by norm_num)
    (maskOf 2 2 fun p => decide (p = 0)) (maskOf 2 2 fun _ => false) 0
    (by decide) rfl).2.2.2.2

/-- The statement C17 on a 2×3 image, at the flat position `4`: its row of `w` holds at
most 8 insertions and its row of `d` exactly one. -/
theorem C17_no_double_insertion_witness :
    (4 : Nat) < (blackEngine ℝ 2 3).inputImage.cols * (blackEngine ℝ 2 3).inputImage.rows ∧
    (SeededSegmentation.laplacianParts Real.exp (1 / 1000) (blackEngine ℝ 2 3)).1.rowInsertions
        ((4 : Nat) : Int) ≤ 8 ∧
    (SeededSegmentation.laplacianParts Real.exp (1 / 1000) (blackEngine ℝ 2 3)).2.rowInsertions
        ((4 : Nat) : Int) = 1 :=
  ⟨by decide,
    ((SeededSegmentation.C17_no_double_insertion Real.exp (1 / 1000)
      (blackEngine ℝ 2 3)).2.2.2 4 (by decide)).1,
    ((SeededSegmentation.C17_no_double_insertion Real.exp (1 / 1000)
      (blackEngine ℝ 2 3)).2.2.2 4 (by decide)).2.2.1⟩

/-- The statement C18 on the 2×2 uniform-colour image with the background seed at pixel `0`
and the foreground seed at pixel `3`, at pixel `(0, 0)` of a field that is `1` everywhere:
swapping the masks negates the bias, and the pixel is "on" for the field and "off" for the
negated field. -/
theorem C18_mask_swap_witness :
    (SeededSegmentation.seedAssembly (blackEngine ℝ 2 2) (maskOf 2 2 fun p => decide (p = 3))
        (maskOf 2 2 fun p => decide (p = 0))).2 0 =
      -(SeededSegmentation.seedAssembly (blackEngine ℝ 2 2)
        (maskOf 2 2 fun p => decide (p = 0)) (maskOf 2 2 fun p => decide (p = 3))).2 0 ∧
    (((SeededSegmentation.applyThresholding 255
          SeededSegmentation.ThresholdType.THRESH_BINARY
          (SeededSegmentation.finalImage (blackEngine ℝ 2 2) (fun _ => 1))
          SeededSegmentation.segmentThreshold).at2 0 0 = (255 : ℝ) ∧
        (SeededSegmentation.applyThresholding 255
          SeededSegmentation.ThresholdType.THRESH_BINARY
          (SeededSegmentation.finalImage (blackEngine ℝ 2 2) (-(fun _ => 1)))
          SeededSegmentation.segmentThreshold).at2 0 0 = (0 : ℝ)) ∨
      ((SeededSegmentation.applyThresholding 255
          SeededSegmentation.ThresholdType.THRESH_BINARY
          (SeededSegmentation.finalImage (blackEngine ℝ 2 2) (fun _ => 1))
          SeededSegmentation.segmentThreshold).at2 0 0 = (0 : ℝ) ∧
        (SeededSegmentation.applyThresholding 255
          SeededSegmentation.ThresholdType.THRESH_BINARY
          (SeededSegmentation.finalImage (blackEngine ℝ 2 2) (-(fun _ => 1)))
          SeededSegmentation.segmentThreshold).at2 0 0 = (255 : ℝ))) :=
  ⟨(SeededSegmentation.C18_mask_swap Real.exp (1 / 1000) 255 (blackEngine ℝ 2 2)
      (maskOf 2 2 fun p => decide (p = 0)) (maskOf 2 2 fun p => decide (p = 3))
      (fun _ => 0) (fun _ => 1) 0 0 (by decide) (by decide)).2.2.1 0,
    (SeededSegmentation.C18_mask_swap Real.exp (1 / 1000) 255 (blackEngine ℝ 2 2)
      (maskOf 2 2 fun p => decide (p = 0)) (maskOf 2 2 fun p => decide (p = 3))
      (fun _ => 0) (fun _ => 1) 0 0 (by decide) (by decide)).2.2.2.2.1 one_ne_zero⟩

end MathTools
